import Mathlib

/-!
# Connect Four: board engine and session hub

A shallow embedding of `backend/internal/game/game.go`,
`backend/internal/bot/bot.go` and the session operations of
`backend/internal/websockethub/hub.go`, followed by theorems about them.

Conventions of the embedding.
* Go `int` values are `Int`; the two arithmetic updates of `CurrentPlayer`
  go through `wrap64` (two's complement, 64 bits).
* A Go function that can hit an index-out-of-range failure, or whose loop the
  embedding bounds by fuel, returns `Run α`; ordinary Go `error` results are
  data (`Option String`, the message of the `GameError`).
* `time.Now()` and `rand.Intn` are explicit arguments (`now`, `seed`).
* Logging and the broadcast of snapshots are not part of the state.
-/

namespace ConnectFour

/-! ## Data model -/

/-- Abnormal ends of a run: a Go index-out-of-range failure, or a loop of the
embedding that used up its fuel. -/
inductive Fault where
  | indexOutOfRange
  | outOfFuel
  deriving DecidableEq, Repr

/-- Result of running a piece of Go code. -/
abbrev Run (α : Type) := Except Fault α

instance instDecidableEqRun {α : Type} [DecidableEq α] : DecidableEq (Run α)
  | .ok a, .ok b =>
    if h : a = b then isTrue (by rw [h]) else isFalse (by intro e; cases e; exact h rfl)
  | .error a, .error b =>
    if h : a = b then isTrue (by rw [h]) else isFalse (by intro e; cases e; exact h rfl)
  | .ok _, .error _ => isFalse (by intro e; cases e)
  | .error _, .ok _ => isFalse (by intro e; cases e)

/-- Go `int` arithmetic: reduce a mathematical result to the signed 64-bit range. -/
def wrap64 (x : Int) : Int := (x + 2 ^ 63) % 2 ^ 64 - 2 ^ 63

/-- `rand.Intn(n)` for `n > 0`, driven by an explicit outcome `seed`. -/
def Intn (seed : Nat) (n : Nat) : Int := ((seed % n : Nat) : Int)

/-- `type Player struct`. -/
structure Player where
  ID : String
  Username : String
  IsBot : Bool
  deriving DecidableEq, Repr

/-- The zero `Player{}`. -/
def Player.zero : Player := { ID := "", Username := "", IsBot := false }

/-- `[6][7]int`: 6 rows, 7 columns. -/
abbrev Grid := Fin 6 → Fin 7 → Int

/-- `[6][7]int{}`. -/
def Grid.empty : Grid := fun _ _ => 0

/-- `b[r][c]` as an expression: fails when an index is out of range. -/
def Grid.get (b : Grid) (r c : Int) : Run Int :=
  if h : (0 ≤ r ∧ r < 6) ∧ (0 ≤ c ∧ c < 7) then
    .ok (b ⟨r.toNat, by omega⟩ ⟨c.toNat, by omega⟩)
  else .error .indexOutOfRange

/-- `b[r][c] = v`: fails when an index is out of range. -/
def Grid.set (b : Grid) (r c : Int) (v : Int) : Run Grid :=
  if h : (0 ≤ r ∧ r < 6) ∧ (0 ≤ c ∧ c < 7) then
    .ok (Function.update b ⟨r.toNat, by omega⟩
      (Function.update (b ⟨r.toNat, by omega⟩) ⟨c.toNat, by omega⟩ v))
  else .error .indexOutOfRange

/-- `type Game struct`. Timestamps are natural numbers. -/
structure Game where
  ID : String
  Board : Grid
  Players : Fin 2 → Player
  CurrentPlayer : Int
  Status : String
  Winner : Int
  CreatedAt : Nat
  LastMoveAt : Nat
  deriving DecidableEq

/-- `func NewGame(id string, player1 Player) *Game`. -/
def NewGame (id : String) (player1 : Player) (now : Nat) : Game :=
  { ID := id
    Board := Grid.empty
    Players := fun i => if i = 0 then player1 else Player.zero
    CurrentPlayer := 0
    Status := "waiting"
    Winner := -1
    CreatedAt := now
    LastMoveAt := 0 }

/-- `func (g *Game) AddPlayer(player2 Player)`. -/
def Game.AddPlayer (g : Game) (player2 : Player) (seed : Nat) : Game :=
  { g with
    Players := Function.update g.Players 1 player2
    Status := "playing"
    CurrentPlayer := Intn seed 2 }

/-- `func (g *Game) AddBot()`. -/
def Game.AddBot (g : Game) (seed : Nat) : Game :=
  { g with
    Players := Function.update g.Players 1
      { ID := "bot_" ++ g.ID, Username := "CompetitiveBot", IsBot := true }
    Status := "playing"
    CurrentPlayer := Intn seed 2 }

/-- `func (g *Game) GetCurrentPlayer() Player`: `g.Players[g.CurrentPlayer]`. -/
def Game.GetCurrentPlayer (g : Game) : Run Player :=
  if h : 0 ≤ g.CurrentPlayer ∧ g.CurrentPlayer < 2 then
    .ok (g.Players ⟨g.CurrentPlayer.toNat, by omega⟩)
  else .error .indexOutOfRange

/-! ## Win detection -/

/-- Body of each counting loop of `CheckWin`:
`if cell == player { count++; if count == 4 { return true } } else { count = 0 }`.
`none` is the early `return true`, `some n` continues with `count = n`. -/
def countStep (cell player : Int) (count : Int) : Option Int :=
  if cell = player then
    (if count + 1 = 4 then none else some (count + 1))
  else some 0

/-- One counting loop of `CheckWin`, from cell `(r, c)` with the loop guard
`guard` and the per-iteration step `(dr, dc)`. The result `true` is the early
`return true`; `false` means the loop ran to its end. -/
def scanLine (b : Grid) (player : Int) (guard : Int → Int → Bool) (dr dc : Int) :
    Nat → Int → Int → Int → Run Bool
  | 0, r, c, _ => if guard r c then .error .outOfFuel else .ok false
  | fuel + 1, r, c, count =>
    if guard r c then do
      let cell ← b.get r c
      match countStep cell player count with
      | none => .ok true
      | some count1 => scanLine b player guard dr dc fuel (r + dr) (c + dc) count1
    else .ok false

/-- The loop `for startRow > 0 && startCol > 0 { startRow--; startCol-- }`. -/
def walkUpLeft : Nat → Int → Int → Run (Int × Int)
  | 0, r, c => if r > 0 ∧ c > 0 then .error .outOfFuel else .ok (r, c)
  | fuel + 1, r, c => if r > 0 ∧ c > 0 then walkUpLeft fuel (r - 1) (c - 1) else .ok (r, c)

/-- The loop `for startRow > 0 && startCol < 6 { startRow--; startCol++ }`. -/
def walkUpRight : Nat → Int → Int → Run (Int × Int)
  | 0, r, c => if r > 0 ∧ c < 6 then .error .outOfFuel else .ok (r, c)
  | fuel + 1, r, c => if r > 0 ∧ c < 6 then walkUpRight fuel (r - 1) (c + 1) else .ok (r, c)

/-- `func (g *Game) CheckWin(row, col int) bool`. -/
def Game.CheckWin (g : Game) (row col : Int) : Run Bool := do
  let player ← g.Board.get row col
  if player = 0 then
    return false
  -- horizontal
  let h ← scanLine g.Board player (fun _ c => decide (c < 7)) 0 1 7 row 0 0
  if h then
    return true
  -- vertical
  let v ← scanLine g.Board player (fun r _ => decide (r < 6)) 1 0 7 0 col 0
  if v then
    return true
  -- diagonal, top-left to bottom-right
  let s1 ← walkUpLeft 7 row col
  let d1 ← scanLine g.Board player (fun r c => decide (r < 6 ∧ c < 7)) 1 1 7 s1.1 s1.2 0
  if d1 then
    return true
  -- diagonal, top-right to bottom-left
  let s2 ← walkUpRight 7 row col
  let d2 ← scanLine g.Board player (fun r c => decide (r < 6 ∧ c ≥ 0)) 1 (-1) 7 s2.1 s2.2 0
  if d2 then
    return true
  return false

/-- The loop of `IsBoardFull` over the columns `c, c+1, ..` below 7. -/
def topRowFull (b : Grid) : Nat → Int → Run Bool
  | 0, c => if c < 7 then .error .outOfFuel else .ok true
  | fuel + 1, c =>
    if c < 7 then do
      let cell ← b.get 0 c
      if cell = 0 then .ok false else topRowFull b fuel (c + 1)
    else .ok true

/-- `func (g *Game) IsBoardFull() bool`. -/
def Game.IsBoardFull (g : Game) : Run Bool := topRowFull g.Board 7 0

/-! ## Applying a move -/

/-- The search loop of `MakeMove`:
`row := -1; for r := 5; r >= 0; r-- { if g.Board[r][column] == 0 { row = r; break } }`,
entered at `r`. -/
def findRow (b : Grid) (column : Int) : Nat → Int → Run Int
  | 0, r => if r ≥ 0 then .error .outOfFuel else .ok (-1)
  | fuel + 1, r =>
    if r ≥ 0 then do
      let cell ← b.get r column
      if cell = 0 then .ok r else findRow b column fuel (r - 1)
    else .ok (-1)

/-- The three results `(bool, int, error)` of `MakeMove`; `err` holds the
message of the `GameError`, `none` is `nil`. -/
structure MoveResult where
  success : Bool
  row : Int
  err : Option String
  deriving DecidableEq, Repr

/-- `func (g *Game) MakeMove(column int) (bool, int, error)`: the game after the
call and the returned triple. -/
def Game.MakeMove (g : Game) (column : Int) (now : Nat) : Run (Game × MoveResult) :=
  if g.Status ≠ "playing" then
    .ok (g, ⟨false, -1, some "game is not active"⟩)
  else if column < 0 ∨ column ≥ 7 then
    .ok (g, ⟨false, -1, some "invalid column"⟩)
  else do
    let row ← findRow g.Board column 6 5
    if row = -1 then
      .ok (g, ⟨false, -1, some "column is full"⟩)
    else do
      let board ← g.Board.set row column (wrap64 (g.CurrentPlayer + 1))
      let g1 : Game := { g with Board := board, LastMoveAt := now }
      let win ← g1.CheckWin row column
      if win then
        .ok ({ g1 with Status := "finished", Winner := g1.CurrentPlayer }, ⟨true, row, none⟩)
      else do
        let full ← g1.IsBoardFull
        if full then
          .ok ({ g1 with Status := "finished", Winner := -1 }, ⟨true, row, none⟩)
        else
          .ok ({ g1 with CurrentPlayer := wrap64 (1 - g1.CurrentPlayer) }, ⟨true, row, none⟩)

/-! ## Automated opponent (`bot.go`) -/

/-- The loop `for i := i0; i < hi; i++ { body }` over a state `σ`; the body
answers `some a` for an early `return a`. -/
def forUpTo {σ α : Type} (hi : Int) (body : Int → σ → Run (σ × Option α)) :
    Nat → Int → σ → Run (σ × Option α)
  | 0, i, s => if i < hi then .error .outOfFuel else .ok (s, none)
  | fuel + 1, i, s =>
    if i < hi then do
      let step ← body i s
      match step.2 with
      | some a => .ok (step.1, some a)
      | none => forUpTo hi body fuel (i + 1) step.1
    else .ok (s, none)

/-- `func (b *Bot) isValidMove(g *game.Game, column int) bool`. -/
def Bot.isValidMove (g : Game) (column : Int) : Run Bool :=
  if column < 0 ∨ column ≥ 7 then .ok false
  else do
    let cell ← g.Board.get 0 column
    .ok (decide (cell = 0))

/-- `func (b *Bot) getNextAvailableRow(g *game.Game, column int) int`: the same
downward search as in `MakeMove`. -/
def Bot.getNextAvailableRow (g : Game) (column : Int) : Run Int :=
  findRow g.Board column 6 5

/-- `func (b *Bot) checkDirectionPotential(...) int`: its loop, entered at `i`. -/
def Bot.potentialLoop (g : Game) (player startRow startCol rowDelta colDelta : Int) :
    Nat → Int → Int → Bool → Run Int
  | 0, i, count, _ => if i < 4 then .error .outOfFuel else .ok count
  | fuel + 1, i, count, consecutive =>
    if i < 4 then
      let row := startRow + i * rowDelta
      let col := startCol + i * colDelta
      if row < 0 ∨ row ≥ 6 ∨ col < 0 ∨ col ≥ 7 then .ok count
      else do
        let cell ← g.Board.get row col
        if cell = player then
          Bot.potentialLoop g player startRow startCol rowDelta colDelta fuel (i + 1)
            (count + 1) consecutive
        else if cell = 0 ∧ consecutive = true then
          Bot.potentialLoop g player startRow startCol rowDelta colDelta fuel (i + 1)
            (count + 1) consecutive
        else .ok count
    else .ok count

/-- `func (b *Bot) checkDirectionPotential(g, player, startRow, startCol, rowDelta, colDelta) int`. -/
def Bot.checkDirectionPotential (g : Game) (player startRow startCol rowDelta colDelta : Int) :
    Run Int :=
  Bot.potentialLoop g player startRow startCol rowDelta colDelta 4 0 0 true

/-- Body of the inner loop of `hasPotentialWin` at cell `(row, col)`. -/
def Bot.potentialAt (g : Game) (player minSequence row col : Int) : Run (Option Bool) := do
  let cell ← g.Board.get row col
  if cell = player ∨ cell = 0 then
    let a ← Bot.checkDirectionPotential g player row col 0 1
    if a ≥ minSequence then return some true
    let b ← Bot.checkDirectionPotential g player row col 1 0
    if b ≥ minSequence then return some true
    let c ← Bot.checkDirectionPotential g player row col 1 1
    if c ≥ minSequence then return some true
    let d ← Bot.checkDirectionPotential g player row col 1 (-1)
    if d ≥ minSequence then return some true
    return none
  else return none

/-- `func (b *Bot) hasPotentialWin(g *game.Game, player int, minSequence int) bool`. -/
def Bot.hasPotentialWin (g : Game) (player minSequence : Int) : Run Bool := do
  let r ← forUpTo 6 (fun row (_ : Unit) =>
      forUpTo 7 (fun col (_ : Unit) => do
        let hit ← Bot.potentialAt g player minSequence row col
        .ok ((), hit)) 7 0 ()) 6 0 ()
  match r.2 with
  | some v => .ok v
  | none => .ok false

/-- Body of the first two loops of `CalculateMove`: try `marker` in `col`,
report the column when that wins, and take the trial disc back. -/
def Bot.trialWin (marker : Int) (col : Int) (g : Game) : Run (Game × Option Int) := do
  let valid ← Bot.isValidMove g col
  if valid then
    let row ← Bot.getNextAvailableRow g col
    if row ≠ -1 then
      let b1 ← g.Board.set row col marker
      let g1 : Game := { g with Board := b1 }
      let win ← g1.CheckWin row col
      let b2 ← g1.Board.set row col 0
      let g2 : Game := { g1 with Board := b2 }
      if win then .ok (g2, some col) else .ok (g2, none)
    else .ok (g, none)
  else .ok (g, none)

/-- Body of the two "create opportunities" loops of `CalculateMove`; the state
is the game and the slice of collected columns. -/
def Bot.trialPotential (marker minSequence : Int) (col : Int) (s : Game × List Int) :
    Run ((Game × List Int) × Option Unit) := do
  let g := s.1
  let valid ← Bot.isValidMove g col
  if valid then
    let row ← Bot.getNextAvailableRow g col
    if row ≠ -1 then
      let b1 ← g.Board.set row col marker
      let g1 : Game := { g with Board := b1 }
      let hit ← Bot.hasPotentialWin g1 marker minSequence
      let moves := if hit then s.2 ++ [col] else s.2
      let b2 ← g1.Board.set row col 0
      .ok (({ g1 with Board := b2 }, moves), none)
    else .ok (s, none)
  else .ok (s, none)

/-- `moves[rand.Intn(len(moves))]`. -/
def Bot.pick (moves : List Int) (seed : Nat) : Run Int :=
  match moves[(Intn seed moves.length).toNat]? with
  | some c => .ok c
  | none => .error .indexOutOfRange

/-- The loop `for _, col := range centerPref { if b.isValidMove(g, col) { return col } }`. -/
def Bot.firstValid (g : Game) : List Int → Run (Option Int)
  | [] => .ok none
  | col :: rest => do
    let valid ← Bot.isValidMove g col
    if valid then .ok (some col) else Bot.firstValid g rest

/-- Body of the last loop of `CalculateMove`, collecting the valid columns. -/
def Bot.collectValid (col : Int) (s : Game × List Int) :
    Run ((Game × List Int) × Option Unit) := do
  let valid ← Bot.isValidMove s.1 col
  if valid then .ok ((s.1, s.2 ++ [col]), none) else .ok (s, none)

/-- `func (b *Bot) CalculateMove(g *game.Game) int`: the game as the call leaves
it and the returned column. -/
def Bot.CalculateMove (g : Game) (seed : Nat) : Run (Game × Int) := do
  let botPlayer : Int := 2
  let humanPlayer : Int := 1
  let w ← forUpTo 7 (Bot.trialWin botPlayer) 7 0 g
  if let some col := w.2 then return (w.1, col)
  let k ← forUpTo 7 (Bot.trialWin humanPlayer) 7 0 w.1
  if let some col := k.2 then return (k.1, col)
  let p ← forUpTo 7 (Bot.trialPotential botPlayer 3) 7 0 (k.1, [])
  let priorityMoves := p.1.2
  if priorityMoves.length > 0 then
    let col ← Bot.pick priorityMoves seed
    return (p.1.1, col)
  let q ← forUpTo 7 (Bot.trialPotential botPlayer 2) 7 0 (p.1.1, [])
  let secondaryMoves := q.1.2
  if secondaryMoves.length > 0 then
    let col ← Bot.pick secondaryMoves seed
    return (q.1.1, col)
  let g4 := q.1.1
  let pref ← Bot.firstValid g4 [3, 2, 4, 1, 5, 0, 6]
  if let some col := pref then return (g4, col)
  let v ← forUpTo 7 Bot.collectValid 7 0 (g4, [])
  let validMoves := v.1.2
  if validMoves.length > 0 then
    let col ← Bot.pick validMoves seed
    return (g4, col)
  return (g4, -1)

/-! ## Session hub (`hub.go`) -/

/-- The `Games map[string]*game.Game` of `type Hub struct`. A session is
mutated in place through its pointer, which `setGame` writes back. -/
structure Hub where
  Games : String → Option Game

/-- `NewHub()`: no sessions. -/
def NewHub : Hub := { Games := fun _ => none }

/-- Store the state of the session `gameID`. -/
def Hub.setGame (h : Hub) (gameID : String) (g : Game) : Hub :=
  { Games := fun k => if k = gameID then some g else h.Games k }

/-- What `JoinGame` and `Hub.MakeMove` return, with the hub they leave behind:
the returned `*game.Game` (`none` is `nil`), the message of the returned error
(`none` is `nil`), and whether `go h.makeBotMove(gameID)` was started. -/
structure HubResult where
  hub : Hub
  game : Option Game
  err : Option String
  botScheduled : Bool

/-- The test `game.Status == "playing" && game.GetCurrentPlayer().IsBot`. -/
def botToMove (g : Game) : Run Bool :=
  if g.Status = "playing" then do
    let p ← g.GetCurrentPlayer
    .ok p.IsBot
  else .ok false

/-- `func (h *Hub) JoinGame(gameID string, player2 game.Player) (*game.Game, error)`. -/
def Hub.JoinGame (h : Hub) (gameID : String) (player2 : Player) (seed : Nat) : Run HubResult :=
  match h.Games gameID with
  | none => .ok ⟨h, none, some "game not found", false⟩
  | some game =>
    if game.Status ≠ "waiting" then
      .ok ⟨h, none, some "game already started", false⟩
    else do
      let game1 := game.AddPlayer player2 seed
      let scheduled ← botToMove game1
      .ok ⟨h.setGame gameID game1, some game1, none, scheduled⟩

/-- `func (h *Hub) MakeMove(gameID string, playerID string, column int) (*game.Game, error)`. -/
def Hub.MakeMove (h : Hub) (gameID playerID : String) (column : Int) (now : Nat) :
    Run HubResult :=
  match h.Games gameID with
  | none => .ok ⟨h, none, some "game not found", false⟩
  | some game => do
    let currentPlayer ← game.GetCurrentPlayer
    if currentPlayer.ID ≠ playerID then
      .ok ⟨h, none, some "not your turn", false⟩
    else do
      let moved ← game.MakeMove column now
      let game1 := moved.1
      let h1 := h.setGame gameID game1
      if moved.2.err ≠ none then
        .ok ⟨h1, none, moved.2.err, false⟩
      else if moved.2.success then
        if game1.Status = "playing" then do
          let nextPlayer ← game1.GetCurrentPlayer
          if nextPlayer.IsBot then .ok ⟨h1, some game1, none, true⟩
          else .ok ⟨h1, some game1, none, false⟩
        else .ok ⟨h1, some game1, none, false⟩
      else .ok ⟨h1, some game1, none, false⟩

/-- `func (h *Hub) startBotTimeout(gameID string)` after its sleep: the hub it
leaves and whether a bot move was started. -/
def Hub.startBotTimeout (h : Hub) (gameID : String) (seed : Nat) : Run (Hub × Bool) :=
  match h.Games gameID with
  | none => .ok (h, false)
  | some game =>
    if game.Status = "waiting" then do
      let game1 := game.AddBot seed
      let scheduled ← botToMove game1
      .ok (h.setGame gameID game1, scheduled)
    else .ok (h, false)

/-- `func (h *Hub) isValidMove(g *game.Game, column int) bool`. -/
def Hub.isValidMove (g : Game) (column : Int) : Run Bool :=
  if column < 0 ∨ column ≥ 7 then .ok false
  else do
    let cell ← g.Board.get 0 column
    .ok (decide (cell = 0))

/-- The fallback loop of `makeBotMove`,
`for col := 3; col >= 0 && col < 7; col = 3 + (3-col)*-1 { ... }`, entered at
`col`: the game it leaves. -/
def Hub.fallbackLoop (now : Nat) : Nat → Int → Game → Run Game
  | 0, col, g => if col ≥ 0 ∧ col < 7 then .error .outOfFuel else .ok g
  | fuel + 1, col, g =>
    if col ≥ 0 ∧ col < 7 then do
      let col1 := if col ≠ 3 then 3 - (col - 3) else col
      let valid ← Hub.isValidMove g col1
      if valid then do
        let moved ← g.MakeMove col1 now
        .ok moved.1
      else Hub.fallbackLoop now fuel (3 + (3 - col1) * -1) g
    else .ok g

/-- `func (h *Hub) makeBotMove(gameID string)` after its sleep: the hub it leaves
and whether another bot move was started. `fuel` bounds the fallback loop. -/
def Hub.makeBotMove (h : Hub) (gameID : String) (seed now fuel : Nat) : Run (Hub × Bool) :=
  match h.Games gameID with
  | none => .ok (h, false)
  | some game =>
    if game.Status ≠ "playing" then .ok (h, false)
    else do
      let currentPlayer ← game.GetCurrentPlayer
      if currentPlayer.IsBot = false then .ok (h, false)
      else do
        let chosen ← Bot.CalculateMove game seed
        let game1 := chosen.1
        let column := chosen.2
        if column ≠ -1 then do
          let moved ← game1.MakeMove column now
          let game2 := moved.1
          if moved.2.err ≠ none then .ok (h.setGame gameID game2, false)
          else do
            let again ← botToMove game2
            .ok (h.setGame gameID game2, again)
        else do
          let game2 ← Hub.fallbackLoop now fuel 3 game1
          .ok (h.setGame gameID game2, false)

/-- The four operations on sessions that the hub runs under its lock. -/
inductive HubOp where
  | join (gameID : String) (player2 : Player) (seed : Nat)
  | timeout (gameID : String) (seed : Nat)
  | move (gameID playerID : String) (column : Int) (now : Nat)
  | bot (gameID : String) (seed now fuel : Nat)

/-- The hub after one operation. -/
def Hub.step (h : Hub) : HubOp → Run Hub
  | .join gameID player2 seed => do
    let r ← h.JoinGame gameID player2 seed
    .ok r.hub
  | .timeout gameID seed => do
    let r ← h.startBotTimeout gameID seed
    .ok r.1
  | .move gameID playerID column now => do
    let r ← h.MakeMove gameID playerID column now
    .ok r.hub
  | .bot gameID seed now fuel => do
    let r ← h.makeBotMove gameID seed now fuel
    .ok r.1

/-- The hub after a sequence of operations, one after the other. -/
def Hub.run : Hub → List HubOp → Run Hub
  | h, [] => .ok h
  | h, op :: ops => do
    let h1 ← h.step op
    Hub.run h1 ops

/-! ## Connected handles (`Hub.Run`) -/

/-- The handle set of the hub together with the delivery channels of the
handles. A handle (`*Client`) is a number; `Clients` is `map[*Client]bool`,
`queue c` is the content of the channel `c.Send`, `capacity c` its buffer size
and `closes c` the number of times `close(c.Send)` has run. -/
structure Handles where
  Clients : Nat → Bool
  queue : Nat → List String
  capacity : Nat → Nat
  closes : Nat → Nat

/-- The handle set of `NewHub()`: nothing registered, no channel written or closed. -/
def Handles.init (capacity : Nat → Nat) : Handles :=
  { Clients := fun _ => false, queue := fun _ => [], capacity := capacity, closes := fun _ => 0 }

/-- `case client := <-h.Register`: `h.Clients[client] = true`. -/
def Handles.register (s : Handles) (c : Nat) : Handles :=
  { s with Clients := Function.update s.Clients c true }

/-- `case client := <-h.Unregister`:
`if _, ok := h.Clients[client]; ok { delete(h.Clients, client); close(client.Send) }`. -/
def Handles.unregister (s : Handles) (c : Nat) : Handles :=
  if s.Clients c = true then
    { s with
      Clients := Function.update s.Clients c false
      closes := Function.update s.closes c (s.closes c + 1) }
  else s

/-- Body of the broadcast loop for the handle `c`:
`select { case client.Send <- msg: default: close(client.Send); delete(h.Clients, client) }`.
The send goes through when the buffer of the channel has room. -/
def Handles.deliver (s : Handles) (msg : String) (c : Nat) : Handles :=
  if (s.queue c).length < s.capacity c then
    { s with queue := Function.update s.queue c (s.queue c ++ [msg]) }
  else
    { s with
      closes := Function.update s.closes c (s.closes c + 1)
      Clients := Function.update s.Clients c false }

/-- `case message := <-h.Broadcast`: the loop `for client := range h.Clients`,
which visits the handles in some order `order`; a handle that is not in the
map when the loop comes to it is not visited. -/
def Handles.broadcast (s : Handles) (msg : String) : List Nat → Handles
  | [] => s
  | c :: rest => Handles.broadcast (if s.Clients c = true then s.deliver msg c else s) msg rest

/-- `WritePump` takes the next message out of the channel of the handle `c`. -/
def Handles.consume (s : Handles) (c : Nat) : Handles :=
  { s with queue := Function.update s.queue c (s.queue c).tail }

/-- What happens to the handle set: the three cases of the loop of `Hub.Run`
and the reads of `WritePump`. -/
inductive HandleEvent where
  | register (c : Nat)
  | unregister (c : Nat)
  | broadcast (msg : String) (order : List Nat)
  | consume (c : Nat)

/-- The handle set after one event. -/
def Handles.apply (s : Handles) : HandleEvent → Handles
  | .register c => s.register c
  | .unregister c => s.unregister c
  | .broadcast msg order => s.broadcast msg order
  | .consume c => s.consume c

/-- The handle set after a sequence of events. -/
def Handles.applyAll : Handles → List HandleEvent → Handles
  | s, [] => s
  | s, e :: rest => Handles.applyAll (s.apply e) rest

/-! ## Lifecycle sweeper (`cleanupRoutine`) -/

/-- `time.Hour` in nanoseconds, the unit of `time.Duration`; the sweeper reads
the timestamps in that unit. -/
def timeHour : Int := 3600000000000

/-- `delete(h.Games, gameID)`. -/
def Hub.deleteGame (h : Hub) (gameID : String) : Hub :=
  { Games := fun k => if k = gameID then none else h.Games k }

/-- One pass of the loop of `cleanupRoutine` at the time `t`,
`for gameID, game := range h.Games { if time.Since(game.CreatedAt) > time.Hour { delete(h.Games, gameID) } }`,
visiting the keys in the order `keys`. -/
def Hub.cleanupPass (t : Nat) : Hub → List String → Hub
  | h, [] => h
  | h, k :: rest =>
    match h.Games k with
    | some game =>
      Hub.cleanupPass t (if (t : Int) - (game.CreatedAt : Int) > timeHour then h.deleteGame k else h) rest
    | none => Hub.cleanupPass t h rest

/-! ## Everything that changes the `Games` map -/

/-- `func (h *Hub) CreateGame(player1 game.Player) *game.Game`: the hub it
leaves and the new game. `gameID` is what `generateGameID()` returned, the
clock formatted to the second, and `now` the clock read by `NewGame`. -/
def Hub.CreateGame (h : Hub) (gameID : String) (player1 : Player) (now : Nat) : Hub × Game :=
  let newGame := NewGame gameID player1 now
  (h.setGame gameID newGame, newGame)

/-- What changes the `Games` map under the lock of the hub: one of the four
operations on sessions, one pass of the sweeper at the time `t` over the keys
`keys`, or `CreateGame`. -/
inductive HubAction where
  | op (o : HubOp)
  | sweep (t : Nat) (keys : List String)
  | create (gameID : String) (player1 : Player) (now : Nat)

/-- The hub after one action. -/
def Hub.act (h : Hub) : HubAction → Run Hub
  | .op o => h.step o
  | .sweep t keys => .ok (h.cleanupPass t keys)
  | .create gameID player1 now => .ok (h.CreateGame gameID player1 now).1

/-- The hub after a sequence of actions, one after the other. -/
def Hub.runActions : Hub → List HubAction → Run Hub
  | h, [] => .ok h
  | h, a :: rest => do
    let h1 ← h.act a
    Hub.runActions h1 rest

/-- The action is a `CreateGame` that generated the id `id`. -/
def HubAction.creates (id : String) : HubAction → Prop
  | .create gameID _ _ => gameID = id
  | _ => False

/-- The action is a pass of the sweeper at a time more than one hour after
`created`. -/
def HubAction.sweepsPast (created : Nat) : HubAction → Prop
  | .sweep t _ => (t : Int) - (created : Int) > timeHour
  | _ => False

/-! ## Vocabulary of the statements -/

/-- Both indices lie inside the 6x7 grid. -/
def inGrid (r c : Int) : Prop := (0 ≤ r ∧ r < 6) ∧ (0 ≤ c ∧ c < 7)

instance instDecidableInGrid (r c : Int) : Decidable (inGrid r c) := by
  unfold inGrid
  infer_instance

/-- The four directions in which a window of 4 cells runs: right, down,
down-right and down-left. -/
def windowDirs : List (Int × Int) := [(0, 1), (1, 0), (1, 1), (1, -1)]

/-- The window of 4 cells that starts at `(r, c)` and runs in direction
`(dr, dc)` lies inside the grid and holds `m` in each of its cells. -/
def windowFilled (b : Grid) (m r c dr dc : Int) : Prop :=
  ∀ j : Nat, j < 4 → b.get (r + j * dr) (c + j * dc) = .ok m

instance instDecidableWindowFilled (b : Grid) (m r c dr dc : Int) :
    Decidable (windowFilled b m r c dr dc) := by
  unfold windowFilled
  infer_instance

/-- The cell `(wr, wc)` lies on the line through `(row, col)` with direction `(dr, dc)`. -/
def onLine (row col wr wc dr dc : Int) : Prop :=
  ∃ t : Int, wr = row + t * dr ∧ wc = col + t * dc

/-- Brute-force scan of the grid: try each cell as the start of a window in each
of the four directions, and report whether one of them is filled with `m`. -/
def bruteForceWin (b : Grid) (m : Int) : Bool :=
  (List.range 6).any fun r => (List.range 7).any fun c =>
    windowDirs.any fun d => decide (windowFilled b m r c d.1 d.2)

/-- The grid `b` with `v` written to the cell `(r, c)`. -/
def Grid.put (b : Grid) (r : Fin 6) (c : Fin 7) (v : Int) : Grid :=
  Function.update b r (Function.update (b r) c v)

/-- The game right after `MakeMove` has placed the disc of the current player
in the cell `(r, c)` and stamped the time, before the outcome is evaluated. -/
def Game.placed (g : Game) (r : Fin 6) (c : Fin 7) (now : Nat) : Game :=
  { g with Board := g.Board.put r c (wrap64 (g.CurrentPlayer + 1)), LastMoveAt := now }

/-- The end of `MakeMove` on the game `g1` that holds the new disc: a win ends
the game for the current player, else a full board ends it as a draw, else the
turn passes. -/
def Game.settle (g1 : Game) (win full : Bool) : Game :=
  if win then { g1 with Status := "finished", Winner := g1.CurrentPlayer }
  else if full then { g1 with Status := "finished", Winner := -1 }
  else { g1 with CurrentPlayer := wrap64 (1 - g1.CurrentPlayer) }

/-- Number of occupied (non-zero) cells of column `c`. -/
def colCount (b : Grid) (c : Fin 7) : Nat :=
  ∑ r : Fin 6, if b r c ≠ 0 then 1 else 0

/-- A run of `MakeMove` calls, one per `(column, time)` pair, each on the game
the previous call left; the returned triples are dropped. -/
def Game.playMoves : Game → List (Int × Nat) → Run Game
  | g, [] => .ok g
  | g, mv :: rest => do
    let moved ← g.MakeMove mv.1 mv.2
    Game.playMoves moved.1 rest

/-- Number of calls of the run `Game.playMoves g moves` that placed a disc in
column `c`: the calls `MakeMove(c)` that returned success. -/
def Game.acceptedInto (c : Int) : Game → List (Int × Nat) → Run Nat
  | _, [] => .ok 0
  | g, mv :: rest => do
    let moved ← g.MakeMove mv.1 mv.2
    let n ← Game.acceptedInto c moved.1 rest
    .ok (if mv.1 = c ∧ moved.2.success = true then n + 1 else n)

/-- A run of `MakeMove` calls as `Game.playMoves`, keeping the returned triples. -/
def Game.playResults : Game → List (Int × Nat) → Run (Game × List MoveResult)
  | g, [] => .ok (g, [])
  | g, mv :: rest => do
    let moved ← g.MakeMove mv.1 mv.2
    let tail ← Game.playResults moved.1 rest
    .ok (tail.1, moved.2 :: tail.2)

/-- Two games agree in what the board engine reads: board, turn index and
status, and the winner once the game is over. -/
def Game.sameEngine (g g1 : Game) : Prop :=
  g.Board = g1.Board ∧ g.CurrentPlayer = g1.CurrentPlayer ∧ g.Status = g1.Status ∧
    (g.Status ≠ "playing" → g.Winner = g1.Winner)

/-- Number of `register c` events in a sequence of events. -/
def registrations (c : Nat) : List HandleEvent → Nat
  | [] => 0
  | .register d :: rest => (if d = c then 1 else 0) + registrations c rest
  | _ :: rest => registrations c rest

/-- Column `col` is one of 0..6 and its top cell `Board[0][col]` is empty. -/
def topEmpty (b : Grid) (col : Int) : Prop := (0 ≤ col ∧ col < 7) ∧ b.get 0 col = .ok 0

instance instDecidableTopEmpty (b : Grid) (col : Int) : Decidable (topEmpty b col) := by
  unfold topEmpty
  infer_instance

/-- No window of the grid is filled with one non-zero marker. -/
def noWindow (b : Grid) : Prop := ∀ m : Int, m ≠ 0 → bruteForceWin b m = false

/-- What the board engine keeps true of a started session: the turn index is 0
or 1, and the outcome fields agree with the windows of the grid. -/
def Game.Consistent (g : Game) : Prop :=
  (g.CurrentPlayer = 0 ∨ g.CurrentPlayer = 1) ∧
  ((g.Status = "playing" ∧ noWindow g.Board) ∨
   (g.Status = "finished" ∧ g.Winner = -1 ∧ noWindow g.Board) ∨
   (g.Status = "finished" ∧ (g.Winner = 0 ∨ g.Winner = 1) ∧
      bruteForceWin g.Board (g.Winner + 1) = true ∧
      ∀ m : Int, m ≠ 0 → bruteForceWin g.Board m = true → m = g.Winner + 1))

/-- What one hub operation can do to a session: leave it alone, fill slot 1 of
a waiting session (`AddPlayer` or `AddBot`), or run `MakeMove` on a playing one. -/
def Game.sessionStep (g g1 : Game) : Prop :=
  g1 = g ∨
  (g.Status = "waiting" ∧
    ((∃ (p : Player) (seed : Nat), g1 = g.AddPlayer p seed) ∨ ∃ seed : Nat, g1 = g.AddBot seed)) ∨
  (g.Status = "playing" ∧
    ∃ (column : Int) (now : Nat) (res : MoveResult), g.MakeMove column now = .ok (g1, res))

/-- The slot that placed the last disc in the session `id`, followed along a
run of hub operations from the value `last`: an operation that changes the
board of the session placed a disc for the slot whose turn it was. The result
is the hub after the run and that slot (`none`: no disc was placed). -/
def Hub.lastPlacer (id : String) : Hub → List HubOp → Option Int → Run (Hub × Option Int)
  | h, [], last => .ok (h, last)
  | h, op :: ops, last => do
    let h1 ← h.step op
    let last1 :=
      match h.Games id, h1.Games id with
      | some g, some g1 => if g1.Board ≠ g.Board then some g.CurrentPlayer else last
      | _, _ => last
    Hub.lastPlacer id h1 ops last1

/-- What the hub keeps true of the outcome fields of a session, `last` being
the slot that placed the last disc: the turn index is 0 or 1, and either there
is no winner (`Winner = -1`) in one of the three statuses, or the session is
finished and the winner is the slot `last`, 0 or 1. -/
def Game.winnerSound (g : Game) (last : Option Int) : Prop :=
  (g.CurrentPlayer = 0 ∨ g.CurrentPlayer = 1) ∧
  (((g.Status = "waiting" ∨ g.Status = "playing" ∨ g.Status = "finished") ∧ g.Winner = -1) ∨
   (g.Status = "finished" ∧ (g.Winner = 0 ∨ g.Winner = 1) ∧ last = some g.Winner))

/-- No empty cell lies below an occupied cell of the same column. -/
def Grid.noGap (b : Grid) : Prop :=
  ∀ (r r1 : Fin 6) (c : Fin 7), b r c ≠ 0 → r < r1 → b r1 c ≠ 0

/-- Dropping a disc with marker `m` in column `c` gives `m` a four in a row:
the top cell of the column is empty, and with `m` written on the lowest empty
cell `(r, c)` of the column one of the four lines through that cell holds a
window of 4 cells that all equal `m`. -/
def dropWins (b : Grid) (m : Int) (c : Fin 7) : Prop :=
  b 0 c = 0 ∧ ∃ r : Fin 6, (b r c = 0 ∧ ∀ r1 : Fin 6, r < r1 → b r1 c ≠ 0) ∧
    ∃ (wr wc : Int) (d : Int × Int), d ∈ windowDirs ∧
      onLine ((r : Nat) : Int) ((c : Nat) : Int) wr wc d.1 d.2 ∧
      windowFilled (b.put r c m) m wr wc d.1 d.2

/-- Column `col` is the lowest-numbered column in which a dropped disc with
marker `m` gives `m` a four in a row. -/
def lowestDropWin (b : Grid) (m : Int) (col : Int) : Prop :=
  ∃ c : Fin 7, col = ((c : Nat) : Int) ∧ dropWins b m c ∧ ∀ c1 : Fin 7, dropWins b m c1 → c ≤ c1

/-- What the hub keeps true of every session: the turn index is 0 or 1, a
waiting session has the empty board, and a playing session has a column whose
top cell is empty. -/
def Game.Live (g : Game) : Prop :=
  (g.CurrentPlayer = 0 ∨ g.CurrentPlayer = 1) ∧
  (g.Status = "waiting" → g.Board = Grid.empty) ∧
  (g.Status = "playing" → ∃ c : Fin 7, g.Board 0 c = 0)

/-! ## Concrete sessions, used to instantiate the theorems -/

/-- A human participant. -/
def demoAlice : Player := { ID := "p1", Username := "alice", IsBot := false }

/-- A second human participant. -/
def demoBob : Player := { ID := "p2", Username := "bob", IsBot := false }

/-- A session that has just started: created by alice, joined by bob, alice to move. -/
def demoFresh : Game := (NewGame "game_1" demoAlice 0).AddPlayer demoBob 0

/-- A playing game whose turn index is -1, outside the documented `0 or 1`. -/
def demoMinusOne : Game := { demoFresh with CurrentPlayer := -1 }

/-- A hub that holds the fresh session under the key "game_1". -/
def demoHub : Hub := NewHub.setGame "game_1" demoFresh

/-- A hub that holds a session nobody has joined yet. -/
def demoWaitingHub : Hub := NewHub.setGame "game_1" (NewGame "game_1" demoAlice 0)

/-- The fresh session after the moves 3, 3, 3, 3, 3, 3: column 3 is full, no
four in a row, alice to move. -/
def demoCentreFull : Game :=
  { demoFresh with
    Board := fun r c => if c = 3 then (if r.val % 2 = 1 then 1 else 2) else 0
    LastMoveAt := 6 }

/-- Two registered handles with channels of capacity 1: the queue of handle 0
is empty, the queue of handle 1 is full. -/
def demoHandles : Handles :=
  { Clients := fun c => decide (c < 2)
    queue := fun c => if c = 1 then ["old"] else []
    capacity := fun _ => 1
    closes := fun _ => 0 }

/-- A session that the join timeout has filled with the automated participant,
which is to move (slot 1). -/
def demoBotGame : Game := (NewGame "game_1" demoAlice 0).AddBot 1

/-- The automated participant (marker 2) holds columns 1, 2, 3 of the bottom
row, the human (marker 1) the cells above them. -/
def demoThreat : Game :=
  { demoBotGame with
    Board := fun r c =>
      if c.val = 1 ∨ c.val = 2 ∨ c.val = 3 then
        (if r.val = 5 then 2 else if r.val = 4 then 1 else 0)
      else 0 }

/-- The human (marker 1) holds columns 0, 1, 2 of the bottom row; the automated
participant (marker 2) holds two cells above them and the bottom cell of column 5. -/
def demoBlock : Game :=
  { demoBotGame with
    Board := fun r c =>
      if r.val = 5 then (if c.val ≤ 2 then 1 else if c.val = 5 then 2 else 0)
      else if r.val = 4 ∧ c.val ≤ 1 then 2
      else 0 }

/-- A session in which bob (slot 1, marker 2) moves first. -/
def demoBobFirst : Game := (NewGame "game_1" demoAlice 0).AddPlayer demoBob 1

/-- A full board without four in a row: the columns 0, 1, 4, 5 hold marker 1
on the even rows and marker 2 on the odd rows, the columns 2, 3, 6 the other
way round. -/
def demoDrawBoard : Grid := fun r c =>
  if (c.val = 0 ∨ c.val = 1 ∨ c.val = 4 ∨ c.val = 5) ↔ r.val % 2 = 0 then 1 else 2

/-- Forty-one moves that fill `demoDrawBoard` up to the top cell of column 0,
each with its time. -/
def demoDrawMoves : List (Int × Nat) :=
  [
    (0, 1), (0, 2), (0, 3), (0, 4), (0, 5), (2, 6), (1, 7), (1, 8), (1, 9),
    (1, 10), (1, 11), (1, 12), (2, 13), (2, 14), (2, 15), (2, 16), (2, 17), (3, 18),
    (3, 19), (3, 20), (3, 21), (3, 22), (3, 23), (6, 24), (4, 25), (4, 26), (4, 27),
    (4, 28), (4, 29), (4, 30), (5, 31), (5, 32), (5, 33), (5, 34), (5, 35), (5, 36),
    (6, 37), (6, 38), (6, 39), (6, 40), (6, 41)]

/-- The session after `demoDrawMoves`, bob having moved first: only the top
cell of column 0 is empty, alice (marker 1) is to move. -/
def demoLastCellDraw : Game :=
  { demoFresh with
    Board := fun r c => if r.val = 0 ∧ c.val = 0 then 0 else demoDrawBoard r c
    LastMoveAt := 41 }

/-- A full board on which marker 2 holds the diagonal (0,5), (1,4), (2,3),
(3,2); without the disc on (0,5) it has no four in a row. -/
def demoWinBoard : Grid := fun r c =>
  (([[1, 1, 2, 2, 1, 2, 2],
     [2, 2, 1, 1, 2, 1, 1],
     [1, 1, 2, 2, 1, 1, 2],
     [2, 2, 2, 1, 2, 2, 1],
     [1, 1, 2, 2, 1, 1, 2],
     [2, 1, 1, 1, 2, 2, 1]] : List (List Int)).getD r.val []).getD c.val 0

/-- Forty-one moves that fill `demoWinBoard` up to the top cell of column 5,
each with its time. -/
def demoWinMoves : List (Int × Nat) :=
  [
    (1, 1), (0, 2), (0, 3), (0, 4), (0, 5), (0, 6), (0, 7), (4, 8), (1, 9),
    (1, 10), (1, 11), (1, 12), (1, 13), (5, 14), (2, 15), (2, 16), (3, 17), (2, 18),
    (4, 19), (2, 20), (2, 21), (2, 22), (5, 23), (3, 24), (3, 25), (3, 26), (3, 27),
    (3, 28), (6, 29), (4, 30), (4, 31), (4, 32), (4, 33), (5, 34), (5, 35), (6, 36),
    (6, 37), (6, 38), (6, 39), (6, 40), (5, 41)]

/-- The session after `demoWinMoves`, alice having moved first: only the top
cell of column 5 is empty, bob (marker 2) is to move. -/
def demoLastCellWin : Game :=
  { demoBobFirst with
    Board := fun r c => if r.val = 0 ∧ c.val = 5 then 0 else demoWinBoard r c
    LastMoveAt := 41 }

/-- The session with the automated participant after the moves 3, 3, 3, 3, 3, 3,
the automated participant (marker 2) having moved first: column 3 is full, every
other column is empty, and the automated participant is to move. -/
def demoBotCentreFull : Game :=
  { demoBotGame with
    Board := fun r c => if c = 3 then (if r.val % 2 = 1 then 2 else 1) else 0
    LastMoveAt := 6 }

/-! # Theorems -/

/-! ## The `Run` monad and grid access -/

@[simp] theorem ok_bind {α β : Type} (a : α) (f : α → Run β) :
    ((Except.ok a : Run α) >>= f) = f a := rfl

@[simp] theorem error_bind {α β : Type} (e : Fault) (f : α → Run β) :
    ((Except.error e : Run α) >>= f) = Except.error e := rfl

@[simp] theorem pure_eq_ok {α : Type} (a : α) : (pure a : Run α) = Except.ok a := rfl

theorem Grid.get_of_inGrid (b : Grid) {r c : Int} (h : inGrid r c) :
    b.get r c = .ok (b ⟨r.toNat, by unfold inGrid at h; omega⟩ ⟨c.toNat, by unfold inGrid at h; omega⟩) := by
  unfold inGrid at h
  simp [Grid.get, h]

theorem Grid.get_fin (b : Grid) (r : Fin 6) (c : Fin 7) :
    b.get (r : Nat) (c : Nat) = .ok (b r c) := by
  have hr := r.isLt
  have hc := c.isLt
  simp [Grid.get]

theorem Grid.inGrid_of_get {b : Grid} {r c v : Int} (h : b.get r c = .ok v) : inGrid r c := by
  unfold Grid.get at h
  split at h
  · assumption
  · cases h

theorem Grid.get_ok_iff (b : Grid) (r c v : Int) :
    b.get r c = .ok v ↔ ∃ (i : Fin 6) (j : Fin 7), r = (i : Nat) ∧ c = (j : Nat) ∧ b i j = v := by
  constructor
  · intro h
    have hg := Grid.inGrid_of_get h
    rw [Grid.get_of_inGrid b hg] at h
    unfold inGrid at hg
    refine ⟨⟨r.toNat, by omega⟩, ⟨c.toNat, by omega⟩, ?_, ?_, ?_⟩
    · simp; omega
    · simp; omega
    · simpa using h
  · rintro ⟨i, j, rfl, rfl, rfl⟩
    exact Grid.get_fin b i j


/-! ## The counting loops of `CheckWin` -/

theorem countStep_some_bounds {cell player count n : Int} (h0 : 0 ≤ count) (h3 : count ≤ 3)
    (h : countStep cell player count = some n) : 0 ≤ n ∧ n ≤ 3 := by
  unfold countStep at h
  split at h
  · split at h
    · cases h
    · cases h; omega
  · cases h; omega

/-- A loop that meets `n` cells equal to `player` in a row while `count + n = 4`
returns true. -/
theorem scanLine_finish (b : Grid) (player : Int) (guard : Int → Int → Bool) (dr dc : Int) :
    ∀ (n fuel : Nat) (r c count : Int), count + (n + 1 : Nat) = 4 → n + 1 ≤ fuel →
      (∀ j : Nat, j < n + 1 → guard (r + j * dr) (c + j * dc) = true ∧
        b.get (r + j * dr) (c + j * dc) = .ok player) →
      scanLine b player guard dr dc fuel r c count = .ok true := by
  intro n
  induction n with
  | zero =>
    intro fuel r c count hc hf hcells
    obtain ⟨f, rfl⟩ : ∃ f, fuel = f + 1 := ⟨fuel - 1, by omega⟩
    have h0 := hcells 0 (by omega)
    simp at h0
    have : count + 1 = 4 := by omega
    simp [scanLine, h0.1, h0.2, countStep, this]
  | succ n ih =>
    intro fuel r c count hc hf hcells
    obtain ⟨f, rfl⟩ : ∃ f, fuel = f + 1 := ⟨fuel - 1, by omega⟩
    have h0 := hcells 0 (by omega)
    simp at h0
    have hne : ¬ (count + 1 = 4) := by omega
    simp only [scanLine, h0.1, h0.2, countStep, hne, if_true, ok_bind, if_false]
    apply ih f (r + dr) (c + dc) (count + 1) (by push_cast at hc ⊢; omega) (by omega)
    intro j hj
    have hj1 := hcells (j + 1) (by omega)
    have e1 : r + dr + (j : Int) * dr = r + ((j + 1 : Nat) : Int) * dr := by push_cast; ring
    have e2 : c + dc + (j : Int) * dc = c + ((j + 1 : Nat) : Int) * dc := by push_cast; ring
    rw [e1, e2]
    exact hj1


/-- Completeness of a counting loop: four cells equal to `player` at the steps
`a .. a+3` of the walk make the loop return true. -/
theorem scanLine_complete (b : Grid) (player : Int) (guard : Int → Int → Bool) (dr dc : Int) :
    ∀ (a fuel : Nat) (r c count : Int), 0 ≤ count → count ≤ 3 → a + 4 ≤ fuel →
      (∀ j : Nat, j < a + 4 → guard (r + j * dr) (c + j * dc) = true ∧
        inGrid (r + j * dr) (c + j * dc)) →
      (∀ j : Nat, j < 4 → b.get (r + ((a + j : Nat) : Int) * dr) (c + ((a + j : Nat) : Int) * dc)
        = .ok player) →
      scanLine b player guard dr dc fuel r c count = .ok true := by
  intro a
  induction a with
  | zero =>
    intro fuel r c count h0 h3 hf hg hcells
    obtain ⟨n, hn⟩ : ∃ n : Nat, count + (n + 1 : Nat) = 4 := ⟨(3 - count).toNat, by omega⟩
    apply scanLine_finish b player guard dr dc n fuel r c count hn (by omega)
    intro j hj
    have hj4 : j < 4 := by omega
    refine ⟨(hg j (by omega)).1, ?_⟩
    have := hcells j hj4
    simpa using this
  | succ a ih =>
    intro fuel r c count h0 h3 hf hg hcells
    obtain ⟨f, rfl⟩ : ∃ f, fuel = f + 1 := ⟨fuel - 1, by omega⟩
    have hg0 := hg 0 (by omega)
    simp at hg0
    rw [scanLine]
    simp only [hg0.1, if_true, Grid.get_of_inGrid b hg0.2, ok_bind]
    cases hstep : countStep (b ⟨r.toNat, _⟩ ⟨c.toNat, _⟩) player count with
    | none => rfl
    | some count1 =>
      have hb := countStep_some_bounds h0 h3 hstep
      apply ih f (r + dr) (c + dc) count1 hb.1 hb.2 (by omega)
      · intro j hj
        have hj1 := hg (j + 1) (by omega)
        have e1 : r + dr + (j : Int) * dr = r + ((j + 1 : Nat) : Int) * dr := by push_cast; ring
        have e2 : c + dc + (j : Int) * dc = c + ((j + 1 : Nat) : Int) * dc := by push_cast; ring
        rw [e1, e2]
        exact hj1
      · intro j hj
        have hj1 := hcells j hj
        have e1 : r + dr + ((a + j : Nat) : Int) * dr = r + ((a + 1 + j : Nat) : Int) * dr := by
          push_cast; ring
        have e2 : c + dc + ((a + j : Nat) : Int) * dc = c + ((a + 1 + j : Nat) : Int) * dc := by
          push_cast; ring
        rw [e1, e2]
        exact hj1

/-- Soundness of a counting loop: when it returns true, either four cells in a
row along the walk hold `player`, or the cells that complete the count it was
entered with do. -/
theorem scanLine_sound (b : Grid) (player : Int) (guard : Int → Int → Bool) (dr dc : Int) :
    ∀ (fuel : Nat) (r c count : Int), 0 ≤ count →
      scanLine b player guard dr dc fuel r c count = .ok true →
      (∃ a : Nat, ∀ j : Nat, j < 4 →
        b.get (r + ((a + j : Nat) : Int) * dr) (c + ((a + j : Nat) : Int) * dc) = .ok player) ∨
      (0 < count ∧ ∀ j : Nat, (j : Int) < 4 - count →
        b.get (r + j * dr) (c + j * dc) = .ok player) := by
  intro fuel
  induction fuel with
  | zero =>
    intro r c count _ h
    simp only [scanLine] at h
    split at h <;> cases h
  | succ f ih =>
    intro r c count h0 h
    rw [scanLine] at h
    split at h
    · cases hget : b.get r c with
      | error e => rw [hget] at h; cases h
      | ok v =>
        rw [hget] at h
        simp only [ok_bind] at h
        have shift : ∀ a : Nat, (∀ j : Nat, j < 4 →
            b.get (r + dr + ((a + j : Nat) : Int) * dr) (c + dc + ((a + j : Nat) : Int) * dc)
              = .ok player) →
            ∀ j : Nat, j < 4 →
              b.get (r + ((a + 1 + j : Nat) : Int) * dr) (c + ((a + 1 + j : Nat) : Int) * dc)
                = .ok player := by
          intro a ha j hj
          have e1 : r + dr + ((a + j : Nat) : Int) * dr = r + ((a + 1 + j : Nat) : Int) * dr := by
            push_cast; ring
          have e2 : c + dc + ((a + j : Nat) : Int) * dc = c + ((a + 1 + j : Nat) : Int) * dc := by
            push_cast; ring
          rw [← e1, ← e2]
          exact ha j hj
        by_cases hv : v = player
        · subst hv
          by_cases h4 : count + 1 = 4
          · right
            refine ⟨by omega, ?_⟩
            intro j hj
            have : j = 0 := by omega
            subst this
            simpa using hget
          · simp only [countStep, if_true, h4, if_false] at h
            rcases ih (r + dr) (c + dc) (count + 1) (by omega) h with ⟨a, ha⟩ | ⟨_, hrest⟩
            · exact Or.inl ⟨a + 1, shift a ha⟩
            · have hall : ∀ j : Nat, (j : Int) < 4 - count →
                  b.get (r + j * dr) (c + j * dc) = .ok v := by
                intro j hj
                cases j with
                | zero => simpa using hget
                | succ j =>
                  have := hrest j (by push_cast at hj; omega)
                  have e1 : r + dr + (j : Int) * dr = r + ((j + 1 : Nat) : Int) * dr := by
                    push_cast; ring
                  have e2 : c + dc + (j : Int) * dc = c + ((j + 1 : Nat) : Int) * dc := by
                    push_cast; ring
                  rw [← e1, ← e2]
                  exact this
              by_cases hc0 : count = 0
              · left
                refine ⟨0, ?_⟩
                intro j hj
                have := hall j (by omega)
                simpa using this
              · exact Or.inr ⟨by omega, hall⟩
        · simp only [countStep, hv, if_false] at h
          rcases ih (r + dr) (c + dc) 0 (by omega) h with ⟨a, ha⟩ | ⟨hlt, _⟩
          · exact Or.inl ⟨a + 1, shift a ha⟩
          · omega
    · cases h

/-- A counting loop ends without a fault when its walk stays inside the grid
until the guard fails, within the fuel. -/
theorem scanLine_total (b : Grid) (player : Int) (guard : Int → Int → Bool) (dr dc : Int) :
    ∀ (k fuel : Nat) (r c count : Int), k ≤ fuel →
      (∀ j : Nat, j < k → inGrid (r + j * dr) (c + j * dc)) →
      guard (r + k * dr) (c + k * dc) = false →
      ∃ v, scanLine b player guard dr dc fuel r c count = .ok v := by
  intro k
  induction k with
  | zero =>
    intro fuel r c count _ _ hg
    simp at hg
    cases fuel <;> simp [scanLine, hg]
  | succ k ih =>
    intro fuel r c count hf hin hg
    obtain ⟨f, rfl⟩ : ∃ f, fuel = f + 1 := ⟨fuel - 1, by omega⟩
    rw [scanLine]
    split
    · have h0 := hin 0 (by omega)
      simp at h0
      simp only [Grid.get_of_inGrid b h0, ok_bind]
      split
      · exact ⟨true, rfl⟩
      · rename_i count1 _
        apply ih f (r + dr) (c + dc) count1 (by omega)
        · intro j hj
          have := hin (j + 1) (by omega)
          have e1 : r + dr + (j : Int) * dr = r + ((j + 1 : Nat) : Int) * dr := by
            push_cast; ring
          have e2 : c + dc + (j : Int) * dc = c + ((j + 1 : Nat) : Int) * dc := by
            push_cast; ring
          rw [e1, e2]
          exact this
        · have e1 : r + dr + (k : Int) * dr = r + ((k + 1 : Nat) : Int) * dr := by
            push_cast; ring
          have e2 : c + dc + (k : Int) * dc = c + ((k + 1 : Nat) : Int) * dc := by
            push_cast; ring
          rw [e1, e2]
          exact hg
    · exact ⟨false, rfl⟩

theorem windowFilled_inGrid {b : Grid} {m r c dr dc : Int} (h : windowFilled b m r c dr dc)
    (j : Nat) (hj : j < 4) : inGrid (r + j * dr) (c + j * dc) :=
  Grid.inGrid_of_get (h j hj)

/-- A counting loop entered with `count = 0` that returns true has met a filled window. -/
theorem scanLine_true_window (b : Grid) (player : Int) (guard : Int → Int → Bool) (dr dc : Int)
    (fuel : Nat) (r c : Int) (h : scanLine b player guard dr dc fuel r c 0 = .ok true) :
    ∃ a : Nat, windowFilled b player (r + a * dr) (c + a * dc) dr dc := by
  rcases scanLine_sound b player guard dr dc fuel r c 0 (le_refl 0) h with ⟨a, ha⟩ | ⟨hlt, _⟩
  · refine ⟨a, ?_⟩
    intro j hj
    have := ha j hj
    have e1 : r + (a : Int) * dr + (j : Int) * dr = r + ((a + j : Nat) : Int) * dr := by
      push_cast; ring
    have e2 : c + (a : Int) * dc + (j : Int) * dc = c + ((a + j : Nat) : Int) * dc := by
      push_cast; ring
    rw [e1, e2]
    exact this
  · omega

/-- A filled window at step `a` of the walk makes the loop return true. -/
theorem scanLine_window_true (b : Grid) (player : Int) (guard : Int → Int → Bool) (dr dc : Int)
    (a fuel : Nat) (r c : Int) (hf : a + 4 ≤ fuel)
    (hg : ∀ j : Nat, j < a + 4 → guard (r + j * dr) (c + j * dc) = true ∧
      inGrid (r + j * dr) (c + j * dc))
    (hw : windowFilled b player (r + a * dr) (c + a * dc) dr dc) :
    scanLine b player guard dr dc fuel r c 0 = .ok true := by
  apply scanLine_complete b player guard dr dc a fuel r c 0 (le_refl 0) (by omega) hf hg
  intro j hj
  have := hw j hj
  have e1 : r + (a : Int) * dr + (j : Int) * dr = r + ((a + j : Nat) : Int) * dr := by
    push_cast; ring
  have e2 : c + (a : Int) * dc + (j : Int) * dc = c + ((a + j : Nat) : Int) * dc := by
    push_cast; ring
  rw [← e1, ← e2]
  exact this

/-! ### The four lines through a cell -/

theorem scanRow_total (b : Grid) (player row : Int) (hr : 0 ≤ row ∧ row < 6) :
    ∃ v, scanLine b player (fun _ c => decide (c < 7)) 0 1 7 row 0 0 = .ok v := by
  apply scanLine_total b player _ 0 1 7 7 row 0 0 (le_refl 7)
  · intro j hj
    simp only [inGrid]
    omega
  · simp

theorem scanRow_complete (b : Grid) (player row wc : Int)
    (hw : windowFilled b player row wc 0 1) :
    scanLine b player (fun _ c => decide (c < 7)) 0 1 7 row 0 0 = .ok true := by
  have h0 := windowFilled_inGrid hw 0 (by omega)
  have h3 := windowFilled_inGrid hw 3 (by omega)
  simp only [inGrid] at h0 h3
  have ha : wc = ((wc.toNat : Nat) : Int) := by omega
  apply scanLine_window_true b player _ 0 1 wc.toNat 7 row 0 (by omega)
  · intro j hj
    simp only [inGrid, decide_eq_true_eq]
    omega
  · rw [← ha]
    simpa using hw


theorem scanCol_total (b : Grid) (player col : Int) (hc : 0 ≤ col ∧ col < 7) :
    ∃ v, scanLine b player (fun r _ => decide (r < 6)) 1 0 7 0 col 0 = .ok v := by
  apply scanLine_total b player _ 1 0 6 7 0 col 0 (by omega)
  · intro j hj
    simp only [inGrid]
    omega
  · simp

theorem scanCol_complete (b : Grid) (player wr col : Int)
    (hw : windowFilled b player wr col 1 0) :
    scanLine b player (fun r _ => decide (r < 6)) 1 0 7 0 col 0 = .ok true := by
  have h0 := windowFilled_inGrid hw 0 (by omega)
  have h3 := windowFilled_inGrid hw 3 (by omega)
  simp only [inGrid] at h0 h3
  apply scanLine_window_true b player _ 1 0 wr.toNat 7 0 col (by omega)
  · intro j hj
    simp only [inGrid, decide_eq_true_eq]
    omega
  · have e1 : (0 : Int) + ((wr.toNat : Nat) : Int) * 1 = wr := by omega
    have e2 : col + ((wr.toNat : Nat) : Int) * 0 = col := by omega
    rw [e1, e2]
    exact hw

theorem scanDiag1_total (b : Grid) (player sr sc : Int) (hs : inGrid sr sc) :
    ∃ v, scanLine b player (fun r c => decide (r < 6 ∧ c < 7)) 1 1 7 sr sc 0 = .ok v := by
  simp only [inGrid] at hs
  by_cases hk : 6 - sr ≤ 7 - sc
  · apply scanLine_total b player _ 1 1 (6 - sr).toNat 7 sr sc 0 (by omega)
    · intro j hj
      simp only [inGrid]
      omega
    · simp only [decide_eq_false_iff_not]
      omega
  · apply scanLine_total b player _ 1 1 (7 - sc).toNat 7 sr sc 0 (by omega)
    · intro j hj
      simp only [inGrid]
      omega
    · simp only [decide_eq_false_iff_not]
      omega

theorem scanDiag1_complete (b : Grid) (player sr sc wr wc : Int) (hs : inGrid sr sc)
    (hstart : sr = 0 ∨ sc = 0) (hline : wr - wc = sr - sc)
    (hw : windowFilled b player wr wc 1 1) :
    scanLine b player (fun r c => decide (r < 6 ∧ c < 7)) 1 1 7 sr sc 0 = .ok true := by
  have h0 := windowFilled_inGrid hw 0 (by omega)
  have h3 := windowFilled_inGrid hw 3 (by omega)
  simp only [inGrid] at h0 h3 hs
  apply scanLine_window_true b player _ 1 1 (wr - sr).toNat 7 sr sc (by omega)
  · intro j hj
    simp only [inGrid, decide_eq_true_eq]
    omega
  · have e1 : sr + (((wr - sr).toNat : Nat) : Int) * 1 = wr := by omega
    have e2 : sc + (((wr - sr).toNat : Nat) : Int) * 1 = wc := by omega
    rw [e1, e2]
    exact hw

theorem scanDiag2_total (b : Grid) (player sr sc : Int) (hs : inGrid sr sc) :
    ∃ v, scanLine b player (fun r c => decide (r < 6 ∧ c ≥ 0)) 1 (-1) 7 sr sc 0 = .ok v := by
  simp only [inGrid] at hs
  by_cases hk : 6 - sr ≤ sc + 1
  · apply scanLine_total b player _ 1 (-1) (6 - sr).toNat 7 sr sc 0 (by omega)
    · intro j hj
      simp only [inGrid]
      omega
    · simp only [decide_eq_false_iff_not]
      omega
  · apply scanLine_total b player _ 1 (-1) (sc + 1).toNat 7 sr sc 0 (by omega)
    · intro j hj
      simp only [inGrid]
      omega
    · simp only [decide_eq_false_iff_not]
      omega

theorem scanDiag2_complete (b : Grid) (player sr sc wr wc : Int) (hs : inGrid sr sc)
    (hstart : sr = 0 ∨ sc = 6) (hline : wr + wc = sr + sc)
    (hw : windowFilled b player wr wc 1 (-1)) :
    scanLine b player (fun r c => decide (r < 6 ∧ c ≥ 0)) 1 (-1) 7 sr sc 0 = .ok true := by
  have h0 := windowFilled_inGrid hw 0 (by omega)
  have h3 := windowFilled_inGrid hw 3 (by omega)
  simp only [inGrid] at h0 h3 hs
  apply scanLine_window_true b player _ 1 (-1) (wr - sr).toNat 7 sr sc (by omega)
  · intro j hj
    simp only [inGrid, decide_eq_true_eq]
    omega
  · have e1 : sr + (((wr - sr).toNat : Nat) : Int) * 1 = wr := by omega
    have e2 : sc + (((wr - sr).toNat : Nat) : Int) * (-1) = wc := by omega
    rw [e1, e2]
    exact hw

/-! ### The walks to the start of a diagonal -/

theorem walkUpLeft_spec : ∀ (fuel : Nat) (r c : Int), 0 ≤ r → 0 ≤ c → r < fuel →
    ∃ m : Int, 0 ≤ m ∧ m ≤ r ∧ m ≤ c ∧ (r - m = 0 ∨ c - m = 0) ∧
      walkUpLeft fuel r c = .ok (r - m, c - m) := by
  intro fuel
  induction fuel with
  | zero => intro r c h0 _ h; simp at h; omega
  | succ f ih =>
    intro r c hr hc hf
    rw [walkUpLeft]
    split
    · rename_i hpos
      obtain ⟨m, hm0, hmr, hmc, hz, hw⟩ := ih (r - 1) (c - 1) (by omega) (by omega)
        (by push_cast at hf; omega)
      refine ⟨m + 1, by omega, by omega, by omega, by omega, ?_⟩
      rw [hw]
      congr 2 <;> omega
    · rename_i hpos
      refine ⟨0, le_refl 0, hr, hc, by omega, by simp⟩

theorem walkUpRight_spec : ∀ (fuel : Nat) (r c : Int), 0 ≤ r → c ≤ 6 → r < fuel →
    ∃ m : Int, 0 ≤ m ∧ m ≤ r ∧ c + m ≤ 6 ∧ (r - m = 0 ∨ c + m = 6) ∧
      walkUpRight fuel r c = .ok (r - m, c + m) := by
  intro fuel
  induction fuel with
  | zero => intro r c h0 _ h; simp at h; omega
  | succ f ih =>
    intro r c hr hc hf
    rw [walkUpRight]
    split
    · rename_i hpos
      obtain ⟨m, hm0, hmr, hmc, hz, hw⟩ := ih (r - 1) (c + 1) (by omega) (by omega)
        (by push_cast at hf; omega)
      refine ⟨m + 1, by omega, by omega, by omega, by omega, ?_⟩
      rw [hw]
      congr 2 <;> omega
    · rename_i hpos
      refine ⟨0, le_refl 0, hr, by omega, by omega, by simp⟩

/-! ### `CheckWin` as a whole -/

/-- The shape of a `CheckWin` run at a cell of the grid: the four loops end
without a fault and the call returns their disjunction, or false on an empty cell. -/
theorem CheckWin_unfold (g : Game) (row col : Int) (h : inGrid row col) :
    ∃ (p : Int) (v1 v2 v3 v4 : Bool) (m1 m2 : Int),
      g.Board.get row col = .ok p ∧
      scanLine g.Board p (fun _ c => decide (c < 7)) 0 1 7 row 0 0 = .ok v1 ∧
      scanLine g.Board p (fun r _ => decide (r < 6)) 1 0 7 0 col 0 = .ok v2 ∧
      (inGrid (row - m1) (col - m1) ∧ (row - m1 = 0 ∨ col - m1 = 0)) ∧
      scanLine g.Board p (fun r c => decide (r < 6 ∧ c < 7)) 1 1 7 (row - m1) (col - m1) 0
        = .ok v3 ∧
      (inGrid (row - m2) (col + m2) ∧ (row - m2 = 0 ∨ col + m2 = 6)) ∧
      scanLine g.Board p (fun r c => decide (r < 6 ∧ c ≥ 0)) 1 (-1) 7 (row - m2) (col + m2) 0
        = .ok v4 ∧
      g.CheckWin row col = .ok (decide (p ≠ 0) && (v1 || v2 || v3 || v4)) := by
  have hg := h
  simp only [inGrid] at hg
  obtain ⟨p, hp⟩ : ∃ p, g.Board.get row col = .ok p := ⟨_, Grid.get_of_inGrid g.Board h⟩
  obtain ⟨v1, e1⟩ := scanRow_total g.Board p row hg.1
  obtain ⟨v2, e2⟩ := scanCol_total g.Board p col hg.2
  obtain ⟨m1, hm0, hmr, hmc, hz, hw1⟩ := walkUpLeft_spec 7 row col hg.1.1 hg.2.1 (by simp; omega)
  have hs1 : inGrid (row - m1) (col - m1) := by simp only [inGrid]; omega
  obtain ⟨v3, e3⟩ := scanDiag1_total g.Board p (row - m1) (col - m1) hs1
  obtain ⟨m2, hn0, hnr, hnc, hy, hw2⟩ :=
    walkUpRight_spec 7 row col hg.1.1 (by omega) (by simp; omega)
  have hs2 : inGrid (row - m2) (col + m2) := by simp only [inGrid]; omega
  obtain ⟨v4, e4⟩ := scanDiag2_total g.Board p (row - m2) (col + m2) hs2
  refine ⟨p, v1, v2, v3, v4, m1, m2, hp, e1, e2, ⟨hs1, hz⟩, e3, ⟨hs2, hy⟩, e4, ?_⟩
  simp only [Game.CheckWin, hp, ok_bind, pure_eq_ok, e1, e2, e3, e4, hw1, hw2]
  by_cases hp0 : p = 0
  · simp [hp0]
  · cases v1 <;> cases v2 <;> cases v3 <;> cases v4 <;> simp [hp0]

/-- `CheckWin` on a cell of the grid returns without a fault. -/
theorem CheckWin_total (g : Game) (row col : Int) (h : inGrid row col) :
    ∃ v, g.CheckWin row col = .ok v := by
  obtain ⟨p, v1, v2, v3, v4, m1, m2, -, -, -, -, -, -, -, hcw⟩ := CheckWin_unfold g row col h
  exact ⟨_, hcw⟩

/-- `CheckWin` fails on a cell outside the grid. -/
theorem CheckWin_outside (g : Game) (row col : Int) (h : ¬ inGrid row col) :
    g.CheckWin row col = .error .indexOutOfRange := by
  simp only [inGrid] at h
  simp [Game.CheckWin, Grid.get, h]

/-- Soundness: when `CheckWin` returns true, the cell holds a non-zero marker and
a window on one of the four lines through the cell is filled with that marker. -/
theorem CheckWin_sound (g : Game) (row col : Int) (h : g.CheckWin row col = .ok true) :
    ∃ p, g.Board.get row col = .ok p ∧ p ≠ 0 ∧
      ∃ wr wc d, d ∈ windowDirs ∧ onLine row col wr wc d.1 d.2 ∧
        windowFilled g.Board p wr wc d.1 d.2 := by
  have hin : inGrid row col := by
    by_contra hn
    rw [CheckWin_outside g row col hn] at h
    cases h
  obtain ⟨p, v1, v2, v3, v4, m1, m2, hp, e1, e2, -, e3, -, e4, hcw⟩ := CheckWin_unfold g row col hin
  rw [hcw] at h
  have hv : (decide (p ≠ 0) && (v1 || v2 || v3 || v4)) = true := by
    injection h
  simp only [Bool.and_eq_true, decide_eq_true_eq, Bool.or_eq_true] at hv
  refine ⟨p, hp, hv.1, ?_⟩
  rcases hv.2 with ((hv1 | hv2) | hv3) | hv4
  · subst hv1
    obtain ⟨a, ha⟩ := scanLine_true_window _ _ _ _ _ _ _ _ e1
    refine ⟨_, _, (0, 1), by simp [windowDirs], ⟨(a : Int) - col, ?_, ?_⟩, ha⟩ <;> simp
  · subst hv2
    obtain ⟨a, ha⟩ := scanLine_true_window _ _ _ _ _ _ _ _ e2
    refine ⟨_, _, (1, 0), by simp [windowDirs], ⟨(a : Int) - row, ?_, ?_⟩, ha⟩ <;> simp
  · subst hv3
    obtain ⟨a, ha⟩ := scanLine_true_window _ _ _ _ _ _ _ _ e3
    refine ⟨_, _, (1, 1), by simp [windowDirs], ⟨(a : Int) - m1, ?_, ?_⟩, ha⟩ <;> simp <;> ring
  · subst hv4
    obtain ⟨a, ha⟩ := scanLine_true_window _ _ _ _ _ _ _ _ e4
    refine ⟨_, _, (1, -1), by simp [windowDirs], ⟨(a : Int) - m2, ?_, ?_⟩, ha⟩ <;> simp <;> ring

/-- Completeness: a window filled with the non-zero marker of the cell, on one
of the four lines through the cell, makes `CheckWin` return true. -/
theorem CheckWin_complete (g : Game) (row col p wr wc : Int) (d : Int × Int)
    (hp : g.Board.get row col = .ok p) (hp0 : p ≠ 0) (hd : d ∈ windowDirs)
    (hl : onLine row col wr wc d.1 d.2) (hw : windowFilled g.Board p wr wc d.1 d.2) :
    g.CheckWin row col = .ok true := by
  have hin : inGrid row col := Grid.inGrid_of_get hp
  obtain ⟨p1, v1, v2, v3, v4, m1, m2, hp1, e1, e2, hs1, e3, hs2, e4, hcw⟩ :=
    CheckWin_unfold g row col hin
  have hpp : p1 = p := by
    rw [hp] at hp1
    injection hp1 with hpp
    exact hpp.symm
  subst hpp
  obtain ⟨t, ht1, ht2⟩ := hl
  rw [hcw]
  simp only [windowDirs, List.mem_cons, List.mem_singleton, List.not_mem_nil, or_false] at hd
  have goal : (v1 || v2 || v3 || v4) = true := by
    rcases hd with rfl | rfl | rfl | rfl
    · simp only [mul_zero, add_zero] at ht1
      rw [ht1] at hw
      have := scanRow_complete g.Board p1 row wc hw
      rw [e1] at this
      injection this with this
      simp [this]
    · simp only [mul_zero, add_zero] at ht2
      rw [ht2] at hw
      have := scanCol_complete g.Board p1 wr col hw
      rw [e2] at this
      injection this with this
      simp [this]
    · simp only [mul_one] at ht1 ht2
      have := scanDiag1_complete g.Board p1 (row - m1) (col - m1) wr wc hs1.1 hs1.2
        (by omega) hw
      rw [e3] at this
      injection this with this
      simp [this]
    · simp only [mul_one, mul_neg] at ht1 ht2
      have := scanDiag2_complete g.Board p1 (row - m2) (col + m2) wr wc hs2.1 hs2.2
        (by omega) hw
      rw [e4] at this
      injection this with this
      simp [this]
  simp [goal, hp0]

/-! ## Placing a disc -/

theorem Grid.set_fin (b : Grid) (r : Fin 6) (c : Fin 7) (v : Int) :
    b.set (r : Nat) (c : Nat) v = .ok (b.put r c v) := by
  have hr := r.isLt
  have hc := c.isLt
  simp [Grid.set, Grid.put]

theorem Grid.put_same (b : Grid) (r : Fin 6) (c : Fin 7) (v : Int) : b.put r c v r c = v := by
  simp [Grid.put]

theorem Grid.put_other (b : Grid) (r r1 : Fin 6) (c c1 : Fin 7) (v : Int)
    (h : ¬ (r1 = r ∧ c1 = c)) : b.put r c v r1 c1 = b r1 c1 := by
  unfold Grid.put
  by_cases hr : r1 = r
  · subst hr
    have hc : c1 ≠ c := fun e => h ⟨rfl, e⟩
    simp [Function.update_noteq hc]
  · simp [Function.update_noteq hr]

theorem Grid.put_apply (b : Grid) (r r1 : Fin 6) (c c1 : Fin 7) (v : Int) :
    b.put r c v r1 c1 = if r1 = r ∧ c1 = c then v else b r1 c1 := by
  split
  · rename_i h
    rw [h.1, h.2, Grid.put_same]
  · rename_i h
    exact Grid.put_other b r r1 c c1 v h

/-- The search loop of `MakeMove`, entered at row `r`, returns the largest
row index at most `r` whose cell in the column is empty, or -1 without one. -/
theorem findRow_aux (b : Grid) (col : Int) (hc : 0 ≤ col ∧ col < 7) :
    ∀ (fuel : Nat) (r : Int), -1 ≤ r → r ≤ 5 → r < fuel →
      (findRow b col fuel r = .ok (-1) ∧ ∀ i : Int, 0 ≤ i → i ≤ r → b.get i col ≠ .ok 0) ∨
      (∃ row : Int, 0 ≤ row ∧ row ≤ r ∧ findRow b col fuel r = .ok row ∧
        b.get row col = .ok 0 ∧ ∀ i : Int, row < i → i ≤ r → b.get i col ≠ .ok 0) := by
  intro fuel
  induction fuel with
  | zero =>
    intro r h1 _ hf
    left
    have : r = -1 := by simp at hf; omega
    subst this
    refine ⟨by simp [findRow], ?_⟩
    intro i h0 hi
    omega
  | succ f ih =>
    intro r h1 h5 hf
    rw [findRow]
    by_cases hr : r ≥ 0
    · have hin : inGrid r col := by simp only [inGrid]; omega
      obtain ⟨v, hv⟩ : ∃ v, b.get r col = .ok v := ⟨_, Grid.get_of_inGrid b hin⟩
      simp only [hr, if_true, hv, ok_bind]
      by_cases hz : v = 0
      · subst hz
        right
        refine ⟨r, hr, le_refl r, by simp, hv, ?_⟩
        intro i h1 h2
        omega
      · simp only [hz, if_false]
        have hthis : b.get r col ≠ .ok 0 := by
          rw [hv]
          intro e
          injection e with e
          exact hz e
        rcases ih (r - 1) (by omega) (by omega) (by push_cast at hf; omega) with
          ⟨e, hall⟩ | ⟨row, h0, hle, e, hcell, hall⟩
        · left
          refine ⟨e, ?_⟩
          intro i h0 hi
          by_cases hir : i = r
          · subst hir; exact hthis
          · exact hall i h0 (by omega)
        · right
          refine ⟨row, h0, by omega, e, hcell, ?_⟩
          intro i h0 hi
          by_cases hir : i = r
          · subst hir; exact hthis
          · exact hall i h0 (by omega)
    · left
      have : r = -1 := by omega
      subst this
      refine ⟨by simp, ?_⟩
      intro i h0 hi
      omega

/-- The search of `MakeMove` in a column of the grid: -1 when no cell of the
column is empty, else the largest row index whose cell is empty. -/
theorem findRow_spec (b : Grid) (c : Fin 7) :
    (findRow b (c : Nat) 6 5 = .ok (-1) ∧ ∀ r : Fin 6, b r c ≠ 0) ∨
    (∃ row : Fin 6, findRow b (c : Nat) 6 5 = .ok ((row : Nat) : Int) ∧ b row c = 0 ∧
      ∀ r : Fin 6, row < r → b r c ≠ 0) := by
  have hc := c.isLt
  rcases findRow_aux b (c : Nat) (by omega) 6 5 (by omega) (by omega) (by simp) with
    ⟨e, hall⟩ | ⟨row, h0, hle, e, hcell, hall⟩
  · left
    refine ⟨e, ?_⟩
    intro r hr
    have hlt := r.isLt
    apply hall (r : Nat) (by omega) (by omega)
    rw [Grid.get_fin, hr]
  · right
    refine ⟨⟨row.toNat, by omega⟩, ?_, ?_, ?_⟩
    · rw [e]
      congr 1
      simp
      omega
    · rw [Grid.get_ok_iff] at hcell
      obtain ⟨i, j, hi, hj, hv⟩ := hcell
      have hjc : j = c := by
        apply Fin.ext
        omega
      have hir : i = ⟨row.toNat, by omega⟩ := by
        apply Fin.ext
        simp
        omega
      rw [← hir, ← hjc]
      exact hv
    · intro r hr hz
      have hlt := r.isLt
      have hlt2 : row.toNat < (r : Nat) := hr
      apply hall (r : Nat) (by omega) (by omega)
      rw [Grid.get_fin, hz]

/-- `IsBoardFull` looks at the top row only: it returns whether no cell of row 0 is empty. -/
theorem topRowFull_aux (b : Grid) :
    ∀ (fuel : Nat) (c : Int), 0 ≤ c → c ≤ 7 → 7 - c ≤ fuel →
      ∃ v : Bool, topRowFull b fuel c = .ok v ∧
        (v = true ↔ ∀ i : Int, c ≤ i → i < 7 → b.get 0 i ≠ .ok 0) := by
  intro fuel
  induction fuel with
  | zero =>
    intro c h0 h7 hf
    have : c = 7 := by simp at hf; omega
    subst this
    refine ⟨true, by simp [topRowFull], ?_⟩
    simp
    intro i h1 h2
    omega
  | succ f ih =>
    intro c h0 h7 hf
    rw [topRowFull]
    by_cases hc : c < 7
    · have hin : inGrid 0 c := by simp only [inGrid]; omega
      obtain ⟨x, hx⟩ : ∃ x, b.get 0 c = .ok x := ⟨_, Grid.get_of_inGrid b hin⟩
      simp only [hc, if_true, hx, ok_bind]
      by_cases hz : x = 0
      · subst hz
        refine ⟨false, by simp, ?_⟩
        simp only [Bool.false_eq_true, false_iff, not_forall]
        refine ⟨c, le_refl c, hc, ?_⟩
        simp [hx]
      · simp only [hz, if_false]
        obtain ⟨v, hv, hiff⟩ := ih (c + 1) (by omega) (by omega) (by push_cast at hf; omega)
        refine ⟨v, hv, ?_⟩
        rw [hiff]
        constructor
        · intro hall i h1 h2
          by_cases hic : i = c
          · subst hic
            rw [hx]
            intro e
            injection e with e
            exact hz e
          · exact hall i (by omega) h2
        · intro hall i h1 h2
          exact hall i (by omega) h2
    · have : c = 7 := by omega
      subst this
      refine ⟨true, by simp, ?_⟩
      simp
      intro i h1 h2
      omega

theorem IsBoardFull_spec (g : Game) :
    g.IsBoardFull = .ok (decide (∀ c : Fin 7, g.Board 0 c ≠ 0)) := by
  obtain ⟨v, hv, hiff⟩ := topRowFull_aux g.Board 7 0 (by omega) (by omega) (by simp)
  unfold Game.IsBoardFull
  rw [hv]
  congr 1
  have : (v = true) ↔ (∀ c : Fin 7, g.Board 0 c ≠ 0) := by
    rw [hiff]
    constructor
    · intro hall c hz
      have hlt := c.isLt
      apply hall (c : Nat) (by omega) (by omega)
      have := Grid.get_fin g.Board 0 c
      simp only [Fin.val_zero, Nat.cast_zero] at this
      rw [this, hz]
    · intro hall i h0 h7 hget
      rw [Grid.get_ok_iff] at hget
      obtain ⟨r, c, hr, hc, hv⟩ := hget
      have hr0 : r = 0 := by
        apply Fin.ext
        simp
        omega
      rw [hr0] at hv
      exact hall c hv
  cases v
  · simp at this
    simp [this]
  · simp at this
    simp [this]

/-! ## The cases of `MakeMove` -/

theorem MakeMove_not_playing (g : Game) (column : Int) (now : Nat) (h : g.Status ≠ "playing") :
    g.MakeMove column now = .ok (g, ⟨false, -1, some "game is not active"⟩) := by
  simp [Game.MakeMove, h]

theorem MakeMove_invalid (g : Game) (column : Int) (now : Nat) (h : g.Status = "playing")
    (hc : column < 0 ∨ column ≥ 7) :
    g.MakeMove column now = .ok (g, ⟨false, -1, some "invalid column"⟩) := by
  simp [Game.MakeMove, h, hc]

theorem MakeMove_full (g : Game) (c : Fin 7) (now : Nat) (h : g.Status = "playing")
    (hfull : ∀ r : Fin 6, g.Board r c ≠ 0) :
    g.MakeMove (c : Nat) now = .ok (g, ⟨false, -1, some "column is full"⟩) := by
  have hc := c.isLt
  have hcol : ¬ (((c : Nat) : Int) < 0 ∨ ((c : Nat) : Int) ≥ 7) := by omega
  rcases findRow_spec g.Board c with ⟨e, _⟩ | ⟨row, _, hz, _⟩
  · simp [Game.MakeMove, h, hcol, e]
  · exact absurd hz (hfull row)

/-- A legal move: with the lowest empty cell of the column at `row`, `MakeMove`
places the disc there, asks `CheckWin` and `IsBoardFull`, and settles. -/
theorem MakeMove_place (g : Game) (c : Fin 7) (now : Nat) (h : g.Status = "playing")
    (row : Fin 6) (hz : g.Board row c = 0) (hlow : ∀ r : Fin 6, row < r → g.Board r c ≠ 0) :
    ∃ win : Bool, (g.placed row c now).CheckWin (row : Nat) (c : Nat) = .ok win ∧
      g.MakeMove (c : Nat) now =
        .ok ((g.placed row c now).settle win
              (decide (∀ k : Fin 7, (g.placed row c now).Board 0 k ≠ 0)),
             ⟨true, (row : Nat), none⟩) := by
  have hc := c.isLt
  have hr := row.isLt
  have hcol : ¬ (((c : Nat) : Int) < 0 ∨ ((c : Nat) : Int) ≥ 7) := by omega
  rcases findRow_spec g.Board c with ⟨_, hfull⟩ | ⟨row1, e, hz1, hlow1⟩
  · exact absurd hz (hfull row)
  · have hrow : row1 = row := by
      rcases lt_trichotomy row1 row with hlt | heq | hgt
      · exact absurd hz (hlow1 row hlt)
      · exact heq
      · exact absurd hz1 (hlow row1 hgt)
    subst hrow
    have hin : inGrid ((row1 : Nat) : Int) ((c : Nat) : Int) := by
      simp only [inGrid]; omega
    obtain ⟨win, hwin⟩ := CheckWin_total (g.placed row1 c now) _ _ hin
    refine ⟨win, hwin, ?_⟩
    have hne : ¬ (((row1 : Nat) : Int) = -1) := by omega
    have hfullspec := IsBoardFull_spec (g.placed row1 c now)
    unfold Game.placed at hwin hfullspec
    simp only [h] at hwin hfullspec
    simp only [Game.MakeMove, h, hcol, e, ok_bind, hne, Grid.set_fin, ne_eq, not_true_eq_false,
      if_false, hwin, hfullspec]
    cases win
    · by_cases hf : ∀ k : Fin 7, ¬ g.Board.put row1 c (wrap64 (g.CurrentPlayer + 1)) 0 k = 0
      · simp [Game.settle, Game.placed, hf, h]
      · simp [Game.settle, Game.placed, hf, h]
    · simp [Game.settle, Game.placed, h]

/-! ## Arithmetic of the turn index -/

theorem wrap64_of_small (x : Int) (h : -(2 : Int) ^ 63 ≤ x ∧ x < (2 : Int) ^ 63) : wrap64 x = x := by
  unfold wrap64
  omega

theorem wrap64_succ_player (p : Int) (h : p = 0 ∨ p = 1) : wrap64 (p + 1) = p + 1 := by
  apply wrap64_of_small
  rcases h with rfl | rfl <;> norm_num

theorem wrap64_other_player (p : Int) (h : p = 0 ∨ p = 1) : wrap64 (1 - p) = 1 - p := by
  apply wrap64_of_small
  rcases h with rfl | rfl <;> norm_num

/-! ## Occupied cells of a column -/

theorem colCount_le (b : Grid) (c : Fin 7) : colCount b c ≤ 6 := by
  unfold colCount
  calc (∑ r : Fin 6, if b r c ≠ 0 then 1 else 0)
      ≤ ∑ _r : Fin 6, 1 := Finset.sum_le_sum (fun r _ => by split <;> omega)
    _ = 6 := by simp

theorem colCount_put_other (b : Grid) (row : Fin 6) (c k : Fin 7) (v : Int) (h : k ≠ c) :
    colCount (b.put row c v) k = colCount b k := by
  unfold colCount
  apply Finset.sum_congr rfl
  intro r _
  rw [Grid.put_other b row r c k v (fun e => h e.2)]

theorem colCount_put_same (b : Grid) (row : Fin 6) (c : Fin 7) (v : Int) (hz : b row c = 0)
    (hv : v ≠ 0) : colCount (b.put row c v) c = colCount b c + 1 := by
  unfold colCount
  have : ∀ r : Fin 6, (if b.put row c v r c ≠ 0 then 1 else 0)
      = (if b r c ≠ 0 then 1 else 0) + (if r = row then 1 else 0) := by
    intro r
    by_cases hr : r = row
    · subst hr
      simp [Grid.put_same, hz, hv]
    · rw [Grid.put_other b row r c c v (fun e => hr e.1)]
      simp [hr]
  rw [Finset.sum_congr rfl (fun r _ => this r), Finset.sum_add_distrib]
  simp

theorem colCount_put_mono (b : Grid) (row : Fin 6) (c k : Fin 7) (v : Int) (hz : b row c = 0) :
    colCount b k ≤ colCount (b.put row c v) k := by
  unfold colCount
  apply Finset.sum_le_sum
  intro r _
  by_cases hr : r = row ∧ k = c
  · obtain ⟨rfl, rfl⟩ := hr
    simp [hz]
  · rw [Grid.put_other b row r c k v hr]

theorem colCount_full (b : Grid) (c : Fin 7) (h : 6 ≤ colCount b c) (r : Fin 6) : b r c ≠ 0 := by
  intro hz
  have h1 := colCount_put_same b r c 1 hz (by decide)
  have h2 := colCount_le (b.put r c 1) c
  omega

/-! ## The cases of `MakeMove`, together -/

/-- In a playing game and a column of the grid, `MakeMove` either finds the
column full and leaves the game alone, or places a disc in the lowest empty
cell and settles. It never faults. -/
theorem MakeMove_cases (g : Game) (c : Fin 7) (now : Nat) (h : g.Status = "playing") :
    ((∀ r : Fin 6, g.Board r c ≠ 0) ∧
      g.MakeMove (c : Nat) now = .ok (g, ⟨false, -1, some "column is full"⟩)) ∨
    (∃ (row : Fin 6) (win : Bool), g.Board row c = 0 ∧ (∀ r : Fin 6, row < r → g.Board r c ≠ 0) ∧
      (g.placed row c now).CheckWin (row : Nat) (c : Nat) = .ok win ∧
      g.MakeMove (c : Nat) now =
        .ok ((g.placed row c now).settle win
              (decide (∀ k : Fin 7, (g.placed row c now).Board 0 k ≠ 0)),
             ⟨true, (row : Nat), none⟩)) := by
  rcases findRow_spec g.Board c with ⟨_, hfull⟩ | ⟨row, _, hz, hlow⟩
  · exact Or.inl ⟨hfull, MakeMove_full g c now h hfull⟩
  · obtain ⟨win, hwin, hmove⟩ := MakeMove_place g c now h row hz hlow
    exact Or.inr ⟨row, win, hz, hlow, hwin, hmove⟩

/-- Every column index inside 0..6 is a `Fin 7`. -/
theorem column_fin (column : Int) (h : ¬ (column < 0 ∨ column ≥ 7)) :
    ∃ c : Fin 7, column = ((c : Nat) : Int) :=
  ⟨⟨column.toNat, by omega⟩, by simp; omega⟩

/-- `MakeMove` never faults. -/
theorem MakeMove_total (g : Game) (column : Int) (now : Nat) :
    ∃ g1 res, g.MakeMove column now = .ok (g1, res) := by
  by_cases hs : g.Status = "playing"
  · by_cases hc : column < 0 ∨ column ≥ 7
    · exact ⟨_, _, MakeMove_invalid g column now hs hc⟩
    · obtain ⟨c, rfl⟩ := column_fin column hc
      rcases MakeMove_cases g c now hs with ⟨_, e⟩ | ⟨row, win, _, _, _, e⟩
      · exact ⟨_, _, e⟩
      · exact ⟨_, _, e⟩
  · exact ⟨_, _, MakeMove_not_playing g column now hs⟩

theorem settle_Board (g1 : Game) (win full : Bool) : (g1.settle win full).Board = g1.Board := by
  unfold Game.settle
  split
  · rfl
  · split <;> rfl

/-! ## Claims about `MakeMove` -/

/-- C3: for every game and every integer column, `MakeMove` returns without a
fault, and it fails exactly in three cases tested in this order: the status is
not "playing" ("game is not active"), the column is outside 0..6 ("invalid
column"), the column has no empty cell ("column is full"). In each failing case
it returns `(false, -1, error)` and the game is unchanged in every field; in
every other case it returns `(true, row, nil)` with a row of the grid. -/
theorem C3_MakeMove_failure_cases (g : Game) (column : Int) (now : Nat) :
    ∃ g1 res, g.MakeMove column now = .ok (g1, res) ∧
      if g.Status ≠ "playing" then
        g1 = g ∧ res = ⟨false, -1, some "game is not active"⟩
      else if column < 0 ∨ column ≥ 7 then
        g1 = g ∧ res = ⟨false, -1, some "invalid column"⟩
      else if ∀ r : Fin 6, g.Board.get (r : Nat) column ≠ .ok 0 then
        g1 = g ∧ res = ⟨false, -1, some "column is full"⟩
      else ∃ row : Int, (0 ≤ row ∧ row < 6) ∧ res = ⟨true, row, none⟩ := by
  by_cases hs : g.Status = "playing"
  · by_cases hc : column < 0 ∨ column ≥ 7
    · refine ⟨_, _, MakeMove_invalid g column now hs hc, ?_⟩
      simp [hs, hc]
    · obtain ⟨c, rfl⟩ := column_fin column hc
      rcases MakeMove_cases g c now hs with ⟨hfull, e⟩ | ⟨row, win, hz, _, _, e⟩
      · refine ⟨_, _, e, ?_⟩
        have : ∀ r : Fin 6, g.Board.get (r : Nat) (c : Nat) ≠ .ok 0 := by
          intro r
          rw [Grid.get_fin]
          intro h
          injection h with h
          exact hfull r h
        simp only [hs, ne_eq, not_true_eq_false, if_false, hc, this]
        simp
      · refine ⟨_, _, e, ?_⟩
        have : ¬ ∀ r : Fin 6, g.Board.get (r : Nat) (c : Nat) ≠ .ok 0 := by
          intro hall
          apply hall row
          rw [Grid.get_fin, hz]
        have hr := row.isLt
        simp only [hs, ne_eq, not_true_eq_false, if_false, hc, this]
        exact ⟨(row : Nat), ⟨by omega, by omega⟩, rfl⟩
  · refine ⟨_, _, MakeMove_not_playing g column now hs, ?_⟩
    simp [hs]

/-- In a playing game, for a column of the grid with an empty cell, `MakeMove`
succeeds, returns the largest row index whose cell in the column is empty,
writes `CurrentPlayer + 1` (as a 64-bit `int`) there and leaves every other
cell unchanged; no column's count of occupied cells decreases or exceeds 6, and
the count of the column rises by exactly one when the written marker is
non-zero. -/
theorem MakeMove_lowest_empty_row (g : Game) (c : Fin 7) (now : Nat)
    (hs : g.Status = "playing") (hempty : ∃ r : Fin 6, g.Board r c = 0) :
    ∃ (row : Fin 6) (g1 : Game),
      g.MakeMove (c : Nat) now = .ok (g1, ⟨true, (row : Nat), none⟩) ∧
      g.Board row c = 0 ∧ (∀ r : Fin 6, g.Board r c = 0 → r ≤ row) ∧
      g1.Board row c = wrap64 (g.CurrentPlayer + 1) ∧
      (∀ (r : Fin 6) (k : Fin 7), ¬ (r = row ∧ k = c) → g1.Board r k = g.Board r k) ∧
      (∀ k : Fin 7, colCount g.Board k ≤ colCount g1.Board k ∧ colCount g1.Board k ≤ 6) ∧
      (wrap64 (g.CurrentPlayer + 1) ≠ 0 → colCount g1.Board c = colCount g.Board c + 1) := by
  obtain ⟨r0, hr0⟩ := hempty
  rcases MakeMove_cases g c now hs with ⟨hfull, _⟩ | ⟨row, win, hz, hlow, _, e⟩
  · exact absurd hr0 (hfull r0)
  · refine ⟨row, _, e, hz, ?_, ?_, ?_, ?_, ?_⟩
    · intro r hr
      by_contra hlt
      exact hlow r (not_le.mp hlt) hr
    · rw [settle_Board]
      exact Grid.put_same _ _ _ _
    · intro r k hne
      rw [settle_Board]
      exact Grid.put_other _ _ _ _ _ _ hne
    · intro k
      rw [settle_Board]
      exact ⟨colCount_put_mono _ _ _ _ _ hz, colCount_le _ _⟩
    · intro hv
      rw [settle_Board]
      exact colCount_put_same _ _ _ _ hz hv

/-- C2: in a playing game with turn index 0 or 1, for a column of the grid
with an empty cell, `MakeMove` succeeds, returns the largest row index whose
cell in the column is empty (the lowest empty row), writes `CurrentPlayer + 1`
there and leaves every other cell unchanged; so the count of occupied cells of
the column rises by exactly one, and no column's count decreases or exceeds 6. -/
theorem C2_MakeMove_lowest_empty_row (g : Game) (c : Fin 7) (now : Nat)
    (hs : g.Status = "playing") (hp : g.CurrentPlayer = 0 ∨ g.CurrentPlayer = 1)
    (hempty : ∃ r : Fin 6, g.Board r c = 0) :
    ∃ (row : Fin 6) (g1 : Game),
      g.MakeMove (c : Nat) now = .ok (g1, ⟨true, (row : Nat), none⟩) ∧
      g.Board row c = 0 ∧ (∀ r : Fin 6, g.Board r c = 0 → r ≤ row) ∧
      g1.Board row c = g.CurrentPlayer + 1 ∧
      (∀ (r : Fin 6) (k : Fin 7), ¬ (r = row ∧ k = c) → g1.Board r k = g.Board r k) ∧
      colCount g1.Board c = colCount g.Board c + 1 ∧
      (∀ k : Fin 7, colCount g.Board k ≤ colCount g1.Board k ∧ colCount g1.Board k ≤ 6) := by
  obtain ⟨row, g1, hmv, hz, hlow, hcell, hrest, hcount, hone⟩ :=
    MakeMove_lowest_empty_row g c now hs hempty
  have hw : wrap64 (g.CurrentPlayer + 1) = g.CurrentPlayer + 1 :=
    wrap64_succ_player g.CurrentPlayer hp
  have hne : wrap64 (g.CurrentPlayer + 1) ≠ 0 := by
    rw [hw]
    rcases hp with h0 | h1 <;> omega
  exact ⟨row, g1, hmv, hz, hlow, by rw [hcell, hw], hrest, hone hne, hcount⟩

/-- C2, instance: the first move of a fresh session into column 3 lands on
row 5 and raises the count of column 3 from 0 to 1. -/
theorem C2_MakeMove_lowest_empty_row_witness :
    (demoFresh.Status = "playing" ∧ (demoFresh.CurrentPlayer = 0 ∨ demoFresh.CurrentPlayer = 1) ∧
      ∃ r : Fin 6, demoFresh.Board r 3 = 0) ∧
    ∃ (row : Fin 6) (g1 : Game),
      demoFresh.MakeMove ((3 : Fin 7) : Nat) 1 = .ok (g1, ⟨true, (row : Nat), none⟩) ∧
      demoFresh.Board row 3 = 0 ∧ (∀ r : Fin 6, demoFresh.Board r 3 = 0 → r ≤ row) ∧
      g1.Board row 3 = demoFresh.CurrentPlayer + 1 ∧
      (∀ (r : Fin 6) (k : Fin 7), ¬ (r = row ∧ k = 3) → g1.Board r k = demoFresh.Board r k) ∧
      colCount g1.Board 3 = colCount demoFresh.Board 3 + 1 ∧
      (∀ k : Fin 7, colCount demoFresh.Board k ≤ colCount g1.Board k ∧
        colCount g1.Board k ≤ 6) :=
  ⟨⟨by decide, by decide, ⟨5, by decide⟩⟩,
    C2_MakeMove_lowest_empty_row demoFresh 3 1 (by decide) (by decide) ⟨5, by decide⟩⟩

/-- Outside the documented range of the turn index: in the playing game with
turn index -1 and an empty board, `MakeMove(0)` succeeds with row 5 and writes
the marker 0, so the count of occupied cells of column 0 does not rise. The
program never sets such a turn index. -/
theorem MakeMove_turn_index_minus_one :
    demoMinusOne.Status = "playing" ∧ demoMinusOne.Board 5 0 = 0 ∧
    ∃ g1, demoMinusOne.MakeMove 0 1 = .ok (g1, ⟨true, 5, none⟩) ∧
      colCount g1.Board 0 ≠ colCount demoMinusOne.Board 0 + 1 :=
  ⟨by decide, by decide, (demoMinusOne.placed 5 0 1).settle false false, by decide, by decide⟩

/-- C6: a failed `MakeMove` never changes the turn index; a successful one on a
playing game with turn index `p` in {0, 1} leaves the game playing with turn
index `1 - p`, or finished with turn index still `p`. -/
theorem C6_turn_alternation (g : Game) (column : Int) (now : Nat) :
    ∃ g1 res, g.MakeMove column now = .ok (g1, res) ∧
      (res.success = false → g1.CurrentPlayer = g.CurrentPlayer) ∧
      (g.Status = "playing" → (g.CurrentPlayer = 0 ∨ g.CurrentPlayer = 1) →
        res.success = true →
          (g1.Status = "playing" ∨ g1.Status = "finished") ∧
          (g1.Status = "playing" → g1.CurrentPlayer = 1 - g.CurrentPlayer) ∧
          (g1.Status = "finished" → g1.CurrentPlayer = g.CurrentPlayer)) := by
  by_cases hs : g.Status = "playing"
  · by_cases hc : column < 0 ∨ column ≥ 7
    · refine ⟨_, _, MakeMove_invalid g column now hs hc, fun _ => rfl, ?_⟩
      intro _ _ h
      cases h
    · obtain ⟨c, rfl⟩ := column_fin column hc
      rcases MakeMove_cases g c now hs with ⟨_, e⟩ | ⟨row, win, _, _, _, e⟩
      · refine ⟨_, _, e, fun _ => rfl, ?_⟩
        intro _ _ h
        cases h
      · refine ⟨_, _, e, (fun h => by cases h), ?_⟩
        intro _ hp _
        have hw := wrap64_other_player g.CurrentPlayer hp
        unfold Game.settle Game.placed
        split
        · simp
        · split
          · simp
          · simp [hs, hw]
  · refine ⟨_, _, MakeMove_not_playing g column now hs, fun _ => rfl, ?_⟩
    intro h
    exact absurd h hs

/-- C6, instance: after the first move of a fresh session (turn index 0) the
game is still playing and the turn index is 1. -/
theorem C6_turn_alternation_witness :
    (demoFresh.Status = "playing" ∧ demoFresh.CurrentPlayer = 0) ∧
    ∃ g1 res, demoFresh.MakeMove 3 1 = .ok (g1, res) ∧ res.success = true ∧
      g1.Status = "playing" ∧ g1.CurrentPlayer = 1 - demoFresh.CurrentPlayer := by
  obtain ⟨g1, res, e, _, hok⟩ := C6_turn_alternation demoFresh 3 1
  have e2 : demoFresh.MakeMove 3 1
      = .ok ((demoFresh.placed 5 3 1).settle false false, ⟨true, 5, none⟩) := by decide
  rw [e2] at e
  injection e with e
  injection e with eg er
  subst eg er
  have h := hok (by decide) (Or.inl (by decide)) rfl
  exact ⟨⟨by decide, by decide⟩, _, _, e2, rfl, by decide, h.2.1 (by decide)⟩

/-! ## The brute-force scan -/

theorem bruteForceWin_iff (b : Grid) (m : Int) :
    bruteForceWin b m = true ↔
      ∃ (wr wc : Int) (d : Int × Int), d ∈ windowDirs ∧ windowFilled b m wr wc d.1 d.2 := by
  unfold bruteForceWin
  simp only [List.any_eq_true, List.mem_range, decide_eq_true_eq]
  constructor
  · rintro ⟨r, _, c, _, d, hd, hw⟩
    exact ⟨r, c, d, hd, hw⟩
  · rintro ⟨wr, wc, d, hd, hw⟩
    have h0 := windowFilled_inGrid hw 0 (by omega)
    simp only [inGrid, Nat.cast_zero, zero_mul, add_zero] at h0
    refine ⟨wr.toNat, by omega, wc.toNat, by omega, d, hd, ?_⟩
    have e1 : ((wr.toNat : Nat) : Int) = wr := by omega
    have e2 : ((wc.toNat : Nat) : Int) = wc := by omega
    rw [e1, e2]
    exact hw

/-- A window that is filled after a disc was put on an empty cell either
contains that cell, or was filled before. -/
theorem windowFilled_put (b : Grid) (row : Fin 6) (c : Fin 7) (v m wr wc dr dc : Int)
    (hw : windowFilled (b.put row c v) m wr wc dr dc) :
    (∃ j : Nat, j < 4 ∧ ((row : Nat) : Int) = wr + j * dr ∧ ((c : Nat) : Int) = wc + j * dc) ∨
    windowFilled b m wr wc dr dc := by
  by_cases hex : ∃ j : Nat, j < 4 ∧ ((row : Nat) : Int) = wr + j * dr ∧
      ((c : Nat) : Int) = wc + j * dc
  · exact Or.inl hex
  · right
    intro j hj
    have hget := hw j hj
    rw [Grid.get_ok_iff] at hget ⊢
    obtain ⟨i, k, hi, hk, hv⟩ := hget
    refine ⟨i, k, hi, hk, ?_⟩
    rw [Grid.put_other] at hv
    · exact hv
    · rintro ⟨rfl, rfl⟩
      exact hex ⟨j, hj, hi.symm, hk.symm⟩


/-- A window filled with `m` after `v` was put on a cell: it holds the cell,
and then `m = v`, or it was filled before. -/
theorem windowFilled_put_cases (b : Grid) (row : Fin 6) (c : Fin 7) (v m wr wc dr dc : Int)
    (hw : windowFilled (b.put row c v) m wr wc dr dc) :
    (m = v ∧ ∃ j : Nat, j < 4 ∧ ((row : Nat) : Int) = wr + j * dr ∧
      ((c : Nat) : Int) = wc + j * dc) ∨
    windowFilled b m wr wc dr dc := by
  rcases windowFilled_put b row c v m wr wc dr dc hw with ⟨j, hj, hr, hc⟩ | hold
  · left
    refine ⟨?_, j, hj, hr, hc⟩
    have hget := hw j hj
    rw [← hr, ← hc, Grid.get_fin, Grid.put_same] at hget
    injection hget with hget
    exact hget.symm
  · exact Or.inr hold

theorem noWindow_empty : noWindow Grid.empty := by
  intro m hm
  by_contra h
  rw [Bool.not_eq_false, bruteForceWin_iff] at h
  obtain ⟨wr, wc, d, _, hw⟩ := h
  have h0 := hw 0 (by omega)
  rw [Grid.get_ok_iff] at h0
  obtain ⟨_, _, _, _, hv⟩ := h0
  exact hm hv.symm

/-- What `CheckWin` answers right after a disc was placed: true only if a
window of the grid is filled with the marker of the disc, and true whenever a
window through the disc is. -/
theorem CheckWin_after_put (g : Game) (row : Fin 6) (c : Fin 7) (now : Nat) (win : Bool)
    (hcw : (g.placed row c now).CheckWin (row : Nat) (c : Nat) = .ok win) :
    (win = true → wrap64 (g.CurrentPlayer + 1) ≠ 0 ∧
      bruteForceWin (g.placed row c now).Board (wrap64 (g.CurrentPlayer + 1)) = true) ∧
    (wrap64 (g.CurrentPlayer + 1) ≠ 0 →
      ∀ (wr wc : Int) (d : Int × Int), d ∈ windowDirs →
        windowFilled (g.placed row c now).Board (wrap64 (g.CurrentPlayer + 1)) wr wc d.1 d.2 →
        (∃ j : Nat, j < 4 ∧ ((row : Nat) : Int) = wr + j * d.1 ∧
          ((c : Nat) : Int) = wc + j * d.2) →
        win = true) := by
  have hcell : (g.placed row c now).Board.get (row : Nat) (c : Nat)
      = .ok (wrap64 (g.CurrentPlayer + 1)) := by
    rw [Grid.get_fin]
    simp [Game.placed, Grid.put_same]
  constructor
  · intro hwin
    subst hwin
    obtain ⟨p, hp, hp0, wr, wc, d, hd, _, hw⟩ := CheckWin_sound _ _ _ hcw
    rw [hcell] at hp
    injection hp with hp
    subst hp
    exact ⟨hp0, (bruteForceWin_iff _ _).mpr ⟨wr, wc, d, hd, hw⟩⟩
  · intro hv wr wc d hd hw ⟨j, _, hr, hc⟩
    have := CheckWin_complete (g.placed row c now) (row : Nat) (c : Nat) _ wr wc d hcell hv hd
      ⟨-(j : Int), by rw [hr]; ring, by rw [hc]; ring⟩ hw
    rw [hcw] at this
    injection this

/-! ## Win detection against the brute-force scan -/

theorem status_playing_ne_finished : ("playing" : String) ≠ "finished" := by decide

/-- One `MakeMove` call keeps a session consistent. -/
theorem MakeMove_consistent (g : Game) (column : Int) (now : Nat) (h : g.Consistent) :
    ∃ g1 res, g.MakeMove column now = .ok (g1, res) ∧ g1.Consistent := by
  by_cases hs : g.Status = "playing"
  · by_cases hc : column < 0 ∨ column ≥ 7
    · exact ⟨_, _, MakeMove_invalid g column now hs hc, h⟩
    · obtain ⟨c, rfl⟩ := column_fin column hc
      rcases MakeMove_cases g c now hs with ⟨_, e⟩ | ⟨row, win, hz, _, hcw, e⟩
      · exact ⟨_, _, e, h⟩
      · refine ⟨_, _, e, ?_⟩
        obtain ⟨hp, hcase⟩ := h
        have hno : noWindow g.Board := by
          rcases hcase with ⟨_, hno⟩ | ⟨hf, _⟩ | ⟨hf, _⟩
          · exact hno
          · rw [hs] at hf; exact absurd hf status_playing_ne_finished
          · rw [hs] at hf; exact absurd hf status_playing_ne_finished
        have hmark := wrap64_succ_player g.CurrentPlayer hp
        have hmark0 : wrap64 (g.CurrentPlayer + 1) ≠ 0 := by
          rw [hmark]; rcases hp with h0 | h1 <;> omega
        obtain ⟨hsound, hcomplete⟩ := CheckWin_after_put g row c now win hcw
        -- every filled window of the new grid holds the new disc
        have hnew : ∀ m : Int, m ≠ 0 → bruteForceWin (g.placed row c now).Board m = true →
            m = wrap64 (g.CurrentPlayer + 1) ∧ win = true := by
          intro m hm hbf
          obtain ⟨wr, wc, d, hd, hw⟩ := (bruteForceWin_iff _ _).mp hbf
          rcases windowFilled_put_cases g.Board row c _ m wr wc d.1 d.2 hw with ⟨hmv, hj⟩ | hold
          · subst hmv
            exact ⟨rfl, hcomplete hmark0 wr wc d hd hw hj⟩
          · have := hno m hm
            rw [(bruteForceWin_iff _ _).mpr ⟨wr, wc, d, hd, hold⟩] at this
            cases this
        generalize decide (∀ k : Fin 7, (g.placed row c now).Board 0 k ≠ 0) = full
        cases win
        · -- no win: the new grid has no filled window
          have hno1 : noWindow (g.placed row c now).Board := by
            intro m hm
            by_contra hbf
            rw [Bool.not_eq_false] at hbf
            have := (hnew m hm hbf).2
            cases this
          cases full
          · refine ⟨?_, Or.inl ⟨hs, hno1⟩⟩
            show wrap64 (1 - g.CurrentPlayer) = 0 ∨ wrap64 (1 - g.CurrentPlayer) = 1
            rw [wrap64_other_player g.CurrentPlayer hp]
            rcases hp with h0 | h1 <;> omega
          · exact ⟨hp, Or.inr (Or.inl ⟨rfl, rfl, hno1⟩)⟩
        · refine ⟨hp, Or.inr (Or.inr ⟨rfl, hp, ?_, ?_⟩)⟩
          · show bruteForceWin (g.placed row c now).Board (g.CurrentPlayer + 1) = true
            rw [← hmark]
            exact (hsound rfl).2
          · intro m hm hbf
            show m = g.CurrentPlayer + 1
            rw [← hmark]
            exact (hnew m hm hbf).1
  · exact ⟨_, _, MakeMove_not_playing g column now hs, h⟩

/-- A run of `MakeMove` calls ends without a fault and keeps a session consistent. -/
theorem playMoves_consistent (moves : List (Int × Nat)) :
    ∀ g : Game, g.Consistent → ∃ g1, g.playMoves moves = .ok g1 ∧ g1.Consistent := by
  induction moves with
  | nil => intro g h; exact ⟨g, rfl, h⟩
  | cons mv rest ih =>
    intro g h
    obtain ⟨g1, res, e, h1⟩ := MakeMove_consistent g mv.1 mv.2 h
    obtain ⟨g2, e2, h2⟩ := ih g1 h1
    refine ⟨g2, ?_, h2⟩
    simp only [Game.playMoves, e, ok_bind]
    exact e2

/-- C1: after every sequence of `MakeMove` calls on a freshly started session
(empty board, status "playing", turn index 0 or 1) the final state is finished
with a winner in {0, 1} if and only if the brute-force scan of the final grid
finds a window of 4 cells filled with one non-zero marker, and every such
marker is `Winner + 1`. -/
theorem C1_win_detection_agrees_with_brute_force (g0 : Game) (moves : List (Int × Nat))
    (hb : g0.Board = Grid.empty) (hs : g0.Status = "playing")
    (hp : g0.CurrentPlayer = 0 ∨ g0.CurrentPlayer = 1) :
    ∃ g, g0.playMoves moves = .ok g ∧
      ((g.Status = "finished" ∧ (g.Winner = 0 ∨ g.Winner = 1)) ↔
        ∃ m : Int, m ≠ 0 ∧ bruteForceWin g.Board m = true) ∧
      (∀ m : Int, m ≠ 0 → bruteForceWin g.Board m = true → m = g.Winner + 1) := by
  have h0 : g0.Consistent := ⟨hp, Or.inl ⟨hs, by rw [hb]; exact noWindow_empty⟩⟩
  obtain ⟨g, e, -, hcase⟩ := playMoves_consistent moves g0 h0
  refine ⟨g, e, ?_, ?_⟩
  · rcases hcase with ⟨hs1, hno⟩ | ⟨_, hw, hno⟩ | ⟨hf, hw, hbf, _⟩
    · constructor
      · rintro ⟨hf, _⟩
        rw [hs1] at hf
        exact absurd hf status_playing_ne_finished
      · rintro ⟨m, hm, hbf⟩
        rw [hno m hm] at hbf
        cases hbf
    · constructor
      · rintro ⟨_, hw1⟩
        omega
      · rintro ⟨m, hm, hbf⟩
        rw [hno m hm] at hbf
        cases hbf
    · constructor
      · intro _
        exact ⟨g.Winner + 1, by omega, hbf⟩
      · intro _
        exact ⟨hf, hw⟩
  · intro m hm hbf
    rcases hcase with ⟨_, hno⟩ | ⟨_, _, hno⟩ | ⟨_, _, _, hall⟩
    · rw [hno m hm] at hbf
      cases hbf
    · rw [hno m hm] at hbf
      cases hbf
    · exact hall m hm hbf

/-- C1, instance: alice plays column 3 four times, bob column 2 in between. -/
theorem C1_win_detection_agrees_with_brute_force_witness :
    (demoFresh.Board = Grid.empty ∧ demoFresh.Status = "playing" ∧
      (demoFresh.CurrentPlayer = 0 ∨ demoFresh.CurrentPlayer = 1)) ∧
    ∃ g, demoFresh.playMoves [(3, 1), (2, 2), (3, 3), (2, 4), (3, 5), (2, 6), (3, 7)] = .ok g ∧
      ((g.Status = "finished" ∧ (g.Winner = 0 ∨ g.Winner = 1)) ↔
        ∃ m : Int, m ≠ 0 ∧ bruteForceWin g.Board m = true) ∧
      (∀ m : Int, m ≠ 0 → bruteForceWin g.Board m = true → m = g.Winner + 1) :=
  ⟨⟨by decide, by decide, by decide⟩,
    C1_win_detection_agrees_with_brute_force demoFresh _ (by decide) (by decide) (by decide)⟩

/-! ## Draws and full columns -/

/-- C9: for every playing game and every column of the grid with an empty cell,
`MakeMove` succeeds, and: if afterwards all 42 cells are occupied and no window
of the grid is filled with one non-zero marker, the game is finished with
`Winner = -1`; if the placed disc lies in a window filled with its (non-zero)
marker, the game is finished with the mover as winner, not as a draw. -/
theorem C9_draw_on_full_board (g : Game) (c : Fin 7) (now : Nat)
    (hs : g.Status = "playing") (hempty : ∃ r : Fin 6, g.Board r c = 0) :
    ∃ (row : Fin 6) (g1 : Game),
      g.MakeMove (c : Nat) now = .ok (g1, ⟨true, (row : Nat), none⟩) ∧
      ((∀ (r : Fin 6) (k : Fin 7), g1.Board r k ≠ 0) → noWindow g1.Board →
        g1.Status = "finished" ∧ g1.Winner = -1) ∧
      (∀ (wr wc : Int) (d : Int × Int), d ∈ windowDirs → g1.Board row c ≠ 0 →
        windowFilled g1.Board (g1.Board row c) wr wc d.1 d.2 →
        (∃ j : Nat, j < 4 ∧ ((row : Nat) : Int) = wr + j * d.1 ∧
          ((c : Nat) : Int) = wc + j * d.2) →
        g1.Status = "finished" ∧ g1.Winner = g.CurrentPlayer ∧ g1.Winner ≠ -1) := by
  obtain ⟨r0, hr0⟩ := hempty
  rcases MakeMove_cases g c now hs with ⟨hfull, _⟩ | ⟨row, win, hz, hlow, hcw, e⟩
  · exact absurd hr0 (hfull r0)
  · obtain ⟨hsound, hcomplete⟩ := CheckWin_after_put g row c now win hcw
    have hcell : (g.placed row c now).Board row c = wrap64 (g.CurrentPlayer + 1) := by
      simp [Game.placed, Grid.put_same]
    refine ⟨row, _, e, ?_, ?_⟩
    · rw [settle_Board]
      intro hall hno
      have hfull : decide (∀ k : Fin 7, (g.placed row c now).Board 0 k ≠ 0) = true :=
        decide_eq_true (fun k => hall 0 k)
      rw [hfull]
      cases win
      · exact ⟨rfl, rfl⟩
      · obtain ⟨hm, hbf⟩ := hsound rfl
        rw [hno _ hm] at hbf
        cases hbf
    · rw [settle_Board, hcell]
      intro wr wc d hd hm hw hj
      have hwin := hcomplete hm wr wc d hd hw hj
      subst hwin
      refine ⟨rfl, rfl, ?_⟩
      show g.CurrentPlayer ≠ -1
      intro hneg
      apply hm
      rw [hneg]
      decide

/-- A grid whose cells hold 0, 1 or 2 and in which neither marker 1 nor marker
2 fills a window has no filled window at all. -/
theorem noWindow_of_markers (b : Grid)
    (hcells : ∀ (r : Fin 6) (c : Fin 7), b r c = 0 ∨ b r c = 1 ∨ b r c = 2)
    (h1 : bruteForceWin b 1 = false) (h2 : bruteForceWin b 2 = false) : noWindow b := by
  intro m hm
  by_contra hne
  rw [Bool.not_eq_false] at hne
  obtain ⟨wr, wc, d, _, hw⟩ := (bruteForceWin_iff b m).mp hne
  have h0 := hw 0 (by omega)
  rw [Grid.get_ok_iff] at h0
  obtain ⟨i, j, _, _, hv⟩ := h0
  rcases hcells i j with e | e | e
  · exact hm (hv.symm.trans e)
  · have hm1 : m = 1 := hv.symm.trans e
    rw [hm1, h1] at hne
    cases hne
  · have hm2 : m = 2 := hv.symm.trans e
    rw [hm2, h2] at hne
    cases hne

/-- The two demonstration sessions are reached by play from a started session
with an empty board. -/
theorem demoLastCell_reached :
    (demoBobFirst.playMoves demoDrawMoves).map (fun g =>
        decide (g.Board = demoLastCellDraw.Board) && decide (g.Status = demoLastCellDraw.Status) &&
        decide (g.CurrentPlayer = demoLastCellDraw.CurrentPlayer) &&
        decide (g.Winner = demoLastCellDraw.Winner) &&
        decide (g.LastMoveAt = demoLastCellDraw.LastMoveAt)) = .ok true ∧
    (demoFresh.playMoves demoWinMoves).map (fun g =>
        decide (g.Board = demoLastCellWin.Board) && decide (g.Status = demoLastCellWin.Status) &&
        decide (g.CurrentPlayer = demoLastCellWin.CurrentPlayer) &&
        decide (g.Winner = demoLastCellWin.Winner) &&
        decide (g.LastMoveAt = demoLastCellWin.LastMoveAt)) = .ok true := by
  constructor <;> decide

/-- C9, instances, each on a session reached by 41 moves of play in which only
one cell is empty. On `demoLastCellDraw` the last disc fills the board without
a four in a row: the game ends as a draw. On `demoLastCellWin` the last disc
fills the board and completes a diagonal of marker 2: the game ends with the
mover as winner, not as a draw. -/
theorem C9_draw_on_full_board_witness :
    ((demoLastCellDraw.Status = "playing" ∧ ∃ r : Fin 6, demoLastCellDraw.Board r 0 = 0) ∧
      ∃ (row : Fin 6) (g1 : Game),
        demoLastCellDraw.MakeMove ((0 : Fin 7) : Nat) 42 = .ok (g1, ⟨true, (row : Nat), none⟩) ∧
        (∀ (r : Fin 6) (k : Fin 7), g1.Board r k ≠ 0) ∧ noWindow g1.Board ∧
        g1.Status = "finished" ∧ g1.Winner = -1) ∧
    ((demoLastCellWin.Status = "playing" ∧ ∃ r : Fin 6, demoLastCellWin.Board r 5 = 0) ∧
      ∃ (row : Fin 6) (g1 : Game),
        demoLastCellWin.MakeMove ((5 : Fin 7) : Nat) 42 = .ok (g1, ⟨true, (row : Nat), none⟩) ∧
        (∀ (r : Fin 6) (k : Fin 7), g1.Board r k ≠ 0) ∧
        g1.Board row 5 = 2 ∧ windowFilled g1.Board 2 (row : Nat) 5 1 (-1) ∧
        g1.Status = "finished" ∧ g1.Winner = demoLastCellWin.CurrentPlayer ∧ g1.Winner ≠ -1) := by
  constructor
  · obtain ⟨row, g1, hmv, hdraw, _⟩ :=
      C9_draw_on_full_board demoLastCellDraw 0 42 (by decide) ⟨0, by decide⟩
    have hev : (demoLastCellDraw.MakeMove ((0 : Fin 7) : Nat) 42).map
        (fun r => decide (r.1.Board = demoDrawBoard)) = .ok true := by decide
    rw [hmv] at hev
    have hb : g1.Board = demoDrawBoard := by simpa [Except.map] using hev
    have hall : ∀ (r : Fin 6) (k : Fin 7), g1.Board r k ≠ 0 := by
      rw [hb]
      decide
    have hno : noWindow g1.Board := by
      rw [hb]
      exact noWindow_of_markers demoDrawBoard (by decide) (by decide) (by decide)
    exact ⟨⟨by decide, ⟨0, by decide⟩⟩, row, g1, hmv, hall, hno, hdraw hall hno⟩
  · obtain ⟨row, g1, hmv, _, hwin⟩ :=
      C9_draw_on_full_board demoLastCellWin 5 42 (by decide) ⟨0, by decide⟩
    have hev : (demoLastCellWin.MakeMove ((5 : Fin 7) : Nat) 42).map
        (fun r => decide (r.1.Board = demoWinBoard) && decide (r.2.row = 0)) = .ok true := by
      decide
    rw [hmv] at hev
    have hboth : g1.Board = demoWinBoard ∧ ((row : Nat) : Int) = 0 := by
      simpa [Except.map] using hev
    obtain ⟨hb, hrow⟩ := hboth
    have hrow0 : row = 0 := Fin.ext (by exact_mod_cast hrow)
    subst hrow0
    have hall : ∀ (r : Fin 6) (k : Fin 7), g1.Board r k ≠ 0 := by
      rw [hb]
      decide
    have hcell : g1.Board 0 5 = 2 := by
      rw [hb]
      decide
    have hw : windowFilled g1.Board 2 ((0 : Fin 6) : Nat) 5 1 (-1) := by
      rw [hb]
      decide
    have hfin := hwin ((0 : Fin 6) : Nat) 5 (1, -1) (by simp [windowDirs])
      (by rw [hcell]; decide) (by rw [hcell]; exact hw) ⟨0, by decide, by simp, by decide⟩
    exact ⟨⟨by decide, ⟨0, by decide⟩⟩, 0, g1, hmv, hall, hcell, hw, hfin⟩

/-- One `MakeMove` call on a game with turn index 0 or 1 keeps the turn index
in {0, 1}, lowers no column's count, and raises the count of its column by one
when it succeeds. -/
theorem MakeMove_count (g : Game) (column : Int) (now : Nat)
    (hp : g.CurrentPlayer = 0 ∨ g.CurrentPlayer = 1) :
    ∃ g1 res, g.MakeMove column now = .ok (g1, res) ∧
      (g1.CurrentPlayer = 0 ∨ g1.CurrentPlayer = 1) ∧
      (∀ k : Fin 7, colCount g.Board k ≤ colCount g1.Board k) ∧
      (res.success = true → ∀ k : Fin 7, column = ((k : Nat) : Int) →
        colCount g1.Board k = colCount g.Board k + 1) := by
  by_cases hs : g.Status = "playing"
  · by_cases hc : column < 0 ∨ column ≥ 7
    · exact ⟨_, _, MakeMove_invalid g column now hs hc, hp, fun _ => le_refl _,
        fun h => by cases h⟩
    · obtain ⟨c, rfl⟩ := column_fin column hc
      rcases MakeMove_cases g c now hs with ⟨_, e⟩ | ⟨row, win, hz, _, _, e⟩
      · exact ⟨_, _, e, hp, fun _ => le_refl _, fun h => by cases h⟩
      · have hmark0 : wrap64 (g.CurrentPlayer + 1) ≠ 0 := by
          rw [wrap64_succ_player g.CurrentPlayer hp]; rcases hp with h0 | h1 <;> omega
        refine ⟨_, _, e, ?_, ?_, ?_⟩
        · generalize decide (∀ k : Fin 7, (g.placed row c now).Board 0 k ≠ 0) = full
          cases win
          · cases full
            · show wrap64 (1 - g.CurrentPlayer) = 0 ∨ wrap64 (1 - g.CurrentPlayer) = 1
              rw [wrap64_other_player g.CurrentPlayer hp]
              rcases hp with h0 | h1 <;> omega
            · exact hp
          · exact hp
        · intro k
          rw [settle_Board]
          exact colCount_put_mono _ _ _ _ _ hz
        · intro _ k hk
          have : k = c := by
            apply Fin.ext
            omega
          subst this
          rw [settle_Board]
          exact colCount_put_same _ _ _ _ hz hmark0
  · exact ⟨_, _, MakeMove_not_playing g column now hs, hp, fun _ => le_refl _,
      fun h => by cases h⟩

/-- Along a run of `MakeMove` calls the count of a column grows at least by the
number of discs the run placed in it. -/
theorem playMoves_count (c : Fin 7) (moves : List (Int × Nat)) :
    ∀ g : Game, (g.CurrentPlayer = 0 ∨ g.CurrentPlayer = 1) →
      ∃ g1 n, g.playMoves moves = .ok g1 ∧ Game.acceptedInto (c : Nat) g moves = .ok n ∧
        colCount g.Board c + n ≤ colCount g1.Board c := by
  induction moves with
  | nil => intro g _; exact ⟨g, 0, rfl, rfl, le_refl _⟩
  | cons mv rest ih =>
    intro g hp
    obtain ⟨g1, res, e, hp1, hmono, hsucc⟩ := MakeMove_count g mv.1 mv.2 hp
    obtain ⟨g2, n, e2, ea, hle⟩ := ih g1 hp1
    refine ⟨g2, (if mv.1 = ((c : Nat) : Int) ∧ res.success = true then n + 1 else n),
      ?_, ?_, ?_⟩
    · simp only [Game.playMoves, e, ok_bind]
      exact e2
    · simp only [Game.acceptedInto, e, ok_bind, ea]
    · have h1 := hmono c
      split
      · rename_i hcond
        have := hsucc hcond.2 c hcond.1
        omega
      · omega

/-- C10 (amended): on a game with turn index 0 or 1, once a run of `MakeMove`
calls has placed 6 discs in column `c`, a further `MakeMove(c)` fails and
changes nothing: with "column is full" while the status is "playing", with
"game is not active" otherwise. -/
theorem C10_full_column_rejects (g0 : Game) (moves : List (Int × Nat)) (c : Fin 7) (now : Nat)
    (hp : g0.CurrentPlayer = 0 ∨ g0.CurrentPlayer = 1) :
    ∃ g n, g0.playMoves moves = .ok g ∧ Game.acceptedInto (c : Nat) g0 moves = .ok n ∧
      (6 ≤ n →
        g.MakeMove (c : Nat) now = .ok (g, ⟨false, -1,
          some (if g.Status = "playing" then "column is full" else "game is not active")⟩)) := by
  obtain ⟨g, n, e, ea, hle⟩ := playMoves_count c moves g0 hp
  refine ⟨g, n, e, ea, ?_⟩
  intro hn
  by_cases hs : g.Status = "playing"
  · rw [if_pos hs]
    exact MakeMove_full g c now hs (colCount_full g.Board c (by omega))
  · rw [if_neg hs]
    exact MakeMove_not_playing g _ now hs

/-- C10, instance: six moves into column 0 of a fresh session. -/
theorem C10_full_column_rejects_witness :
    (demoFresh.CurrentPlayer = 0 ∨ demoFresh.CurrentPlayer = 1) ∧
    ∃ g n, demoFresh.playMoves [(0, 1), (0, 2), (0, 3), (0, 4), (0, 5), (0, 6)] = .ok g ∧
      Game.acceptedInto (((0 : Fin 7) : Nat) : Int) demoFresh
        [(0, 1), (0, 2), (0, 3), (0, 4), (0, 5), (0, 6)] = .ok n ∧
      (6 ≤ n →
        g.MakeMove (((0 : Fin 7) : Nat) : Int) 7 = .ok (g, ⟨false, -1,
          some (if g.Status = "playing" then "column is full" else "game is not active")⟩)) :=
  ⟨by decide, C10_full_column_rejects demoFresh _ 0 7 (by decide)⟩

/-- C10 as stated fails: in the run 0,0,0,1,0,1,0,1,0 from a fresh session six
discs are placed in column 0 and the sixth one wins the game for slot 0; the
next `MakeMove(0)` fails with "game is not active", not with "column is full". -/
theorem C10_counterexample :
    Game.acceptedInto 0 demoFresh
      [(0, 1), (0, 2), (0, 3), (1, 4), (0, 5), (1, 6), (0, 7), (1, 8), (0, 9)] = .ok 6 ∧
    (demoFresh.playMoves
        [(0, 1), (0, 2), (0, 3), (1, 4), (0, 5), (1, 6), (0, 7), (1, 8), (0, 9)] >>=
      fun g => (g.MakeMove 0 10).map fun r => (g.Status, r.2)) =
      .ok ("finished", ⟨false, -1, some "game is not active"⟩) := by
  decide

/-! ## The automated opponent leaves the game as it found it -/

theorem bind_eq_ok {α β : Type} (x : Run α) (f : α → Run β) (b : β) :
    (x >>= f) = .ok b ↔ ∃ a, x = .ok a ∧ f a = .ok b := by
  cases x with
  | error e => simp
  | ok a => simp

/-- A `forUpTo` loop keeps every property of the state that its body keeps. -/
theorem forUpTo_invariant {σ α : Type} (P : σ → Prop) (hi : Int)
    (body : Int → σ → Run (σ × Option α))
    (hbody : ∀ i s r, P s → body i s = .ok r → P r.1) :
    ∀ (fuel : Nat) (i : Int) (s : σ) (r : σ × Option α),
      P s → forUpTo hi body fuel i s = .ok r → P r.1 := by
  intro fuel
  induction fuel with
  | zero =>
    intro i s r hP h
    simp only [forUpTo] at h
    split at h
    · cases h
    · injection h with h
      subst h
      exact hP
  | succ f ih =>
    intro i s r hP h
    rw [forUpTo] at h
    split at h
    · rw [bind_eq_ok] at h
      obtain ⟨step, hstep, hrest⟩ := h
      have hP1 := hbody i s step hP hstep
      split at hrest
      · injection hrest with hrest
        subst hrest
        exact hP1
      · exact ih _ _ _ hP1 hrest
    · injection h with h
      subst h
      exact hP

theorem Bot.isValidMove_true {g : Game} {column : Int} (h : Bot.isValidMove g column = .ok true) :
    0 ≤ column ∧ column < 7 := by
  unfold Bot.isValidMove at h
  split at h
  · cases h
  · omega

theorem findRow_found (b : Grid) (column row : Int) (hc : 0 ≤ column ∧ column < 7)
    (h : findRow b column 6 5 = .ok row) (hne : row ≠ -1) : b.get row column = .ok 0 := by
  rcases findRow_aux b column hc 6 5 (by omega) (by omega) (by simp) with
    ⟨e, _⟩ | ⟨row1, _, _, e, hcell, _⟩
  · rw [e] at h
    injection h with h
    exact absurd h.symm hne
  · rw [e] at h
    injection h with h
    subst h
    exact hcell

/-- Writing a trial disc on an empty cell and resetting the cell to 0 gives the
grid back. -/
theorem Grid.set_reset (b b1 b2 : Grid) (r c v : Int) (h0 : b.get r c = .ok 0)
    (h1 : b.set r c v = .ok b1) (h2 : b1.set r c 0 = .ok b2) : b2 = b := by
  have hin := Grid.inGrid_of_get h0
  rw [Grid.get_of_inGrid b hin] at h0
  injection h0 with h0
  unfold inGrid at hin
  simp only [Grid.set, hin, and_self, dite_true] at h1 h2
  injection h1 with h1
  injection h2 with h2
  subst h1
  subst h2
  funext i j
  by_cases hi : i = ⟨r.toNat, by omega⟩
  · subst hi
    by_cases hj : j = ⟨c.toNat, by omega⟩
    · subst hj
      simp [h0]
    · simp [Function.update_noteq hj]
  · simp [Function.update_noteq hi]

theorem Bot.trialWin_restores (marker col : Int) (g : Game) (r : Game × Option Int)
    (h : Bot.trialWin marker col g = .ok r) : r.1 = g := by
  unfold Bot.trialWin at h
  rw [bind_eq_ok] at h
  obtain ⟨valid, hvalid, h⟩ := h
  cases valid
  · simp only [Bool.false_eq_true, if_false] at h
    injection h with h
    subst h
    rfl
  · simp only [if_true] at h
    rw [bind_eq_ok] at h
    obtain ⟨row, hrow, h⟩ := h
    by_cases hne : row = -1
    · simp only [hne, ne_eq, not_true_eq_false, if_false] at h
      injection h with h
      subst h
      rfl
    · simp only [ne_eq, hne, not_false_eq_true, if_true] at h
      rw [bind_eq_ok] at h
      obtain ⟨b1, hb1, h⟩ := h
      rw [bind_eq_ok] at h
      obtain ⟨win, _, h⟩ := h
      rw [bind_eq_ok] at h
      obtain ⟨b2, hb2, h⟩ := h
      have hcell := findRow_found g.Board col row (Bot.isValidMove_true hvalid) hrow hne
      have hb := Grid.set_reset g.Board b1 b2 row col marker hcell hb1 hb2
      subst hb
      split at h <;> (injection h with h; subst h; rfl)

theorem Bot.trialPotential_restores (marker minSequence col : Int) (s : Game × List Int)
    (r : (Game × List Int) × Option Unit)
    (h : Bot.trialPotential marker minSequence col s = .ok r) : r.1.1 = s.1 := by
  unfold Bot.trialPotential at h
  rw [bind_eq_ok] at h
  obtain ⟨valid, hvalid, h⟩ := h
  cases valid
  · simp only [Bool.false_eq_true, if_false] at h
    injection h with h
    subst h
    rfl
  · simp only [if_true] at h
    rw [bind_eq_ok] at h
    obtain ⟨row, hrow, h⟩ := h
    by_cases hne : row = -1
    · simp only [hne, ne_eq, not_true_eq_false, if_false] at h
      injection h with h
      subst h
      rfl
    · simp only [ne_eq, hne, not_false_eq_true, if_true] at h
      rw [bind_eq_ok] at h
      obtain ⟨b1, hb1, h⟩ := h
      rw [bind_eq_ok] at h
      obtain ⟨hit, _, h⟩ := h
      rw [bind_eq_ok] at h
      obtain ⟨b2, hb2, h⟩ := h
      have hcell := findRow_found s.1.Board col row (Bot.isValidMove_true hvalid) hrow hne
      have hb := Grid.set_reset s.1.Board b1 b2 row col marker hcell hb1 hb2
      subst hb
      injection h with h
      subst h
      rfl

theorem Bot.collectValid_restores (col : Int) (s : Game × List Int)
    (r : (Game × List Int) × Option Unit) (h : Bot.collectValid col s = .ok r) :
    r.1.1 = s.1 := by
  unfold Bot.collectValid at h
  rw [bind_eq_ok] at h
  obtain ⟨valid, _, h⟩ := h
  split at h <;> (injection h with h; subst h; rfl)

/-- `CalculateMove` returns the game as it received it: each trial disc is
taken back before the next step. -/
theorem Bot.CalculateMove_restores (g : Game) (seed : Nat) (r : Game × Int)
    (h : Bot.CalculateMove g seed = .ok r) : r.1 = g := by
  unfold Bot.CalculateMove at h
  simp only [bind_eq_ok, pure_eq_ok] at h
  obtain ⟨w, hw, h⟩ := h
  have hw1 : w.1 = g :=
    forUpTo_invariant (fun s => s = g) 7 _
      (fun i s r hs hr => by subst hs; exact Bot.trialWin_restores _ _ _ _ hr) 7 0 g w rfl hw
  split at h
  · injection h with h; subst h; exact hw1
  · simp only [ok_bind, bind_eq_ok] at h
    obtain ⟨k, hk, h⟩ := h
    have hk1 : k.1 = g :=
      forUpTo_invariant (fun s => s = g) 7 _
        (fun i s r hs hr => by subst hs; exact Bot.trialWin_restores _ _ _ _ hr) 7 0 w.1 k hw1 hk
    split at h
    · injection h with h; subst h; exact hk1
    · simp only [ok_bind, bind_eq_ok] at h
      obtain ⟨p, hp, h⟩ := h
      have hp1 : p.1.1 = g :=
        forUpTo_invariant (fun s : Game × List Int => s.1 = g) 7 _
          (fun i s r hs hr => (Bot.trialPotential_restores _ _ _ _ _ hr).trans hs)
          7 0 (k.1, []) p hk1 hp
      split at h
      · simp only [bind_eq_ok] at h
        obtain ⟨col, _, h⟩ := h
        injection h with h; subst h; exact hp1
      · simp only [ok_bind, bind_eq_ok] at h
        obtain ⟨q, hq, h⟩ := h
        have hq1 : q.1.1 = g :=
          forUpTo_invariant (fun s : Game × List Int => s.1 = g) 7 _
            (fun i s r hs hr => (Bot.trialPotential_restores _ _ _ _ _ hr).trans hs)
            7 0 (p.1.1, []) q hp1 hq
        split at h
        · simp only [bind_eq_ok] at h
          obtain ⟨col, _, h⟩ := h
          injection h with h; subst h; exact hq1
        · simp only [ok_bind, bind_eq_ok] at h
          obtain ⟨pref, _, h⟩ := h
          split at h
          · injection h with h; subst h; exact hq1
          · simp only [ok_bind, bind_eq_ok] at h
            obtain ⟨v, _, h⟩ := h
            split at h
            · simp only [bind_eq_ok] at h
              obtain ⟨col, _, h⟩ := h
              injection h with h; subst h; exact hq1
            · injection h with h; subst h; exact hq1

/-! ## Hub operations, seen from one session -/

theorem Hub.setGame_same (h : Hub) (k : String) (g : Game) : (h.setGame k g).Games k = some g := by
  simp [Hub.setGame]

theorem Hub.setGame_other (h : Hub) (k id : String) (g : Game) (hne : id ≠ k) :
    (h.setGame k g).Games id = h.Games id := by
  simp [Hub.setGame, hne]

/-- The fallback loop of `makeBotMove` ends, if it ends, with the game unchanged
or after one `MakeMove` call. -/
theorem Hub.fallbackLoop_step (now : Nat) (g : Game) :
    ∀ (fuel : Nat) (col : Int) (g2 : Game), Hub.fallbackLoop now fuel col g = .ok g2 →
      g2 = g ∨ ∃ (column : Int) (res : MoveResult), g.MakeMove column now = .ok (g2, res) := by
  intro fuel
  induction fuel with
  | zero =>
    intro col g2 h
    simp only [Hub.fallbackLoop] at h
    split at h
    · cases h
    · injection h with h
      exact Or.inl h.symm
  | succ f ih =>
    intro col g2 h
    rw [Hub.fallbackLoop] at h
    split at h
    · simp only [bind_eq_ok] at h
      obtain ⟨valid, _, h⟩ := h
      split at h
      · simp only [bind_eq_ok] at h
        obtain ⟨moved, hmoved, h⟩ := h
        injection h with h
        subst h
        exact Or.inr ⟨_, moved.2, hmoved⟩
      · exact ih _ _ h
    · injection h with h
      exact Or.inl h.symm

/-- Each hub operation acts on each session of the hub as a `sessionStep`, and
removes no session. -/
theorem Hub.step_session (h h1 : Hub) (op : HubOp) (hstep : h.step op = .ok h1)
    (id : String) (g : Game) (hg : h.Games id = some g) :
    ∃ g1, h1.Games id = some g1 ∧ g.sessionStep g1 := by
  have keep : ∀ (k : String) (x : Game), (id = k → g.sessionStep x) →
      ∃ g1, (h.setGame k x).Games id = some g1 ∧ g.sessionStep g1 := by
    intro k x hx
    by_cases hid : id = k
    · subst hid
      exact ⟨x, Hub.setGame_same h id x, hx rfl⟩
    · exact ⟨g, by rw [Hub.setGame_other h k id x hid]; exact hg, Or.inl rfl⟩
  have same : ∃ g1, h.Games id = some g1 ∧ g.sessionStep g1 := ⟨g, hg, Or.inl rfl⟩
  cases op with
  | join gameID player2 seed =>
    simp only [Hub.step, bind_eq_ok] at hstep
    obtain ⟨r, hr, hh⟩ := hstep
    injection hh with hh
    subst hh
    unfold Hub.JoinGame at hr
    split at hr
    · injection hr with hr; subst hr; exact same
    · rename_i game hgame
      split at hr
      · injection hr with hr; subst hr; exact same
      · rename_i hwait
        simp only [bind_eq_ok] at hr
        obtain ⟨sch, _, hr⟩ := hr
        injection hr with hr
        subst hr
        apply keep
        intro hid
        subst hid
        rw [hg] at hgame
        injection hgame with hgame
        subst hgame
        exact Or.inr (Or.inl ⟨not_not.mp hwait, Or.inl ⟨player2, seed, rfl⟩⟩)
  | timeout gameID seed =>
    simp only [Hub.step, bind_eq_ok] at hstep
    obtain ⟨r, hr, hh⟩ := hstep
    injection hh with hh
    subst hh
    unfold Hub.startBotTimeout at hr
    split at hr
    · injection hr with hr; subst hr; exact same
    · rename_i game hgame
      split at hr
      · rename_i hwait
        simp only [bind_eq_ok] at hr
        obtain ⟨sch, _, hr⟩ := hr
        injection hr with hr
        subst hr
        apply keep
        intro hid
        subst hid
        rw [hg] at hgame
        injection hgame with hgame
        subst hgame
        exact Or.inr (Or.inl ⟨hwait, Or.inr ⟨seed, rfl⟩⟩)
      · injection hr with hr; subst hr; exact same
  | move gameID playerID column now =>
    simp only [Hub.step, bind_eq_ok] at hstep
    obtain ⟨r, hr, hh⟩ := hstep
    injection hh with hh
    subst hh
    unfold Hub.MakeMove at hr
    split at hr
    · injection hr with hr; subst hr; exact same
    · rename_i game hgame
      simp only [bind_eq_ok] at hr
      obtain ⟨cur, _, hr⟩ := hr
      split at hr
      · injection hr with hr; subst hr; exact same
      · simp only [bind_eq_ok] at hr
        obtain ⟨moved, hmoved, hr⟩ := hr
        have hkeep : ∃ g1, (h.setGame gameID moved.1).Games id = some g1 ∧ g.sessionStep g1 := by
          apply keep
          intro hid
          subst hid
          rw [hg] at hgame
          injection hgame with hgame
          subst hgame
          by_cases hs : g.Status = "playing"
          · exact Or.inr (Or.inr ⟨hs, column, now, moved.2, hmoved⟩)
          · rw [MakeMove_not_playing g column now hs] at hmoved
            injection hmoved with hmoved
            subst hmoved
            exact Or.inl rfl
        split at hr
        · injection hr with hr; subst hr; exact hkeep
        · split at hr
          · split at hr
            · simp only [bind_eq_ok] at hr
              obtain ⟨nxt, _, hr⟩ := hr
              split at hr <;> (injection hr with hr; subst hr; exact hkeep)
            · injection hr with hr; subst hr; exact hkeep
          · injection hr with hr; subst hr; exact hkeep
  | bot gameID seed now fuel =>
    simp only [Hub.step, bind_eq_ok] at hstep
    obtain ⟨r, hr, hh⟩ := hstep
    injection hh with hh
    subst hh
    unfold Hub.makeBotMove at hr
    split at hr
    · injection hr with hr; subst hr; exact same
    · rename_i game hgame
      split at hr
      · injection hr with hr; subst hr; exact same
      · rename_i hplay
        simp only [bind_eq_ok] at hr
        obtain ⟨cur, _, hr⟩ := hr
        split at hr
        · injection hr with hr; subst hr; exact same
        · simp only [bind_eq_ok] at hr
          obtain ⟨chosen, hchosen, hr⟩ := hr
          have hsame := Bot.CalculateMove_restores game seed chosen hchosen
          have hgid : id = gameID → game = g := by
            intro hid
            subst hid
            rw [hg] at hgame
            injection hgame with hgame
            exact hgame.symm
          split at hr
          · simp only [bind_eq_ok] at hr
            obtain ⟨moved, hmoved, hr⟩ := hr
            have hkeep : ∃ g1, (h.setGame gameID moved.1).Games id = some g1 ∧
                g.sessionStep g1 := by
              apply keep
              intro hid
              have := hgid hid
              subst this
              rw [hsame] at hmoved
              exact Or.inr (Or.inr ⟨not_not.mp hplay, _, now, moved.2, hmoved⟩)
            split at hr
            · injection hr with hr; subst hr; exact hkeep
            · simp only [bind_eq_ok] at hr
              obtain ⟨again, _, hr⟩ := hr
              injection hr with hr; subst hr; exact hkeep
          · simp only [bind_eq_ok] at hr
            obtain ⟨game2, hloop, hr⟩ := hr
            injection hr with hr
            subst hr
            apply keep
            intro hid
            have := hgid hid
            subst this
            rw [hsame] at hloop
            rcases Hub.fallbackLoop_step now game fuel 3 game2 hloop with heq | ⟨col, res, hm⟩
            · exact Or.inl heq
            · exact Or.inr (Or.inr ⟨not_not.mp hplay, col, now, res, hm⟩)

/-! ## Claims about the hub -/

theorem status_waiting_ne_playing : ("waiting" : String) ≠ "playing" := by decide

theorem status_waiting_ne_finished : ("waiting" : String) ≠ "finished" := by decide

theorem Intn_two (seed : Nat) : Intn seed 2 = 0 ∨ Intn seed 2 = 1 := by
  unfold Intn
  omega

/-- What `MakeMove` does to a playing game: nothing, with a failure, or it
places a disc on an empty cell and settles, with success. -/
theorem MakeMove_outcome (g g1 : Game) (column : Int) (now : Nat) (res : MoveResult)
    (hs : g.Status = "playing") (he : g.MakeMove column now = .ok (g1, res)) :
    (g1 = g ∧ res.success = false) ∨
    (∃ (row : Fin 6) (c : Fin 7) (win full : Bool), g.Board row c = 0 ∧ res.success = true ∧
      g1 = (g.placed row c now).settle win full) := by
  by_cases hc : column < 0 ∨ column ≥ 7
  · rw [MakeMove_invalid g column now hs hc] at he
    injection he with he
    injection he with h1 h2
    subst h1 h2
    exact Or.inl ⟨rfl, rfl⟩
  · obtain ⟨c, rfl⟩ := column_fin column hc
    rcases MakeMove_cases g c now hs with ⟨_, e⟩ | ⟨row, win, hz, _, _, e⟩
    · rw [e] at he
      injection he with he
      injection he with h1 h2
      subst h1 h2
      exact Or.inl ⟨rfl, rfl⟩
    · rw [e] at he
      injection he with he
      injection he with h1 h2
      subst h1 h2
      exact Or.inr ⟨row, c, win, _, hz, rfl, rfl⟩

/-- A hub operation moves the status of a session forward only. -/
theorem sessionStep_status (g g1 : Game) (h : g.sessionStep g1) :
    (g.Status = "waiting" → g1.Status = "waiting" ∨ g1.Status = "playing") ∧
    (g.Status = "playing" → g1.Status = "playing" ∨ g1.Status = "finished") ∧
    (g.Status ≠ "waiting" → g.Status ≠ "playing" → g1 = g) := by
  rcases h with rfl | ⟨hw, hadd⟩ | ⟨hp, column, now, res, he⟩
  · exact ⟨fun h => Or.inl h, fun h => Or.inl h, fun _ _ => rfl⟩
  · refine ⟨fun _ => Or.inr ?_, fun h => ?_, fun h _ => absurd hw h⟩
    · rcases hadd with ⟨p, seed, rfl⟩ | ⟨seed, rfl⟩ <;> rfl
    · rw [hw] at h
      exact absurd h status_waiting_ne_playing
  · refine ⟨fun h => ?_, fun _ => ?_, fun _ h => absurd hp h⟩
    · rw [hp] at h
      exact absurd h.symm status_waiting_ne_playing
    · rcases MakeMove_outcome g g1 column now res hp he with ⟨rfl, _⟩ | ⟨row, c, win, full, _, _, rfl⟩
      · exact Or.inl hp
      · cases win
        · cases full
          · exact Or.inl hp
          · exact Or.inr rfl
        · exact Or.inr rfl

/-- C8: across every hub operation (`JoinGame`, the join timeout, `Hub.MakeMove`,
`makeBotMove`) each session stays in the hub and its status moves forward only:
waiting stays or becomes playing, playing stays or becomes finished, and a
session that is neither waiting nor playing (so a finished one) is not changed
at all. The operation is a `sessionStep`: slot 1 is filled only on a waiting
session and `MakeMove` acts only on a playing one. -/
theorem C8_status_moves_forward_only (h h1 : Hub) (op : HubOp) (hstep : h.step op = .ok h1)
    (id : String) (g : Game) (hg : h.Games id = some g) :
    ∃ g1, h1.Games id = some g1 ∧ g.sessionStep g1 ∧
      (g.Status = "waiting" → g1.Status = "waiting" ∨ g1.Status = "playing") ∧
      (g.Status = "playing" → g1.Status = "playing" ∨ g1.Status = "finished") ∧
      (g.Status = "finished" → g1.Status = "finished") ∧
      (g.Status ≠ "waiting" → g.Status ≠ "playing" → g1 = g) := by
  obtain ⟨g1, hg1, hs⟩ := Hub.step_session h h1 op hstep id g hg
  obtain ⟨h1w, h1p, h1o⟩ := sessionStep_status g g1 hs
  refine ⟨g1, hg1, hs, h1w, h1p, ?_, h1o⟩
  intro hf
  have : g1 = g := h1o (by rw [hf]; exact fun e => status_waiting_ne_finished e.symm)
    (by rw [hf]; exact fun e => status_playing_ne_finished e.symm)
  rw [this]
  exact hf

/-- C8, instance: bob joins the waiting session of alice. -/
theorem C8_status_moves_forward_only_witness :
    (demoWaitingHub.step (.join "game_1" demoBob 0)
        = .ok (demoWaitingHub.setGame "game_1" demoFresh) ∧
      demoWaitingHub.Games "game_1" = some (NewGame "game_1" demoAlice 0)) ∧
    ∃ g1, (demoWaitingHub.setGame "game_1" demoFresh).Games "game_1" = some g1 ∧
      (NewGame "game_1" demoAlice 0).sessionStep g1 ∧
      ((NewGame "game_1" demoAlice 0).Status = "waiting" →
        g1.Status = "waiting" ∨ g1.Status = "playing") ∧
      ((NewGame "game_1" demoAlice 0).Status = "playing" →
        g1.Status = "playing" ∨ g1.Status = "finished") ∧
      ((NewGame "game_1" demoAlice 0).Status = "finished" → g1.Status = "finished") ∧
      ((NewGame "game_1" demoAlice 0).Status ≠ "waiting" →
        (NewGame "game_1" demoAlice 0).Status ≠ "playing" →
        g1 = NewGame "game_1" demoAlice 0) :=
  ⟨⟨rfl, rfl⟩,
    C8_status_moves_forward_only demoWaitingHub (demoWaitingHub.setGame "game_1" demoFresh)
      (.join "game_1" demoBob 0) rfl "game_1" (NewGame "game_1" demoAlice 0) rfl⟩

/-- C4: when the session exists and `playerID` differs from the ID of the
participant at the session's turn index, `Hub.MakeMove` returns the error "not
your turn", whatever the status of the session and the column, and leaves the
hub, and with it the session, unchanged. -/
theorem C4_not_your_turn (h : Hub) (gameID playerID : String) (column : Int) (now : Nat)
    (g : Game) (p : Player) (hg : h.Games gameID = some g)
    (hcur : g.GetCurrentPlayer = .ok p) (hne : p.ID ≠ playerID) :
    ∃ r, h.MakeMove gameID playerID column now = .ok r ∧
      r.err = some "not your turn" ∧ r.game = none ∧ r.botScheduled = false ∧
      r.hub = h ∧ r.hub.Games gameID = some g := by
  refine ⟨⟨h, none, some "not your turn", false⟩, ?_, rfl, rfl, rfl, rfl, hg⟩
  simp [Hub.MakeMove, hg, hcur, hne]

/-- C4, instance: bob tries to move in the fresh session while it is alice's turn. -/
theorem C4_not_your_turn_witness :
    (demoHub.Games "game_1" = some demoFresh ∧ demoFresh.GetCurrentPlayer = .ok demoAlice ∧
      demoAlice.ID ≠ "p2") ∧
    ∃ r, demoHub.MakeMove "game_1" "p2" 3 1 = .ok r ∧
      r.err = some "not your turn" ∧ r.game = none ∧ r.botScheduled = false ∧
      r.hub = demoHub ∧ r.hub.Games "game_1" = some demoFresh :=
  ⟨⟨rfl, by decide, by decide⟩,
    C4_not_your_turn demoHub "game_1" "p2" 3 1 demoFresh demoAlice rfl (by decide) (by decide)⟩

theorem botToMove_ok (g : Game) (hp : g.CurrentPlayer = 0 ∨ g.CurrentPlayer = 1) :
    ∃ b, botToMove g = .ok b := by
  unfold botToMove
  split
  · have : 0 ≤ g.CurrentPlayer ∧ g.CurrentPlayer < 2 := by omega
    simp [Game.GetCurrentPlayer, this]
  · exact ⟨false, rfl⟩

theorem JoinGame_started (h : Hub) (id : String) (g : Game) (p : Player) (seed : Nat)
    (hg : h.Games id = some g) (hs : g.Status ≠ "waiting") :
    h.JoinGame id p seed = .ok ⟨h, none, some "game already started", false⟩ := by
  simp [Hub.JoinGame, hg, hs]

/-- A started session stays in the hub and stays started along a run of hub
operations. -/
theorem run_started (id : String) (ops : List HubOp) :
    ∀ (h h2 : Hub) (g : Game), Hub.run h ops = .ok h2 → h.Games id = some g →
      (g.Status = "playing" ∨ g.Status = "finished") →
      ∃ g2, h2.Games id = some g2 ∧ (g2.Status = "playing" ∨ g2.Status = "finished") := by
  induction ops with
  | nil =>
    intro h h2 g hrun hg hs
    simp only [Hub.run] at hrun
    injection hrun with hrun
    subst hrun
    exact ⟨g, hg, hs⟩
  | cons op rest ih =>
    intro h h2 g hrun hg hs
    simp only [Hub.run, bind_eq_ok] at hrun
    obtain ⟨h1, hstep, hrest⟩ := hrun
    obtain ⟨g1, hg1, hss⟩ := Hub.step_session h h1 op hstep id g hg
    obtain ⟨_, hplay, hother⟩ := sessionStep_status g g1 hss
    apply ih h1 h2 g1 hrest hg1
    rcases hs with hs | hs
    · exact hplay hs
    · have : g1 = g := hother (by rw [hs]; exact fun e => status_waiting_ne_finished e.symm)
        (by rw [hs]; exact fun e => status_playing_ne_finished e.symm)
      rw [this]
      exact Or.inr hs

theorem put_ne_of_empty (b : Grid) (row : Fin 6) (c : Fin 7) (v : Int) (hz : b row c = 0)
    (hv : v ≠ 0) : b.put row c v ≠ b := by
  intro h
  have := congrFun (congrFun h row) c
  rw [Grid.put_same, hz] at this
  exact hv this

/-- One hub operation keeps the outcome fields of a session sound, the slot of
the last disc being updated when the operation changed the board. -/
theorem sessionStep_winnerSound (g g1 : Game) (last : Option Int) (hk : g.winnerSound last)
    (hstep : g.sessionStep g1) :
    g1.winnerSound (if g1.Board ≠ g.Board then some g.CurrentPlayer else last) := by
  obtain ⟨hp, hcase⟩ := hk
  rcases hstep with rfl | ⟨hw, hadd⟩ | ⟨hs, column, now, res, he⟩
  · simp only [ne_eq, not_true_eq_false, if_false]
    exact ⟨hp, hcase⟩
  · have hwin : g.Winner = -1 := by
      rcases hcase with ⟨_, hwin⟩ | ⟨hf, _⟩
      · exact hwin
      · rw [hw] at hf
        exact absurd hf status_waiting_ne_finished
    rcases hadd with ⟨p, seed, rfl⟩ | ⟨seed, rfl⟩
    · exact ⟨Intn_two seed, Or.inl ⟨Or.inr (Or.inl rfl), hwin⟩⟩
    · exact ⟨Intn_two seed, Or.inl ⟨Or.inr (Or.inl rfl), hwin⟩⟩
  · have hwin : g.Winner = -1 := by
      rcases hcase with ⟨_, hwin⟩ | ⟨hf, _⟩
      · exact hwin
      · rw [hs] at hf
        exact absurd hf status_playing_ne_finished
    rcases MakeMove_outcome g g1 column now res hs he with ⟨rfl, _⟩ | ⟨row, c, win, full, hz, _, rfl⟩
    · simp only [ne_eq, not_true_eq_false, if_false]
      exact ⟨hp, hcase⟩
    · have hmark0 : wrap64 (g.CurrentPlayer + 1) ≠ 0 := by
        rw [wrap64_succ_player g.CurrentPlayer hp]; rcases hp with h0 | h1 <;> omega
      have hne : ((g.placed row c now).settle win full).Board ≠ g.Board := by
        rw [settle_Board]
        exact put_ne_of_empty g.Board row c _ hz hmark0
      rw [if_pos hne]
      cases win
      · cases full
        · refine ⟨?_, Or.inl ⟨Or.inr (Or.inl hs), hwin⟩⟩
          show wrap64 (1 - g.CurrentPlayer) = 0 ∨ wrap64 (1 - g.CurrentPlayer) = 1
          rw [wrap64_other_player g.CurrentPlayer hp]
          rcases hp with h0 | h1 <;> omega
        · exact ⟨hp, Or.inl ⟨Or.inr (Or.inr rfl), rfl⟩⟩
      · exact ⟨hp, Or.inr ⟨rfl, hp, rfl⟩⟩

/-- Along a run of hub operations the outcome fields of a session stay sound. -/
theorem lastPlacer_winnerSound (id : String) (ops : List HubOp) :
    ∀ (h h2 : Hub) (last last2 : Option Int) (g : Game), h.Games id = some g →
      g.winnerSound last → Hub.lastPlacer id h ops last = .ok (h2, last2) →
      ∃ g2, h2.Games id = some g2 ∧ g2.winnerSound last2 := by
  induction ops with
  | nil =>
    intro h h2 last last2 g hg hk hrun
    simp only [Hub.lastPlacer] at hrun
    injection hrun with hrun
    injection hrun with e1 e2
    subst e1 e2
    exact ⟨g, hg, hk⟩
  | cons op rest ih =>
    intro h h2 last last2 g hg hk hrun
    simp only [Hub.lastPlacer, bind_eq_ok] at hrun
    obtain ⟨h1, hstep, hrest⟩ := hrun
    obtain ⟨g1, hg1, hss⟩ := Hub.step_session h h1 op hstep id g hg
    rw [hg, hg1] at hrest
    exact ih h1 h2 _ last2 g1 hg1 (sessionStep_winnerSound g g1 last hk hss) hrest

/-- `Hub.lastPlacer` runs the operations as `Hub.run` does. -/
theorem lastPlacer_run (id : String) (ops : List HubOp) :
    ∀ (h : Hub) (last : Option Int),
      (Hub.lastPlacer id h ops last).map Prod.fst = Hub.run h ops := by
  induction ops with
  | nil => intro h last; rfl
  | cons op rest ih =>
    intro h last
    simp only [Hub.lastPlacer, Hub.run]
    cases hstep : h.step op with
    | error e => rfl
    | ok h1 =>
      simp only [ok_bind]
      exact ih h1 _

/-- C7: in every session state reached from `NewGame` through hub operations
(`JoinGame`, the join timeout, `Hub.MakeMove`, the bot move), `Winner` is -1, 0
or 1; it is 0 or 1 only if the status is "finished" (a waiting or playing
session has `Winner = -1`); and a finished session with `Winner >= 0` has
`Winner` equal to the slot that placed the last disc. -/
theorem C7_winner_invariant (h0 h : Hub) (id gid : String) (player1 : Player) (t0 : Nat)
    (ops : List HubOp) (last : Option Int)
    (hinit : h0.Games id = some (NewGame gid player1 t0))
    (hrun : Hub.lastPlacer id h0 ops none = .ok (h, last)) :
    ∃ g, h.Games id = some g ∧
      (g.Winner = -1 ∨ g.Winner = 0 ∨ g.Winner = 1) ∧
      ((g.Winner = 0 ∨ g.Winner = 1) → g.Status = "finished") ∧
      ((g.Status = "waiting" ∨ g.Status = "playing") → g.Winner = -1) ∧
      (g.Status = "finished" → 0 ≤ g.Winner → last = some g.Winner) := by
  have hk0 : (NewGame gid player1 t0).winnerSound none :=
    ⟨Or.inl rfl, Or.inl ⟨Or.inl rfl, rfl⟩⟩
  obtain ⟨g, hg, _, hcase⟩ := lastPlacer_winnerSound id ops h0 h none last _ hinit hk0 hrun
  refine ⟨g, hg, ?_, ?_, ?_, ?_⟩
  · rcases hcase with ⟨_, hw⟩ | ⟨_, hw, _⟩
    · exact Or.inl hw
    · exact Or.inr hw
  · intro hw
    rcases hcase with ⟨_, hw1⟩ | ⟨hf, _, _⟩
    · omega
    · exact hf
  · intro hs
    rcases hcase with ⟨_, hw⟩ | ⟨hf, _, _⟩
    · exact hw
    · rcases hs with hs | hs <;> rw [hs] at hf
      · exact absurd hf status_waiting_ne_finished
      · exact absurd hf status_playing_ne_finished
  · intro _ hw
    rcases hcase with ⟨_, hw1⟩ | ⟨_, _, hl⟩
    · omega
    · exact hl

/-- C7, instance: bob joins, then alice plays column 3 four times and bob
column 2 in between. -/
theorem C7_winner_invariant_witness :
    demoWaitingHub.Games "game_1" = some (NewGame "game_1" demoAlice 0) ∧
    ∃ (h : Hub) (last : Option Int),
      Hub.lastPlacer "game_1" demoWaitingHub
        [.join "game_1" demoBob 0, .move "game_1" "p1" 3 1, .move "game_1" "p2" 2 2,
         .move "game_1" "p1" 3 3, .move "game_1" "p2" 2 4, .move "game_1" "p1" 3 5,
         .move "game_1" "p2" 2 6, .move "game_1" "p1" 3 7] none = .ok (h, last) ∧
      ∃ g, h.Games "game_1" = some g ∧
        (g.Winner = -1 ∨ g.Winner = 0 ∨ g.Winner = 1) ∧
        ((g.Winner = 0 ∨ g.Winner = 1) → g.Status = "finished") ∧
        ((g.Status = "waiting" ∨ g.Status = "playing") → g.Winner = -1) ∧
        (g.Status = "finished" → 0 ≤ g.Winner → last = some g.Winner) := by
  refine ⟨rfl, ?_⟩
  have hok : (Hub.lastPlacer "game_1" demoWaitingHub
        [.join "game_1" demoBob 0, .move "game_1" "p1" 3 1, .move "game_1" "p2" 2 2,
         .move "game_1" "p1" 3 3, .move "game_1" "p2" 2 4, .move "game_1" "p1" 3 5,
         .move "game_1" "p2" 2 6, .move "game_1" "p1" 3 7] none).isOk = true := by decide
  cases hrun : Hub.lastPlacer "game_1" demoWaitingHub
        [.join "game_1" demoBob 0, .move "game_1" "p1" 3 1, .move "game_1" "p2" 2 2,
         .move "game_1" "p1" 3 3, .move "game_1" "p2" 2 4, .move "game_1" "p1" 3 5,
         .move "game_1" "p2" 2 6, .move "game_1" "p1" 3 7] none with
  | error e =>
    rw [hrun] at hok
    cases hok
  | ok r =>
    exact ⟨r.1, r.2, rfl,
      C7_winner_invariant demoWaitingHub r.1 "game_1" "game_1" demoAlice 0 _ r.2 rfl hrun⟩

/-! ## The join timeout and the opponent move that finds nothing to do -/

/-- C14: when the join timeout fires for a session that exists with status
"waiting", the session becomes "playing" with the automated participant
(`IsBot` true, ID "bot_" followed by the ID of the session) in slot 1, turn
index 0 or 1, and slot 0, the board and the other sessions unchanged; when the
session is absent or its status is not "waiting", the hub is left as it was. -/
theorem C14_join_timeout (h : Hub) (gameID : String) (seed : Nat) :
    (∀ g : Game, h.Games gameID = some g → g.Status = "waiting" →
      ∃ (h1 : Hub) (scheduled : Bool) (g1 : Game),
        h.startBotTimeout gameID seed = .ok (h1, scheduled) ∧
        h1.Games gameID = some g1 ∧ (∀ k : String, k ≠ gameID → h1.Games k = h.Games k) ∧
        g1.Status = "playing" ∧
        g1.Players 1 = { ID := "bot_" ++ g.ID, Username := "CompetitiveBot", IsBot := true } ∧
        (g.ID = gameID → (g1.Players 1).ID = "bot_" ++ gameID) ∧
        (g1.CurrentPlayer = 0 ∨ g1.CurrentPlayer = 1) ∧
        g1.Players 0 = g.Players 0 ∧ g1.Board = g.Board ∧ g1.Winner = g.Winner ∧
        g1.ID = g.ID) ∧
    (h.Games gameID = none → h.startBotTimeout gameID seed = .ok (h, false)) ∧
    (∀ g : Game, h.Games gameID = some g → g.Status ≠ "waiting" →
      h.startBotTimeout gameID seed = .ok (h, false)) := by
  refine ⟨?_, ?_, ?_⟩
  · intro g hg hw
    have hcp : (g.AddBot seed).CurrentPlayer = 0 ∨ (g.AddBot seed).CurrentPlayer = 1 :=
      Intn_two seed
    obtain ⟨sch, hsch⟩ := botToMove_ok (g.AddBot seed) hcp
    refine ⟨h.setGame gameID (g.AddBot seed), sch, g.AddBot seed, ?_, Hub.setGame_same _ _ _,
      ?_, rfl, ?_, ?_, hcp, ?_, rfl, rfl, rfl⟩
    · simp [Hub.startBotTimeout, hg, hw, hsch]
    · intro k hk
      exact Hub.setGame_other h gameID k _ hk
    · simp [Game.AddBot]
    · intro hid
      simp [Game.AddBot, hid]
    · simp [Game.AddBot]
  · intro hg
    simp [Hub.startBotTimeout, hg]
  · intro g hg hw
    simp [Hub.startBotTimeout, hg, hw]

/-- C14, instance: the timeout fires on the waiting session of alice. -/
theorem C14_join_timeout_witness :
    (demoWaitingHub.Games "game_1" = some (NewGame "game_1" demoAlice 0) ∧
      (NewGame "game_1" demoAlice 0).Status = "waiting") ∧
    ∃ (h1 : Hub) (scheduled : Bool) (g1 : Game),
      demoWaitingHub.startBotTimeout "game_1" 1 = .ok (h1, scheduled) ∧
      h1.Games "game_1" = some g1 ∧ g1.Status = "playing" ∧
      (g1.Players 1).IsBot = true ∧ (g1.Players 1).ID = "bot_game_1" ∧
      (g1.CurrentPlayer = 0 ∨ g1.CurrentPlayer = 1) ∧
      g1.Players 0 = demoAlice ∧ g1.Board = Grid.empty := by
  obtain ⟨h1, sch, g1, hrun, hg1, _, hs, hbot, hid, hcp, hp0, hb, _, _⟩ :=
    (C14_join_timeout demoWaitingHub "game_1" 1).1 (NewGame "game_1" demoAlice 0) rfl rfl
  refine ⟨⟨rfl, rfl⟩, h1, sch, g1, hrun, hg1, hs, ?_, ?_, hcp, ?_, ?_⟩
  · rw [hbot]
  · rw [hid rfl]
    decide
  · rw [hp0]
    rfl
  · rw [hb]
    rfl

/-- C15: when a scheduled opponent move fires for a session that is absent, or
whose status is not "playing", or whose participant at the turn index is not
automated, `makeBotMove` places no disc and returns the hub, and with it the
session, as it was. -/
theorem C15_bot_move_without_turn (h : Hub) (gameID : String) (seed now fuel : Nat) :
    (h.Games gameID = none → h.makeBotMove gameID seed now fuel = .ok (h, false)) ∧
    (∀ g : Game, h.Games gameID = some g → g.Status ≠ "playing" →
      h.makeBotMove gameID seed now fuel = .ok (h, false)) ∧
    (∀ (g : Game) (p : Player), h.Games gameID = some g → g.GetCurrentPlayer = .ok p →
      p.IsBot = false → h.makeBotMove gameID seed now fuel = .ok (h, false)) := by
  refine ⟨?_, ?_, ?_⟩
  · intro hg
    simp [Hub.makeBotMove, hg]
  · intro g hg hs
    simp [Hub.makeBotMove, hg, hs]
  · intro g p hg hcur hbot
    by_cases hs : g.Status = "playing"
    · simp [Hub.makeBotMove, hg, hs, hcur, hbot]
    · simp [Hub.makeBotMove, hg, hs]

/-- C15, instance: an opponent move fires in the session of alice and bob,
who are both human. -/
theorem C15_bot_move_without_turn_witness :
    (demoHub.Games "game_1" = some demoFresh ∧ demoFresh.GetCurrentPlayer = .ok demoAlice ∧
      demoAlice.IsBot = false) ∧
    demoHub.makeBotMove "game_1" 0 1 10 = .ok (demoHub, false) :=
  ⟨⟨rfl, by decide, rfl⟩,
    (C15_bot_move_without_turn demoHub "game_1" 0 1 10).2.2 demoFresh demoAlice rfl
      (by decide) rfl⟩

/-! ## The fallback search of `makeBotMove` -/

/-- The loop variable of the fallback search never leaves 3: when the top cell
of column 3 is occupied the loop repeats the same test until the fuel is gone,
whatever the fuel. -/
theorem Hub.fallbackLoop_stuck (now : Nat) (g : Game) (h3 : Hub.isValidMove g 3 = .ok false) :
    ∀ fuel : Nat, Hub.fallbackLoop now fuel 3 g = .error .outOfFuel := by
  intro fuel
  induction fuel with
  | zero => simp [Hub.fallbackLoop]
  | succ f ih =>
    rw [Hub.fallbackLoop]
    simp only [ge_iff_le, ne_eq, not_true_eq_false, if_false, h3, ok_bind, Bool.false_eq_true]
    have e : (3 : Int) + (3 - 3) * -1 = 3 := by norm_num
    rw [e]
    simpa using ih

/-- The loop taken by itself: on the board reached by the moves 3, 3, 3, 3, 3, 3
from a fresh session, where every column but column 3 has an empty top cell,
the fallback loop entered at the centre never leaves column 3: for every fuel
it is still running when the fuel is used up. -/
theorem Hub.fallbackLoop_stuck_centreFull :
    (demoFresh.playMoves [(3, 1), (3, 2), (3, 3), (3, 4), (3, 5), (3, 6)]).map
        (fun g => (decide (g.Board = demoCentreFull.Board), g.Status, g.CurrentPlayer, g.Winner))
      = .ok (true, demoCentreFull.Status, demoCentreFull.CurrentPlayer, demoCentreFull.Winner) ∧
    demoCentreFull.Status = "playing" ∧
    (∀ c : Fin 7, c ≠ 3 → demoCentreFull.Board 0 c = 0) ∧
    ∀ now fuel : Nat, Hub.fallbackLoop now fuel 3 demoCentreFull = .error .outOfFuel :=
  ⟨by decide, by decide, by decide,
    fun now fuel => Hub.fallbackLoop_stuck now demoCentreFull (by decide) fuel⟩

theorem Hub.deleteGame_same (h : Hub) (k : String) : (h.deleteGame k).Games k = none := by
  simp [Hub.deleteGame]

theorem Hub.deleteGame_other (h : Hub) (k id : String) (hne : id ≠ k) :
    (h.deleteGame k).Games id = h.Games id := by
  simp [Hub.deleteGame, hne]

/-- A session is too old at the time `t` when `time.Since(CreatedAt) > time.Hour`. -/
theorem cleanupPass_spec (t : Nat) (keys : List String) :
    ∀ (h : Hub) (id : String),
      (Hub.cleanupPass t h keys).Games id =
        if id ∈ keys then
          (h.Games id).filter (fun g => decide ((t : Int) - (g.CreatedAt : Int) ≤ timeHour))
        else h.Games id := by
  induction keys with
  | nil => intro h id; simp [Hub.cleanupPass]
  | cons k rest ih =>
    intro h id
    rw [Hub.cleanupPass]
    cases hk : h.Games k with
    | none =>
      simp only []
      rw [ih]
      by_cases hid : id = k
      · subst hid
        simp [hk]
      · simp [hid]
    | some game =>
      simp only []
      rw [ih]
      by_cases hold : (t : Int) - (game.CreatedAt : Int) > timeHour
      · rw [if_pos hold]
        by_cases hid : id = k
        · subst hid
          have hnot : ¬ ((t : Int) ≤ timeHour + (game.CreatedAt : Int)) := by omega
          simp [Hub.deleteGame_same, hk, Option.filter, hnot]
        · simp [Hub.deleteGame_other h k id hid, hid]
      · rw [if_neg hold]
        by_cases hid : id = k
        · subst hid
          have hyes : (t : Int) ≤ timeHour + (game.CreatedAt : Int) := by omega
          by_cases hin : id ∈ rest
          · simp [hin]
          · simp [hin, hk, Option.filter, hyes]
        · simp [hid]

/-- C19: after one pass of the sweeper at the time `t` over the keys of the
map, the map holds exactly the sessions whose age `t - CreatedAt` is at most
one hour, each unchanged and whatever its status; `JoinGame` and `Hub.MakeMove`
on an evicted id then fail with "game not found". -/
theorem C19_sweeper_evicts_by_age (h : Hub) (t : Nat) (keys : List String)
    (hkeys : ∀ (id : String) (g : Game), h.Games id = some g → id ∈ keys) :
    (∀ id : String, (h.cleanupPass t keys).Games id =
      (h.Games id).filter (fun g => decide ((t : Int) - (g.CreatedAt : Int) ≤ timeHour))) ∧
    (∀ (id : String) (g : Game), h.Games id = some g →
      (t : Int) - (g.CreatedAt : Int) ≤ timeHour → (h.cleanupPass t keys).Games id = some g) ∧
    (∀ (id : String) (g : Game), h.Games id = some g →
      (t : Int) - (g.CreatedAt : Int) > timeHour →
      (h.cleanupPass t keys).Games id = none ∧
      (∀ (player2 : Player) (seed : Nat), ∃ r,
        (h.cleanupPass t keys).JoinGame id player2 seed = .ok r ∧
          r.err = some "game not found" ∧ r.game = none ∧ r.hub = h.cleanupPass t keys) ∧
      (∀ (playerID : String) (column : Int) (now : Nat), ∃ r,
        (h.cleanupPass t keys).MakeMove id playerID column now = .ok r ∧
          r.err = some "game not found" ∧ r.game = none ∧ r.hub = h.cleanupPass t keys)) := by
  have hspec : ∀ id : String, (h.cleanupPass t keys).Games id =
      (h.Games id).filter (fun g => decide ((t : Int) - (g.CreatedAt : Int) ≤ timeHour)) := by
    intro id
    rw [cleanupPass_spec]
    split
    · rfl
    · rename_i hin
      cases hg : h.Games id with
      | none => rfl
      | some g => exact absurd (hkeys id g hg) hin
  refine ⟨hspec, ?_, ?_⟩
  · intro id g hg hyoung
    rw [hspec, hg]
    simp [Option.filter, hyoung]
  · intro id g hg hold
    have hnone : (h.cleanupPass t keys).Games id = none := by
      rw [hspec, hg]
      have hnot : ¬ ((t : Int) - (g.CreatedAt : Int) ≤ timeHour) := by omega
      simp [Option.filter, hnot]
    refine ⟨hnone, ?_, ?_⟩
    · intro player2 seed
      refine ⟨⟨_, none, some "game not found", false⟩, ?_, rfl, rfl, rfl⟩
      simp [Hub.JoinGame, hnone]
    · intro playerID column now
      refine ⟨⟨_, none, some "game not found", false⟩, ?_, rfl, rfl, rfl⟩
      simp [Hub.MakeMove, hnone]

/-- C19, instance: the session of alice and bob, created at time 0, is swept
one nanosecond after its first hour. -/
theorem C19_sweeper_evicts_by_age_witness :
    (∀ (id : String) (g : Game), demoHub.Games id = some g → id ∈ ["game_1"]) ∧
    (demoHub.Games "game_1" = some demoFresh ∧
      ((3600000000001 : Nat) : Int) - (demoFresh.CreatedAt : Int) > timeHour) ∧
    (demoHub.cleanupPass 3600000000001 ["game_1"]).Games "game_1" = none := by
  have hkeys : ∀ (id : String) (g : Game), demoHub.Games id = some g → id ∈ ["game_1"] := by
    intro id g hg
    by_cases hid : id = "game_1"
    · simp [hid]
    · simp [demoHub, NewHub, Hub.setGame, hid] at hg
  have hold : ((3600000000001 : Nat) : Int) - (demoFresh.CreatedAt : Int) > timeHour := by
    decide
  exact ⟨hkeys, ⟨rfl, hold⟩,
    ((C19_sweeper_evicts_by_age demoHub 3600000000001 ["game_1"] hkeys).2.2
      "game_1" demoFresh rfl hold).1⟩

/-! ## The handle set -/

theorem Handles.unregister_of_registered (s : Handles) (c : Nat) (h : s.Clients c = true) :
    s.unregister c =
      { s with
        Clients := Function.update s.Clients c false
        closes := Function.update s.closes c (s.closes c + 1) } := by
  simp [Handles.unregister, h]

theorem Handles.unregister_of_absent (s : Handles) (c : Nat) (h : s.Clients c = false) :
    s.unregister c = s := by
  simp [Handles.unregister, h]

theorem Handles.unregister_absent_after (s : Handles) (c : Nat) :
    (s.unregister c).Clients c = false := by
  unfold Handles.unregister
  split
  · simp
  · rename_i h
    simpa using h

/-- What one broadcast event does to the handle `c`, seen over the rest of the
loop: handles other than those in the order are not touched. -/
theorem Handles.broadcast_untouched (msg : String) (order : List Nat) (c : Nat)
    (hc : c ∉ order) :
    ∀ s : Handles, (s.broadcast msg order).Clients c = s.Clients c ∧
      (s.broadcast msg order).queue c = s.queue c ∧
      (s.broadcast msg order).closes c = s.closes c ∧
      (s.broadcast msg order).capacity = s.capacity := by
  induction order with
  | nil => intro s; exact ⟨rfl, rfl, rfl, rfl⟩
  | cons d rest ih =>
    intro s
    have hd : c ≠ d := fun e => hc (by simp [e])
    have hrest : c ∉ rest := fun e => hc (by simp [e])
    rw [Handles.broadcast]
    obtain ⟨h1, h2, h3, h4⟩ := ih hrest (if s.Clients d = true then s.deliver msg d else s)
    rw [h1, h2, h3, h4]
    split
    · unfold Handles.deliver
      split <;> simp [Function.update_noteq hd]
    · exact ⟨rfl, rfl, rfl, rfl⟩

/-- A broadcast never registers a handle, and it leaves a handle that is not
registered as it is. -/
theorem Handles.broadcast_absent (msg : String) (order : List Nat) (c : Nat) :
    ∀ s : Handles, s.Clients c = false →
      (s.broadcast msg order).Clients c = false ∧
      (s.broadcast msg order).queue c = s.queue c ∧
      (s.broadcast msg order).closes c = s.closes c := by
  induction order with
  | nil => intro s h; exact ⟨h, rfl, rfl⟩
  | cons d rest ih =>
    intro s h
    rw [Handles.broadcast]
    by_cases hd : c = d
    · subst hd
      simp only [h, Bool.false_eq_true, if_false]
      exact ih s h
    · have hstep : (if s.Clients d = true then s.deliver msg d else s).Clients c = false ∧
          (if s.Clients d = true then s.deliver msg d else s).queue c = s.queue c ∧
          (if s.Clients d = true then s.deliver msg d else s).closes c = s.closes c := by
        split
        · unfold Handles.deliver
          split <;> simp [Function.update_noteq hd, h]
        · exact ⟨h, rfl, rfl⟩
      obtain ⟨h1, h2, h3⟩ := ih _ hstep.1
      exact ⟨h1, h2.trans hstep.2.1, h3.trans hstep.2.2⟩

/-- The outcome of one broadcast for each handle, whatever the order of the
loop: a registered handle with room gets the message, a registered handle with
a full queue is closed and removed, the others are left alone. -/
theorem Handles.broadcast_spec (msg : String) (order : List Nat) (hnd : order.Nodup) (c : Nat) :
    ∀ s : Handles, (s.Clients c = true → c ∈ order) →
      (s.broadcast msg order).capacity = s.capacity ∧
      (s.Clients c = true → (s.queue c).length < s.capacity c →
        (s.broadcast msg order).Clients c = true ∧
        (s.broadcast msg order).queue c = s.queue c ++ [msg] ∧
        (s.broadcast msg order).closes c = s.closes c) ∧
      (s.Clients c = true → ¬ (s.queue c).length < s.capacity c →
        (s.broadcast msg order).Clients c = false ∧
        (s.broadcast msg order).queue c = s.queue c ∧
        (s.broadcast msg order).closes c = s.closes c + 1) ∧
      (s.Clients c = false →
        (s.broadcast msg order).Clients c = false ∧
        (s.broadcast msg order).queue c = s.queue c ∧
        (s.broadcast msg order).closes c = s.closes c) := by
  induction order with
  | nil =>
    intro s hin
    refine ⟨rfl, ?_, ?_, fun h => ⟨h, rfl, rfl⟩⟩
    · intro h; exact absurd (hin h) (by simp)
    · intro h; exact absurd (hin h) (by simp)
  | cons d rest ih =>
    intro s hin
    have hnd1 : rest.Nodup := (List.nodup_cons.mp hnd).2
    have hdrest : d ∉ rest := (List.nodup_cons.mp hnd).1
    refine ⟨?_, ?_, ?_, fun h => Handles.broadcast_absent msg (d :: rest) c s h⟩
    · rw [Handles.broadcast]
      by_cases hdc : d ∈ rest
      · exact absurd hdc hdrest
      · have := (Handles.broadcast_untouched msg rest d hdrest
          (if s.Clients d = true then s.deliver msg d else s)).2.2.2
        rw [this]
        split
        · unfold Handles.deliver
          split <;> rfl
        · rfl
    · intro hreg hroom
      rw [Handles.broadcast]
      by_cases hcd : c = d
      · subst hcd
        obtain ⟨h1, h2, h3, _⟩ := Handles.broadcast_untouched msg rest c hdrest
          (if s.Clients c = true then s.deliver msg c else s)
        rw [h1, h2, h3]
        simp [hreg, Handles.deliver, hroom]
      · have hstep : (if s.Clients d = true then s.deliver msg d else s).Clients c = s.Clients c ∧
            (if s.Clients d = true then s.deliver msg d else s).queue c = s.queue c ∧
            (if s.Clients d = true then s.deliver msg d else s).closes c = s.closes c ∧
            (if s.Clients d = true then s.deliver msg d else s).capacity = s.capacity := by
          split
          · unfold Handles.deliver
            split <;> simp [Function.update_noteq hcd]
          · exact ⟨rfl, rfl, rfl, rfl⟩
        have hin1 : (if s.Clients d = true then s.deliver msg d else s).Clients c = true →
            c ∈ rest := by
          intro _
          rcases List.mem_cons.mp (hin hreg) with e | e
          · exact absurd e hcd
          · exact e
        obtain ⟨_, hyes, _, _⟩ := ih hnd1 _ hin1
        have := hyes (by rw [hstep.1]; exact hreg) (by rw [hstep.2.1, hstep.2.2.2]; exact hroom)
        rw [hstep.2.1, hstep.2.2.1] at this
        exact this
    · intro hreg hfull
      rw [Handles.broadcast]
      by_cases hcd : c = d
      · subst hcd
        obtain ⟨h1, h2, h3, _⟩ := Handles.broadcast_untouched msg rest c hdrest
          (if s.Clients c = true then s.deliver msg c else s)
        rw [h1, h2, h3]
        simp [hreg, Handles.deliver, hfull]
      · have hstep : (if s.Clients d = true then s.deliver msg d else s).Clients c = s.Clients c ∧
            (if s.Clients d = true then s.deliver msg d else s).queue c = s.queue c ∧
            (if s.Clients d = true then s.deliver msg d else s).closes c = s.closes c ∧
            (if s.Clients d = true then s.deliver msg d else s).capacity = s.capacity := by
          split
          · unfold Handles.deliver
            split <;> simp [Function.update_noteq hcd]
          · exact ⟨rfl, rfl, rfl, rfl⟩
        have hin1 : (if s.Clients d = true then s.deliver msg d else s).Clients c = true →
            c ∈ rest := by
          intro _
          rcases List.mem_cons.mp (hin hreg) with e | e
          · exact absurd e hcd
          · exact e
        obtain ⟨_, _, hno, _⟩ := ih hnd1 _ hin1
        have := hno (by rw [hstep.1]; exact hreg) (by rw [hstep.2.1, hstep.2.2.2]; exact hfull)
        rw [hstep.2.1, hstep.2.2.1] at this
        exact this

/-- C18: one broadcast, whatever the order in which the loop visits the
registered handles, appends the message to the queue of each registered handle
whose queue has room and keeps it registered, and removes and closes (once)
each registered handle whose queue is full; handles that are not registered
are left alone, and what happens to a handle is fixed by its own registration,
queue and capacity, not by the other handles. -/
theorem C18_broadcast_per_handle (s : Handles) (msg : String) (order : List Nat)
    (hnd : order.Nodup) (hall : ∀ c : Nat, s.Clients c = true → c ∈ order) :
    (∀ c : Nat, s.Clients c = true → (s.queue c).length < s.capacity c →
      (s.broadcast msg order).Clients c = true ∧
      (s.broadcast msg order).queue c = s.queue c ++ [msg] ∧
      (s.broadcast msg order).closes c = s.closes c) ∧
    (∀ c : Nat, s.Clients c = true → ¬ (s.queue c).length < s.capacity c →
      (s.broadcast msg order).Clients c = false ∧
      (s.broadcast msg order).queue c = s.queue c ∧
      (s.broadcast msg order).closes c = s.closes c + 1) ∧
    (∀ c : Nat, s.Clients c = false →
      (s.broadcast msg order).Clients c = false ∧
      (s.broadcast msg order).queue c = s.queue c ∧
      (s.broadcast msg order).closes c = s.closes c) ∧
    (∀ (s2 : Handles) (order2 : List Nat) (c : Nat), order2.Nodup →
      (∀ d : Nat, s2.Clients d = true → d ∈ order2) →
      s2.Clients c = s.Clients c → s2.queue c = s.queue c → s2.capacity c = s.capacity c →
      s2.closes c = s.closes c →
      (s2.broadcast msg order2).Clients c = (s.broadcast msg order).Clients c ∧
      (s2.broadcast msg order2).queue c = (s.broadcast msg order).queue c ∧
      (s2.broadcast msg order2).closes c = (s.broadcast msg order).closes c) := by
  refine ⟨?_, ?_, ?_, ?_⟩
  · intro c
    exact (Handles.broadcast_spec msg order hnd c s (hall c)).2.1
  · intro c
    exact (Handles.broadcast_spec msg order hnd c s (hall c)).2.2.1
  · intro c
    exact (Handles.broadcast_spec msg order hnd c s (hall c)).2.2.2
  · intro s2 order2 c hnd2 hall2 hcl hq hcap hclose
    obtain ⟨_, a1, a2, a3⟩ := Handles.broadcast_spec msg order hnd c s (hall c)
    obtain ⟨_, b1, b2, b3⟩ := Handles.broadcast_spec msg order2 hnd2 c s2 (hall2 c)
    rw [hcl, hq, hcap, hclose] at b1 b2
    rw [hcl, hq, hclose] at b3
    cases hreg : s.Clients c with
    | false =>
      obtain ⟨x1, x2, x3⟩ := a3 hreg
      obtain ⟨y1, y2, y3⟩ := b3 hreg
      exact ⟨y1.trans x1.symm, y2.trans x2.symm, y3.trans x3.symm⟩
    | true =>
      by_cases hroom : (s.queue c).length < s.capacity c
      · obtain ⟨x1, x2, x3⟩ := a1 hreg hroom
        obtain ⟨y1, y2, y3⟩ := b1 hreg hroom
        exact ⟨y1.trans x1.symm, y2.trans x2.symm, y3.trans x3.symm⟩
      · obtain ⟨x1, x2, x3⟩ := a2 hreg hroom
        obtain ⟨y1, y2, y3⟩ := b2 hreg hroom
        exact ⟨y1.trans x1.symm, y2.trans x2.symm, y3.trans x3.symm⟩

/-- C18, instance: a broadcast to the two demo handles, visited as 1, 0. -/
theorem C18_broadcast_per_handle_witness :
    ([1, 0].Nodup ∧ ∀ c : Nat, demoHandles.Clients c = true → c ∈ [1, 0]) ∧
    ((demoHandles.broadcast "new" [1, 0]).Clients 0 = true ∧
      (demoHandles.broadcast "new" [1, 0]).queue 0 = demoHandles.queue 0 ++ ["new"] ∧
      (demoHandles.broadcast "new" [1, 0]).closes 0 = demoHandles.closes 0) ∧
    ((demoHandles.broadcast "new" [1, 0]).Clients 1 = false ∧
      (demoHandles.broadcast "new" [1, 0]).queue 1 = demoHandles.queue 1 ∧
      (demoHandles.broadcast "new" [1, 0]).closes 1 = demoHandles.closes 1 + 1) := by
  have hnd : [1, 0].Nodup := by decide
  have hall : ∀ c : Nat, demoHandles.Clients c = true → c ∈ [1, 0] := by
    intro c hc
    simp only [demoHandles, decide_eq_true_eq] at hc
    simp
    omega
  obtain ⟨hroom, hfull, _, _⟩ := C18_broadcast_per_handle demoHandles "new" [1, 0] hnd hall
  exact ⟨⟨hnd, hall⟩, hroom 0 (by decide) (by decide), hfull 1 (by decide) (by decide)⟩

/-- Each close of the channel of a handle uses up a registration: along a
broadcast the close count plus the registration does not grow. -/
theorem Handles.broadcast_budget (msg : String) (order : List Nat) (c : Nat) :
    ∀ s : Handles,
      (s.broadcast msg order).closes c + (if (s.broadcast msg order).Clients c = true then 1 else 0)
        ≤ s.closes c + (if s.Clients c = true then 1 else 0) := by
  induction order with
  | nil => intro s; exact le_refl _
  | cons d rest ih =>
    intro s
    rw [Handles.broadcast]
    refine le_trans (ih _) ?_
    split
    · rename_i hd
      unfold Handles.deliver
      split
      · exact le_refl _
      · by_cases hcd : c = d
        · subst hcd
          simp [hd]
        · simp [Function.update_noteq hcd]
    · exact le_refl _

/-- One event raises the close count plus the registration of a handle by at
most the registration it carries. -/
theorem Handles.apply_budget (s : Handles) (e : HandleEvent) (c : Nat) :
    (s.apply e).closes c + (if (s.apply e).Clients c = true then 1 else 0)
      ≤ s.closes c + (if s.Clients c = true then 1 else 0) + registrations c [e] := by
  cases e with
  | register d =>
    simp only [Handles.apply, Handles.register, registrations]
    by_cases hcd : d = c
    · subst hcd
      simp
    · have hne : c ≠ d := fun e => hcd e.symm
      simp [Function.update_noteq hne, hcd]
  | unregister d =>
    simp only [Handles.apply, registrations, add_zero]
    unfold Handles.unregister
    split
    · rename_i hd
      by_cases hcd : c = d
      · subst hcd
        simp [hd]
      · simp [Function.update_noteq hcd]
    · exact le_refl _
  | broadcast msg order =>
    simp only [Handles.apply, registrations, add_zero]
    exact Handles.broadcast_budget msg order c s
  | consume d =>
    simp only [Handles.apply, Handles.consume, registrations, add_zero]
    exact le_refl _

theorem registrations_cons (c : Nat) (e : HandleEvent) (rest : List HandleEvent) :
    registrations c (e :: rest) = registrations c [e] + registrations c rest := by
  cases e <;> simp [registrations]

theorem Handles.applyAll_budget (c : Nat) (events : List HandleEvent) :
    ∀ s : Handles,
      (s.applyAll events).closes c + (if (s.applyAll events).Clients c = true then 1 else 0)
        ≤ s.closes c + (if s.Clients c = true then 1 else 0) + registrations c events := by
  induction events with
  | nil => intro s; simp [Handles.applyAll, registrations]
  | cons e rest ih =>
    intro s
    rw [Handles.applyAll, registrations_cons]
    have h1 := ih (s.apply e)
    have h2 := Handles.apply_budget s e c
    omega

/-- C17: processing `Unregister` for a registered handle removes it and closes
its channel once, leaving the other handles alone; for a handle that is not
registered (never registered, unregistered before, or dropped by a broadcast
whose queue was full) it changes nothing and closes nothing; so unregistering
twice equals unregistering once, and along every sequence of events from the
empty handle set a handle that is registered at most once is closed at most once. -/
theorem C17_unregister_closes_once :
    (∀ (s : Handles) (c : Nat), s.Clients c = true →
      (s.unregister c).Clients c = false ∧ (s.unregister c).closes c = s.closes c + 1 ∧
      (∀ d : Nat, d ≠ c → (s.unregister c).Clients d = s.Clients d ∧
        (s.unregister c).closes d = s.closes d) ∧
      (s.unregister c).queue = s.queue ∧ (s.unregister c).capacity = s.capacity) ∧
    (∀ (s : Handles) (c : Nat), s.Clients c = false → s.unregister c = s) ∧
    (∀ (s : Handles) (c : Nat), (s.unregister c).unregister c = s.unregister c) ∧
    (∀ (s : Handles) (msg : String) (order : List Nat) (c : Nat), order.Nodup → c ∈ order →
      s.Clients c = true → ¬ (s.queue c).length < s.capacity c →
      (s.broadcast msg order).unregister c = s.broadcast msg order) ∧
    (∀ (capacity : Nat → Nat) (events : List HandleEvent) (c : Nat),
      registrations c events ≤ 1 → ((Handles.init capacity).applyAll events).closes c ≤ 1) := by
  refine ⟨?_, Handles.unregister_of_absent, ?_, ?_, ?_⟩
  · intro s c h
    rw [Handles.unregister_of_registered s c h]
    refine ⟨by simp, by simp, ?_, rfl, rfl⟩
    intro d hd
    simp [Function.update_noteq hd]
  · intro s c
    exact Handles.unregister_of_absent _ c (Handles.unregister_absent_after s c)
  · intro s msg order c hnd hin hreg hfull
    apply Handles.unregister_of_absent
    exact ((Handles.broadcast_spec msg order hnd c s (fun _ => hin)).2.2.1 hreg hfull).1
  · intro capacity events c hreg
    have := Handles.applyAll_budget c events (Handles.init capacity)
    have h0 : (Handles.init capacity).closes c = 0 := rfl
    have h1 : (Handles.init capacity).Clients c = false := rfl
    rw [h0, h1] at this
    simp only [Bool.false_eq_true, if_false, add_zero, zero_add] at this
    omega

/-- C17, instance: handle 1 is registered, unregistered twice, and a broadcast
runs in between. -/
theorem C17_unregister_closes_once_witness :
    registrations 1 [.register 1, .unregister 1, .broadcast "m" [1], .unregister 1] ≤ 1 ∧
    ((Handles.init (fun _ => 1)).applyAll
      [.register 1, .unregister 1, .broadcast "m" [1], .unregister 1]).closes 1 ≤ 1 :=
  ⟨by decide, C17_unregister_closes_once.2.2.2.2 (fun _ => 1) _ 1 (by decide)⟩

/-! ## The scenario of four discs in column 3 -/

theorem CheckWin_congr (g g1 : Game) (h : g.Board = g1.Board) (row col : Int) :
    g.CheckWin row col = g1.CheckWin row col := by
  unfold Game.CheckWin
  rw [h]

/-- `MakeMove` reads the board, the turn index and the status only: on two
games that agree in them it returns the same triple and leaves games that
agree again, whatever the times. -/
theorem MakeMove_sameEngine (g g1 : Game) (column : Int) (t t1 : Nat) (h : g.sameEngine g1) :
    ∃ (a a1 : Game) (r : MoveResult), g.MakeMove column t = .ok (a, r) ∧
      g1.MakeMove column t1 = .ok (a1, r) ∧ a.sameEngine a1 := by
  obtain ⟨hb, hc, hs, hw⟩ := h
  by_cases hplay : g.Status = "playing"
  · have hplay1 : g1.Status = "playing" := by rw [← hs]; exact hplay
    by_cases hcol : column < 0 ∨ column ≥ 7
    · exact ⟨g, g1, _, MakeMove_invalid g column t hplay hcol,
        MakeMove_invalid g1 column t1 hplay1 hcol, hb, hc, hs, hw⟩
    · obtain ⟨c, rfl⟩ := column_fin column hcol
      rcases MakeMove_cases g c t hplay with ⟨hfull, e⟩ | ⟨row, win, hz, hlow, hcw, e⟩
      · rcases MakeMove_cases g1 c t1 hplay1 with ⟨_, e1⟩ | ⟨row1, _, hz1, _, _, _⟩
        · exact ⟨g, g1, _, e, e1, hb, hc, hs, hw⟩
        · rw [← hb] at hz1
          exact absurd hz1 (hfull row1)
      · rcases MakeMove_cases g1 c t1 hplay1 with ⟨hfull1, _⟩ | ⟨row1, win1, hz1, hlow1, hcw1, e1⟩
        · rw [← hb] at hfull1
          exact absurd hz (hfull1 row)
        · have hrow : row1 = row := by
            rw [← hb] at hz1 hlow1
            rcases lt_trichotomy row1 row with hlt | heq | hgt
            · exact absurd hz (hlow1 row hlt)
            · exact heq
            · exact absurd hz1 (hlow row1 hgt)
          subst hrow
          have hboard : (g.placed row1 c t).Board = (g1.placed row1 c t1).Board := by
            simp [Game.placed, hb, hc]
          have hwin : win1 = win := by
            rw [CheckWin_congr _ _ hboard] at hcw
            rw [hcw] at hcw1
            injection hcw1 with hcw1
            exact hcw1.symm
          subst hwin
          rw [← hboard] at e1
          refine ⟨_, _, _, e, e1, ?_⟩
          generalize decide (∀ k : Fin 7, (g.placed row1 c t).Board 0 k ≠ 0) = full
          cases win1
          · cases full
            · refine ⟨hboard, ?_, hs, ?_⟩
              · show wrap64 (1 - g.CurrentPlayer) = wrap64 (1 - g1.CurrentPlayer)
                rw [hc]
              · intro hne
                exact absurd hplay hne
            · exact ⟨hboard, hc, rfl, fun _ => rfl⟩
          · exact ⟨hboard, hc, rfl, fun _ => hc⟩
  · have hplay1 : g1.Status ≠ "playing" := by rw [← hs]; exact hplay
    exact ⟨g, g1, _, MakeMove_not_playing g column t hplay,
      MakeMove_not_playing g1 column t1 hplay1, hb, hc, hs, hw⟩

/-- Two runs of `MakeMove` calls with the same columns, on games that agree for
the engine, return the same triples and end in games that agree. -/
theorem playResults_sameEngine (ms : List (Int × Nat)) :
    ∀ (ms1 : List (Int × Nat)) (g g1 : Game), ms.map Prod.fst = ms1.map Prod.fst →
      g.sameEngine g1 →
      ∃ (a a1 : Game) (rs : List MoveResult), g.playResults ms = .ok (a, rs) ∧
        g1.playResults ms1 = .ok (a1, rs) ∧ a.sameEngine a1 := by
  induction ms with
  | nil =>
    intro ms1 g g1 hcols h
    cases ms1 with
    | nil => exact ⟨g, g1, [], rfl, rfl, h⟩
    | cons m rest => simp at hcols
  | cons m rest ih =>
    intro ms1 g g1 hcols h
    cases ms1 with
    | nil => simp at hcols
    | cons m1 rest1 =>
      simp only [List.map_cons, List.cons.injEq] at hcols
      obtain ⟨a, a1, r, e, e1, hsame⟩ := MakeMove_sameEngine g g1 m.1 m.2 m1.2 h
      obtain ⟨b, b1, rs, f, f1, hsame1⟩ := ih rest1 a a1 hcols.2 hsame
      refine ⟨b, b1, r :: rs, ?_, ?_, hsame1⟩
      · simp only [Game.playResults, e, ok_bind, f]
      · rw [hcols.1] at e1
        simp only [Game.playResults, e1, ok_bind, f1]

set_option maxRecDepth 100000 in
/-- The scenario on the demo session with all times 0, for each choice of the
three columns of the opponent, by evaluation. -/
theorem scenario_demo :
    ∀ c1 c2 c3 : Fin 7, c1 ≠ 3 → c2 ≠ 3 → c3 ≠ 3 →
      (demoFresh.playResults
          [(3, 0), (((c1 : Nat) : Int), 0), (3, 0), (((c2 : Nat) : Int), 0), (3, 0),
            (((c3 : Nat) : Int), 0), (3, 0)]).map
        (fun r => r.2.all (fun m => m.success && m.err.isNone) && decide (r.2.length = 7) &&
          decide (r.1.Status = "finished") && decide (r.1.Winner = 0) &&
          decide (r.1.Board 5 3 = 1) && decide (r.1.Board 4 3 = 1) &&
          decide (r.1.Board 3 3 = 1) && decide (r.1.Board 2 3 = 1))
        = .ok true := by
  decide

/-- C11: from a started session with turn index 0 and an empty board, for
each choice of three opponent columns other than 3, the seven calls
`MakeMove` with the columns 3, c1, 3, c2, 3, c3, 3 all succeed, and after the
last one the status is "finished", the winner is slot 0 and the cells of
column 3 in the rows 5, 4, 3, 2 hold the marker 1. -/
theorem C11_four_in_column_three (g0 : Game) (hb : g0.Board = Grid.empty)
    (hs : g0.Status = "playing") (hp : g0.CurrentPlayer = 0)
    (c1 c2 c3 : Fin 7) (h1 : c1 ≠ 3) (h2 : c2 ≠ 3) (h3 : c3 ≠ 3)
    (t1 t2 t3 t4 t5 t6 t7 : Nat) :
    ∃ (g : Game) (rs : List MoveResult),
      g0.playResults
          [(3, t1), (((c1 : Nat) : Int), t2), (3, t3), (((c2 : Nat) : Int), t4), (3, t5),
            (((c3 : Nat) : Int), t6), (3, t7)] = .ok (g, rs) ∧
      rs.length = 7 ∧ (∀ r ∈ rs, r.success = true ∧ r.err = none) ∧
      g.Status = "finished" ∧ g.Winner = 0 ∧
      g.Board 5 3 = 1 ∧ g.Board 4 3 = 1 ∧ g.Board 3 3 = 1 ∧ g.Board 2 3 = 1 := by
  have hsame : demoFresh.sameEngine g0 := by
    refine ⟨?_, ?_, ?_, ?_⟩
    · rw [hb]; rfl
    · rw [hp]; rfl
    · rw [hs]; rfl
    · intro hne
      exact absurd rfl hne
  obtain ⟨a, a1, rs, e, e1, hb1, _, hs1, hw1⟩ :=
    playResults_sameEngine
      [(3, 0), (((c1 : Nat) : Int), 0), (3, 0), (((c2 : Nat) : Int), 0), (3, 0),
        (((c3 : Nat) : Int), 0), (3, 0)]
      [(3, t1), (((c1 : Nat) : Int), t2), (3, t3), (((c2 : Nat) : Int), t4), (3, t5),
        (((c3 : Nat) : Int), t6), (3, t7)] demoFresh g0 rfl hsame
  have hdemo := scenario_demo c1 c2 c3 h1 h2 h3
  rw [e] at hdemo
  simp only [Except.map, Except.ok.injEq, Bool.and_eq_true, decide_eq_true_eq] at hdemo
  obtain ⟨⟨⟨⟨⟨⟨⟨hall, hlen⟩, hst⟩, hwin⟩, c5⟩, c4⟩, c3'⟩, c2'⟩ := hdemo
  have hfin : a.Status ≠ "playing" := by
    rw [hst]
    exact fun e => status_playing_ne_finished e.symm
  refine ⟨a1, rs, e1, hlen, ?_, ?_, ?_, ?_, ?_, ?_, ?_⟩
  · intro r hr
    have := List.all_eq_true.mp hall r hr
    simpa using this
  · rw [← hs1]; exact hst
  · rw [← hw1 hfin]; exact hwin
  · rw [← hb1]; exact c5
  · rw [← hb1]; exact c4
  · rw [← hb1]; exact c3'
  · rw [← hb1]; exact c2'

/-- C11, instance: bob answers in the columns 0, 1 and 2. -/
theorem C11_four_in_column_three_witness :
    (demoFresh.Board = Grid.empty ∧ demoFresh.Status = "playing" ∧
      demoFresh.CurrentPlayer = 0 ∧ (0 : Fin 7) ≠ 3 ∧ (1 : Fin 7) ≠ 3 ∧ (2 : Fin 7) ≠ 3) ∧
    ∃ (g : Game) (rs : List MoveResult),
      demoFresh.playResults
          [(3, 1), ((((0 : Fin 7) : Nat) : Int), 2), (3, 3), ((((1 : Fin 7) : Nat) : Int), 4),
            (3, 5), ((((2 : Fin 7) : Nat) : Int), 6), (3, 7)] = .ok (g, rs) ∧
      rs.length = 7 ∧ (∀ r ∈ rs, r.success = true ∧ r.err = none) ∧
      g.Status = "finished" ∧ g.Winner = 0 ∧
      g.Board 5 3 = 1 ∧ g.Board 4 3 = 1 ∧ g.Board 3 3 = 1 ∧ g.Board 2 3 = 1 :=
  ⟨⟨by decide, by decide, by decide, by decide, by decide, by decide⟩,
    C11_four_in_column_three demoFresh (by decide) (by decide) (by decide) 0 1 2
      (by decide) (by decide) (by decide) 1 2 3 4 5 6 7⟩

/-! ## The automated opponent returns a legal column -/

theorem Bot.isValidMove_spec (g : Game) (col : Int) :
    Bot.isValidMove g col = .ok (decide (topEmpty g.Board col)) := by
  unfold Bot.isValidMove topEmpty
  by_cases hc : col < 0 ∨ col ≥ 7
  · have : ¬ (0 ≤ col ∧ col < 7) := by omega
    simp [hc, this]
  · have hr : 0 ≤ col ∧ col < 7 := by omega
    have hin : inGrid 0 col := by simp only [inGrid]; omega
    obtain ⟨v, hv⟩ : ∃ v, g.Board.get 0 col = .ok v := ⟨_, Grid.get_of_inGrid g.Board hin⟩
    simp only [hc, if_false, hv, ok_bind, hr, true_and]
    congr 1
    by_cases hz : v = 0
    · simp [hz]
    · have : ¬ ((Except.ok v : Run Int) = Except.ok 0) := by
        intro e
        injection e with e
        exact hz e
      simp [hz, this]

theorem topEmpty_fin (b : Grid) (col : Int) (h : topEmpty b col) :
    ∃ c : Fin 7, col = ((c : Nat) : Int) ∧ b 0 c = 0 := by
  obtain ⟨hr, hget⟩ := h
  rw [Grid.get_ok_iff] at hget
  obtain ⟨i, j, hi, hj, hv⟩ := hget
  have hi0 : i = 0 := by
    apply Fin.ext
    simp
    omega
  rw [hi0] at hv
  exact ⟨j, hj, hv⟩

theorem topEmpty_of_fin (b : Grid) (c : Fin 7) (h : b 0 c = 0) : topEmpty b ((c : Nat) : Int) := by
  have hc := c.isLt
  refine ⟨by omega, ?_⟩
  have := Grid.get_fin b 0 c
  simp only [Fin.val_zero, Nat.cast_zero] at this
  rw [this, h]

/-- A `forUpTo` loop ends without a fault when its body does so on the indices
from `lo` on; it keeps what the body keeps (`P`), and an early return carries
what the body's early return carries (`Q`). -/
theorem forUpTo_total {σ α : Type} (P : σ → Prop) (Q : α → Prop) (lo hi : Int)
    (body : Int → σ → Run (σ × Option α))
    (hbody : ∀ (i : Int) (s : σ), lo ≤ i → i < hi → P s →
      ∃ r, body i s = .ok r ∧ P r.1 ∧ ∀ a, r.2 = some a → Q a) :
    ∀ (fuel : Nat) (i : Int) (s : σ), lo ≤ i → hi - i ≤ fuel → P s →
      ∃ r, forUpTo hi body fuel i s = .ok r ∧ P r.1 ∧ ∀ a, r.2 = some a → Q a := by
  intro fuel
  induction fuel with
  | zero =>
    intro i s hlo hf hP
    have : ¬ i < hi := by simp at hf; omega
    exact ⟨(s, none), by simp [forUpTo, this], hP, fun a h => by cases h⟩
  | succ f ih =>
    intro i s hlo hf hP
    rw [forUpTo]
    by_cases hi1 : i < hi
    · obtain ⟨r, hr, hPr, hQ⟩ := hbody i s hlo hi1 hP
      simp only [hi1, if_true, hr, ok_bind]
      cases hr2 : r.2 with
      | some a => exact ⟨(r.1, some a), rfl, hPr, fun b hb => by
          injection hb with hb
          subst hb
          exact hQ a hr2⟩
      | none =>
        simp only []
        exact ih (i + 1) r.1 (by omega) (by push_cast at hf; omega) hPr
    · exact ⟨(s, none), by simp [hi1], hP, fun a h => by cases h⟩

theorem Bot.potentialLoop_total (g : Game) (player sr sc dr dc : Int) :
    ∀ (fuel : Nat) (i count : Int) (consecutive : Bool), 4 - i ≤ fuel →
      ∃ v, Bot.potentialLoop g player sr sc dr dc fuel i count consecutive = .ok v := by
  intro fuel
  induction fuel with
  | zero =>
    intro i count consecutive hf
    have : ¬ i < 4 := by simp at hf; omega
    exact ⟨count, by simp [Bot.potentialLoop, this]⟩
  | succ f ih =>
    intro i count consecutive hf
    rw [Bot.potentialLoop]
    by_cases hi : i < 4
    · simp only [hi, if_true]
      by_cases hout : sr + i * dr < 0 ∨ sr + i * dr ≥ 6 ∨ sc + i * dc < 0 ∨ sc + i * dc ≥ 7
      · exact ⟨count, by simp [hout]⟩
      · have hin : inGrid (sr + i * dr) (sc + i * dc) := by
          simp only [inGrid]; omega
        obtain ⟨v, hv⟩ : ∃ v, g.Board.get (sr + i * dr) (sc + i * dc) = .ok v :=
          ⟨_, Grid.get_of_inGrid g.Board hin⟩
        simp only [hout, if_false, hv, ok_bind]
        have hnext : 4 - (i + 1) ≤ (f : Int) := by push_cast at hf; omega
        split
        · exact ih _ _ _ hnext
        · split
          · exact ih _ _ _ hnext
          · exact ⟨count, rfl⟩
    · exact ⟨count, by simp [hi]⟩

theorem Bot.checkDirectionPotential_total (g : Game) (player sr sc dr dc : Int) :
    ∃ v, Bot.checkDirectionPotential g player sr sc dr dc = .ok v :=
  Bot.potentialLoop_total g player sr sc dr dc 4 0 0 true (by norm_num)

theorem Bot.potentialAt_total (g : Game) (player minSequence row col : Int)
    (hin : inGrid row col) : ∃ v, Bot.potentialAt g player minSequence row col = .ok v := by
  obtain ⟨x, hx⟩ : ∃ v, g.Board.get row col = .ok v := ⟨_, Grid.get_of_inGrid g.Board hin⟩
  obtain ⟨a, ha⟩ := Bot.checkDirectionPotential_total g player row col 0 1
  obtain ⟨b, hb⟩ := Bot.checkDirectionPotential_total g player row col 1 0
  obtain ⟨c, hc⟩ := Bot.checkDirectionPotential_total g player row col 1 1
  obtain ⟨d, hd⟩ := Bot.checkDirectionPotential_total g player row col 1 (-1)
  simp only [Bot.potentialAt, hx, ok_bind, ha, hb, hc, hd, pure_eq_ok]
  split
  · split
    · exact ⟨_, rfl⟩
    · split
      · exact ⟨_, rfl⟩
      · split
        · exact ⟨_, rfl⟩
        · split <;> exact ⟨_, rfl⟩
  · exact ⟨_, rfl⟩

theorem Bot.hasPotentialWin_total (g : Game) (player minSequence : Int) :
    ∃ v, Bot.hasPotentialWin g player minSequence = .ok v := by
  have hinner : ∀ (row : Int) (u : Unit), 0 ≤ row → row < 6 → True →
      ∃ r, forUpTo 7 (fun col (_ : Unit) => do
          let hit ← Bot.potentialAt g player minSequence row col
          .ok ((), hit)) 7 0 () = .ok r ∧ True ∧ ∀ a, r.2 = some a → True := by
    intro row u h0 h6 _
    have := forUpTo_total (fun _ : Unit => True) (fun _ : Bool => True) 0 7
      (fun col (_ : Unit) => do
          let hit ← Bot.potentialAt g player minSequence row col
          .ok ((), hit))
      (fun col s hlo hhi _ => by
        obtain ⟨v, hv⟩ := Bot.potentialAt_total g player minSequence row col
          (by simp only [inGrid]; omega)
        exact ⟨((), v), by simp [hv], trivial, fun _ _ => trivial⟩)
      7 0 () (le_refl 0) (by norm_num) trivial
    exact this
  obtain ⟨r, hr, _, _⟩ := forUpTo_total (fun _ : Unit => True) (fun _ : Bool => True) 0 6
    (fun row (_ : Unit) =>
      forUpTo 7 (fun col (_ : Unit) => do
        let hit ← Bot.potentialAt g player minSequence row col
        .ok ((), hit)) 7 0 ())
    (fun row s hlo hhi hP => hinner row s hlo hhi hP)
    6 0 () (le_refl 0) (by norm_num) trivial
  unfold Bot.hasPotentialWin
  simp only [hr, ok_bind]
  split <;> exact ⟨_, rfl⟩

/-- The downward search ends without a fault in a column of the grid, on -1 or
on a row of the grid whose cell in the column is empty. -/
theorem findRow_total (b : Grid) (col : Int) (hc : 0 ≤ col ∧ col < 7) :
    ∃ row, findRow b col 6 5 = .ok row ∧
      (row = -1 ∨ ((0 ≤ row ∧ row < 6) ∧ b.get row col = .ok 0)) := by
  rcases findRow_aux b col hc 6 5 (by omega) (by omega) (by simp) with
    ⟨e, _⟩ | ⟨row, h0, h5, e, hcell, _⟩
  · exact ⟨-1, e, Or.inl rfl⟩
  · exact ⟨row, e, Or.inr ⟨⟨h0, by omega⟩, hcell⟩⟩

theorem Grid.set_total (b : Grid) (r c v : Int) (h : inGrid r c) : ∃ b1, b.set r c v = .ok b1 := by
  unfold inGrid at h
  simp [Grid.set, h]

/-- A trial of `marker` in a column 0..6 ends without a fault, gives the game
back, and reports the column only when its top cell is empty. -/
theorem Bot.trialWin_total (marker col : Int) (g : Game) (hc : 0 ≤ col ∧ col < 7) :
    ∃ r, Bot.trialWin marker col g = .ok r ∧ r.1 = g ∧ ∀ a, r.2 = some a → topEmpty g.Board a := by
  have key : ∃ r, Bot.trialWin marker col g = .ok r ∧ ∀ a, r.2 = some a → topEmpty g.Board a := by
    unfold Bot.trialWin
    rw [Bot.isValidMove_spec]
    simp only [ok_bind, decide_eq_true_eq]
    by_cases hv : topEmpty g.Board col
    · simp only [hv, if_true]
      obtain ⟨row, hrow, hcase⟩ := findRow_total g.Board col hc
      simp only [Bot.getNextAvailableRow, hrow, ok_bind]
      by_cases hne : row = -1
      · simp only [hne, ne_eq, not_true_eq_false, if_false]
        exact ⟨_, rfl, fun a h => by cases h⟩
      · simp only [ne_eq, hne, not_false_eq_true, if_true]
        rcases hcase with h1 | ⟨hr, hcell⟩
        · exact absurd h1 hne
        · have hin : inGrid row col := by simp only [inGrid]; omega
          obtain ⟨b1, hb1⟩ := Grid.set_total g.Board row col marker hin
          obtain ⟨win, hwin⟩ := CheckWin_total { g with Board := b1 } row col hin
          obtain ⟨b2, hb2⟩ := Grid.set_total b1 row col 0 hin
          simp only [hb1, ok_bind, hwin, hb2]
          cases win
          · exact ⟨_, rfl, fun a h => by cases h⟩
          · refine ⟨_, rfl, fun a h => ?_⟩
            simp only [if_true] at h
            injection h with h
            subst h
            exact hv
    · simp only [hv, if_false]
      exact ⟨_, rfl, fun a h => by cases h⟩
  obtain ⟨r, hr, hq⟩ := key
  exact ⟨r, hr, Bot.trialWin_restores marker col g r hr, hq⟩

/-- A trial of the "create opportunities" loops in a column 0..6 ends without
a fault, gives the game back and collects the column only when its top cell
is empty. -/
theorem Bot.trialPotential_total (marker minSequence col : Int) (s : Game × List Int)
    (hc : 0 ≤ col ∧ col < 7) (hs : ∀ c ∈ s.2, topEmpty s.1.Board c) :
    ∃ r, Bot.trialPotential marker minSequence col s = .ok r ∧ r.1.1 = s.1 ∧
      (∀ c ∈ r.1.2, topEmpty s.1.Board c) ∧ r.2 = none := by
  have key : ∃ r, Bot.trialPotential marker minSequence col s = .ok r ∧
      (∀ c ∈ r.1.2, topEmpty s.1.Board c) ∧ r.2 = none := by
    unfold Bot.trialPotential
    dsimp only
    rw [Bot.isValidMove_spec]
    simp only [ok_bind, decide_eq_true_eq]
    by_cases hv : topEmpty s.1.Board col
    · simp only [hv, if_true]
      obtain ⟨row, hrow, hcase⟩ := findRow_total s.1.Board col hc
      simp only [Bot.getNextAvailableRow, hrow, ok_bind]
      by_cases hne : row = -1
      · simp only [hne, ne_eq, not_true_eq_false, if_false]
        exact ⟨_, rfl, hs, rfl⟩
      · simp only [ne_eq, hne, not_false_eq_true, if_true]
        rcases hcase with h1 | ⟨hr, hcell⟩
        · exact absurd h1 hne
        · have hin : inGrid row col := by simp only [inGrid]; omega
          obtain ⟨b1, hb1⟩ := Grid.set_total s.1.Board row col marker hin
          obtain ⟨hit, hhit⟩ := Bot.hasPotentialWin_total { s.1 with Board := b1 } marker
            minSequence
          obtain ⟨b2, hb2⟩ := Grid.set_total b1 row col 0 hin
          simp only [hb1, ok_bind, hhit, hb2]
          refine ⟨_, rfl, ?_, rfl⟩
          intro c hcmem
          cases hit
          · exact hs c (by simpa using hcmem)
          · simp only [if_true, List.mem_append, List.mem_singleton] at hcmem
            rcases hcmem with h1 | h1
            · exact hs c h1
            · rw [h1]; exact hv
    · simp only [hv, if_false]
      exact ⟨_, rfl, hs, rfl⟩
  obtain ⟨r, hr, hq, hn⟩ := key
  exact ⟨r, hr, Bot.trialPotential_restores marker minSequence col s r hr, hq, hn⟩

theorem Bot.collectValid_total (col : Int) (s : Game × List Int)
    (hs : ∀ c ∈ s.2, topEmpty s.1.Board c) :
    ∃ r, Bot.collectValid col s = .ok r ∧ r.1.1 = s.1 ∧
      (∀ c ∈ r.1.2, topEmpty s.1.Board c) ∧ r.2 = none := by
  unfold Bot.collectValid
  rw [Bot.isValidMove_spec]
  simp only [ok_bind, decide_eq_true_eq]
  by_cases hv : topEmpty s.1.Board col
  · simp only [hv, if_true]
    refine ⟨_, rfl, rfl, ?_, rfl⟩
    intro c hcmem
    simp only [List.mem_append, List.mem_singleton] at hcmem
    rcases hcmem with h1 | h1
    · exact hs c h1
    · rw [h1]; exact hv
  · simp only [hv, if_false]
    exact ⟨_, rfl, rfl, hs, rfl⟩

theorem Bot.firstValid_total (g : Game) (cols : List Int) :
    ∃ r, Bot.firstValid g cols = .ok r ∧
      (∀ a, r = some a → topEmpty g.Board a) ∧
      (r = none → ∀ c ∈ cols, ¬ topEmpty g.Board c) := by
  induction cols with
  | nil => exact ⟨none, rfl, (fun a h => by cases h), (fun _ c hc => by cases hc)⟩
  | cons col rest ih =>
    rw [Bot.firstValid, Bot.isValidMove_spec]
    simp only [ok_bind, decide_eq_true_eq]
    by_cases hv : topEmpty g.Board col
    · simp only [hv, if_true]
      refine ⟨some col, rfl, ?_, fun h => by cases h⟩
      intro a h
      injection h with h
      subst h
      exact hv
    · simp only [hv, if_false]
      obtain ⟨r, hr, hsome, hnone⟩ := ih
      refine ⟨r, hr, hsome, ?_⟩
      intro hrn c hc
      rcases List.mem_cons.mp hc with h1 | h1
      · rw [h1]; exact hv
      · exact hnone hrn c h1

theorem Bot.pick_total (moves : List Int) (seed : Nat) (h : moves.length > 0) :
    ∃ c, Bot.pick moves seed = .ok c ∧ c ∈ moves := by
  have hlt : seed % moves.length < moves.length := Nat.mod_lt _ h
  have hidx : (Intn seed moves.length).toNat = seed % moves.length := by
    unfold Intn
    generalize seed % moves.length = k
    omega
  unfold Bot.pick
  rw [hidx, List.getElem?_eq_getElem hlt]
  exact ⟨_, rfl, List.getElem_mem _⟩

/-- `CalculateMove` ends without a fault for every game and every outcome of
`rand.Intn`; it gives the game back unchanged and returns a column 0..6 whose
top cell is empty, or -1 when no top cell is empty. -/
theorem Bot.CalculateMove_spec (g : Game) (seed : Nat) :
    ∃ col, Bot.CalculateMove g seed = .ok (g, col) ∧
      (topEmpty g.Board col ∨ (col = -1 ∧ ∀ c : Fin 7, g.Board 0 c ≠ 0)) := by
  have hwinBody : ∀ (marker : Int) (i : Int) (s : Game), (0 : Int) ≤ i → i < 7 → s = g →
      ∃ r, Bot.trialWin marker i s = .ok r ∧ r.1 = g ∧ ∀ a, r.2 = some a → topEmpty g.Board a := by
    intro marker i s h0 h7 hs
    subst hs
    exact Bot.trialWin_total marker i s ⟨h0, h7⟩
  have hpotBody : ∀ (minSequence : Int) (i : Int) (s : Game × List Int), (0 : Int) ≤ i → i < 7 →
      (s.1 = g ∧ ∀ c ∈ s.2, topEmpty g.Board c) →
      ∃ r, Bot.trialPotential 2 minSequence i s = .ok r ∧
        (r.1.1 = g ∧ ∀ c ∈ r.1.2, topEmpty g.Board c) ∧ ∀ a, r.2 = some a → True := by
    intro minSequence i s h0 h7 hs
    obtain ⟨hs1, hs2⟩ := hs
    rw [← hs1] at hs2
    obtain ⟨r, hr, hr1, hr2, _⟩ := Bot.trialPotential_total 2 minSequence i s ⟨h0, h7⟩ hs2
    refine ⟨r, hr, ⟨hr1.trans hs1, ?_⟩, fun _ _ => trivial⟩
    rw [← hs1]
    exact hr2
  have hcolBody : ∀ (i : Int) (s : Game × List Int), (0 : Int) ≤ i → i < 7 →
      (s.1 = g ∧ ∀ c ∈ s.2, topEmpty g.Board c) →
      ∃ r, Bot.collectValid i s = .ok r ∧
        (r.1.1 = g ∧ ∀ c ∈ r.1.2, topEmpty g.Board c) ∧ ∀ a, r.2 = some a → True := by
    intro i s h0 h7 hs
    obtain ⟨hs1, hs2⟩ := hs
    rw [← hs1] at hs2
    obtain ⟨r, hr, hr1, hr2, _⟩ := Bot.collectValid_total i s hs2
    refine ⟨r, hr, ⟨hr1.trans hs1, ?_⟩, fun _ _ => trivial⟩
    rw [← hs1]
    exact hr2
  obtain ⟨w, hw, hw1, hwq⟩ := forUpTo_total (fun s : Game => s = g)
    (fun a : Int => topEmpty g.Board a) 0 7 (Bot.trialWin 2) (hwinBody 2) 7 0 g
    (le_refl 0) (by norm_num) rfl
  obtain ⟨k, hk, hk1, hkq⟩ := forUpTo_total (fun s : Game => s = g)
    (fun a : Int => topEmpty g.Board a) 0 7 (Bot.trialWin 1) (hwinBody 1) 7 0 w.1
    (le_refl 0) (by norm_num) hw1
  obtain ⟨p, hp, ⟨hp1, hp2⟩, _⟩ := forUpTo_total
    (fun s : Game × List Int => s.1 = g ∧ ∀ c ∈ s.2, topEmpty g.Board c)
    (fun _ : Unit => True) 0 7 (Bot.trialPotential 2 3) (hpotBody 3) 7 0 (k.1, [])
    (le_refl 0) (by norm_num) ⟨hk1, fun c hc => by cases hc⟩
  obtain ⟨q, hq, ⟨hq1, hq2⟩, _⟩ := forUpTo_total
    (fun s : Game × List Int => s.1 = g ∧ ∀ c ∈ s.2, topEmpty g.Board c)
    (fun _ : Unit => True) 0 7 (Bot.trialPotential 2 2) (hpotBody 2) 7 0 (p.1.1, [])
    (le_refl 0) (by norm_num) ⟨hp1, fun c hc => by cases hc⟩
  obtain ⟨pref, hpref, hprefSome, hprefNone⟩ := Bot.firstValid_total q.1.1 [3, 2, 4, 1, 5, 0, 6]
  rw [hq1] at hprefSome hprefNone
  obtain ⟨v, hv, ⟨_, hv2⟩, _⟩ := forUpTo_total
    (fun s : Game × List Int => s.1 = g ∧ ∀ c ∈ s.2, topEmpty g.Board c)
    (fun _ : Unit => True) 0 7 Bot.collectValid hcolBody 7 0 (q.1.1, [])
    (le_refl 0) (by norm_num) ⟨hq1, fun c hc => by cases hc⟩
  unfold Bot.CalculateMove
  simp only [hw, ok_bind, pure_eq_ok]
  split
  · rename_i col hcol
    exact ⟨col, by rw [hw1], Or.inl (hwq col hcol)⟩
  · simp only [hk, ok_bind]
    split
    · rename_i col hcol
      exact ⟨col, by rw [hk1], Or.inl (hkq col hcol)⟩
    · simp only [hp, ok_bind]
      split
      · rename_i hlen
        obtain ⟨c, hc, hmem⟩ := Bot.pick_total p.1.2 seed hlen
        exact ⟨c, by simp only [hc, ok_bind, hp1], Or.inl (hp2 c hmem)⟩
      · simp only [hq, ok_bind]
        split
        · rename_i hlen
          obtain ⟨c, hc, hmem⟩ := Bot.pick_total q.1.2 seed hlen
          exact ⟨c, by simp only [hc, ok_bind, hq1], Or.inl (hq2 c hmem)⟩
        · cases pref with
          | some col =>
            simp only [hpref, ok_bind]
            exact ⟨col, by rw [hq1], Or.inl (hprefSome col rfl)⟩
          | none =>
            have hno : ∀ c : Fin 7, g.Board 0 c ≠ 0 := by
              intro c hz
              have hc := c.isLt
              have hmem : ((c : Nat) : Int) ∈ ([3, 2, 4, 1, 5, 0, 6] : List Int) := by
                simp only [List.mem_cons, List.mem_singleton, List.not_mem_nil, or_false]
                omega
              exact hprefNone rfl _ hmem (topEmpty_of_fin g.Board c hz)
            simp only [hpref, ok_bind, hv]
            split
            · rename_i hlen
              obtain ⟨c, hc, hmem⟩ := Bot.pick_total v.1.2 seed hlen
              exact ⟨c, by simp only [hc, ok_bind, hq1], Or.inl (hv2 c hmem)⟩
            · exact ⟨-1, by rw [hq1], Or.inr ⟨rfl, hno⟩⟩

/-- C12: for every game and every outcome of the random choice,
`CalculateMove` returns, and what it returns is -1 or a column 0..6 whose top
cell `Board[0][c]` is empty; it returns -1 if and only if no column has an
empty top cell. -/
theorem C12_CalculateMove_returns_legal_column (g : Game) (seed : Nat) :
    ∃ (g1 : Game) (col : Int), Bot.CalculateMove g seed = .ok (g1, col) ∧
      (col = -1 ∨ ((0 ≤ col ∧ col < 7) ∧ g.Board.get 0 col = .ok 0)) ∧
      (col = -1 ↔ ∀ c : Fin 7, g.Board 0 c ≠ 0) := by
  obtain ⟨col, hcol, hcase⟩ := Bot.CalculateMove_spec g seed
  refine ⟨g, col, hcol, ?_, ?_⟩
  · rcases hcase with htop | ⟨hneg, _⟩
    · exact Or.inr htop
    · exact Or.inl hneg
  · rcases hcase with htop | ⟨hneg, hno⟩
    · constructor
      · intro hneg
        have := htop.1.1
        omega
      · intro hno
        obtain ⟨c, _, hz⟩ := topEmpty_fin g.Board col htop
        exact absurd hz (hno c)
    · exact ⟨fun _ => hno, fun _ => hneg⟩

/-- C13: for every game and every outcome of the random choice,
`CalculateMove` returns and the game after the call is the game before it, in
the board and in every other field; each trial of the move simulation gives
back the game it received, its trial disc being reset to 0. -/
theorem C13_CalculateMove_leaves_game_unchanged (g : Game) (seed : Nat) :
    (∃ col : Int, Bot.CalculateMove g seed = .ok (g, col)) ∧
    (∀ (marker col : Int) (r : Game × Option Int),
      Bot.trialWin marker col g = .ok r → r.1 = g) ∧
    (∀ (marker minSequence col : Int) (moves : List Int) (r : (Game × List Int) × Option Unit),
      Bot.trialPotential marker minSequence col (g, moves) = .ok r → r.1.1 = g) := by
  obtain ⟨col, hcol, _⟩ := Bot.CalculateMove_spec g seed
  exact ⟨⟨col, hcol⟩, fun marker c r h => Bot.trialWin_restores marker c g r h,
    fun marker m c moves r h => Bot.trialPotential_restores marker m c (g, moves) r h⟩

/-! ## `CheckWin` and the four lines through a cell -/

/-- C21: for every board and every cell `(row, col)` of the 6x7 grid,
`CheckWin(row, col)` returns; it returns false when the cell is empty, and when
the cell holds a marker `p` it returns true if and only if one of the four
lines through the cell (its row, its column, its down-right diagonal, its
down-left diagonal) holds a window of 4 contiguous cells that all equal `p`. -/
theorem C21_CheckWin_scans_four_lines (g : Game) (row col : Int) (h : inGrid row col) :
    ∃ (p : Int) (v : Bool), g.Board.get row col = .ok p ∧ g.CheckWin row col = .ok v ∧
      (p = 0 → v = false) ∧
      (p ≠ 0 → (v = true ↔ ∃ (wr wc : Int) (d : Int × Int), d ∈ windowDirs ∧
          onLine row col wr wc d.1 d.2 ∧ windowFilled g.Board p wr wc d.1 d.2)) := by
  have hp : g.Board.get row col = .ok _ := Grid.get_of_inGrid g.Board h
  obtain ⟨v, hv⟩ := CheckWin_total g row col h
  refine ⟨_, v, hp, hv, ?_, ?_⟩
  · intro hz
    cases v
    · rfl
    · obtain ⟨p1, hp1, hne, _⟩ := CheckWin_sound g row col hv
      rw [hp] at hp1
      injection hp1 with hp1
      exact absurd (hp1.symm.trans hz) hne
  · intro hne
    constructor
    · intro hv1
      subst hv1
      obtain ⟨p1, hp1, _, wr, wc, d, hd, hl, hw⟩ := CheckWin_sound g row col hv
      rw [hp] at hp1
      injection hp1 with hp1
      rw [← hp1] at hw
      exact ⟨wr, wc, d, hd, hl, hw⟩
    · rintro ⟨wr, wc, d, hd, hl, hw⟩
      have := CheckWin_complete g row col _ wr wc d hp hne hd hl hw
      rw [hv] at this
      injection this

/-- C21, instance: the bottom-left cell of a board whose bottom row holds
marker 2 in the columns 0..3. -/
theorem C21_CheckWin_scans_four_lines_witness :
    inGrid 5 0 ∧
    ∃ (p : Int) (v : Bool),
      ({ demoThreat with Board := demoThreat.Board.put 5 0 2 } : Game).Board.get 5 0 = .ok p ∧
      ({ demoThreat with Board := demoThreat.Board.put 5 0 2 } : Game).CheckWin 5 0 = .ok v ∧
      (p = 0 → v = false) ∧
      (p ≠ 0 → (v = true ↔ ∃ (wr wc : Int) (d : Int × Int), d ∈ windowDirs ∧
          onLine 5 0 wr wc d.1 d.2 ∧
          windowFilled ({ demoThreat with Board := demoThreat.Board.put 5 0 2 } : Game).Board
            p wr wc d.1 d.2)) :=
  ⟨by decide, C21_CheckWin_scans_four_lines _ 5 0 (by decide)⟩

/-! ## Discs rest on the bottom or on other discs -/

theorem noGap_empty : Grid.empty.noGap := by
  intro r r1 c h
  exact absurd rfl h

/-- Writing any value on the lowest empty cell of a column keeps the columns
free of gaps. -/
theorem put_noGap (b : Grid) (row : Fin 6) (c : Fin 7) (v : Int) (hg : b.noGap)
    (hz : b row c = 0) (hlow : ∀ r : Fin 6, row < r → b r c ≠ 0) : (b.put row c v).noGap := by
  intro r r1 c1 hocc hlt
  by_cases h1 : r1 = row ∧ c1 = c
  · obtain ⟨e1, e2⟩ := h1
    subst e1 e2
    have hr : ¬ (r = r1 ∧ c1 = c1) := by
      rintro ⟨e, _⟩
      rw [e] at hlt
      exact lt_irrefl _ hlt
    rw [Grid.put_other b r1 r c1 c1 v hr] at hocc
    exact absurd hz (hg r r1 c1 hocc hlt)
  · rw [Grid.put_other b row r1 c c1 v h1]
    by_cases h2 : r = row ∧ c1 = c
    · obtain ⟨e1, e2⟩ := h2
      subst e1 e2
      exact hlow r1 hlt
    · rw [Grid.put_other b row r c c1 v h2] at hocc
      exact hg r r1 c1 hocc hlt

/-- `MakeMove` keeps the columns free of gaps. -/
theorem MakeMove_noGap (g g1 : Game) (column : Int) (now : Nat) (res : MoveResult)
    (hg : g.Board.noGap) (he : g.MakeMove column now = .ok (g1, res)) : g1.Board.noGap := by
  by_cases hs : g.Status = "playing"
  · by_cases hc : column < 0 ∨ column ≥ 7
    · rw [MakeMove_invalid g column now hs hc] at he
      injection he with he
      injection he with e1 _
      rw [← e1]
      exact hg
    · obtain ⟨c, rfl⟩ := column_fin column hc
      rcases MakeMove_cases g c now hs with ⟨_, e⟩ | ⟨row, win, hz, hlow, _, e⟩
      · rw [e] at he
        injection he with he
        injection he with e1 _
        rw [← e1]
        exact hg
      · rw [e] at he
        injection he with he
        injection he with e1 _
        rw [← e1, settle_Board]
        exact put_noGap g.Board row c _ hg hz hlow
  · rw [MakeMove_not_playing g column now hs] at he
    injection he with he
    injection he with e1 _
    rw [← e1]
    exact hg

/-- A run of `MakeMove` calls keeps the columns free of gaps. -/
theorem playMoves_noGap (moves : List (Int × Nat)) :
    ∀ g g1 : Game, g.Board.noGap → g.playMoves moves = .ok g1 → g1.Board.noGap := by
  induction moves with
  | nil =>
    intro g g1 hg h
    simp only [Game.playMoves] at h
    injection h with h
    rw [← h]
    exact hg
  | cons mv rest ih =>
    intro g g1 hg h
    simp only [Game.playMoves, bind_eq_ok] at h
    obtain ⟨moved, hm, hrest⟩ := h
    exact ih moved.1 g1 (MakeMove_noGap g moved.1 mv.1 mv.2 moved.2 hg hm) hrest

/-- Without gaps, a column has an empty cell only if its top cell is empty. -/
theorem noGap_top (b : Grid) (hg : b.noGap) (c : Fin 7) (r : Fin 6) (hz : b r c = 0) :
    b 0 c = 0 := by
  by_contra htop
  by_cases hr : r = 0
  · rw [hr] at hz
    exact htop hz
  · have hlt : (0 : Fin 6) < r := by
      rw [Fin.lt_def]
      have : r.val ≠ 0 := fun e => hr (Fin.ext e)
      simp
      omega
    exact hg 0 r c htop hlt hz

/-- C23: in every board reached from the empty board by `MakeMove` calls no
empty cell lies below an occupied cell of its column; so `IsBoardFull` returns
true exactly when all 42 cells are occupied, and for every column 0..6 the top
cell is empty (what `isValidMove` tests) exactly when the row search of
`MakeMove` finds a row in the column, that is, exactly when `MakeMove`, called
on a playing game that holds the board, accepts the column. -/
theorem C23_no_gap_below_disc (g0 g : Game) (moves : List (Int × Nat))
    (hb : g0.Board = Grid.empty) (hrun : g0.playMoves moves = .ok g) :
    (∀ (r r1 : Fin 6) (c : Fin 7), g.Board r c ≠ 0 → r < r1 → g.Board r1 c ≠ 0) ∧
    (∃ full : Bool, g.IsBoardFull = .ok full ∧
      (full = true ↔ ∀ (r : Fin 6) (c : Fin 7), g.Board r c ≠ 0)) ∧
    (∀ c : Fin 7, ∃ row : Int, findRow g.Board ((c : Nat) : Int) 6 5 = .ok row ∧
      (g.Board 0 c = 0 ↔ row ≠ -1)) ∧
    (∀ (g2 : Game) (c : Fin 7) (now : Nat), g2.Board = g.Board → g2.Status = "playing" →
      ∃ (valid : Bool) (g3 : Game) (res : MoveResult),
        Bot.isValidMove g2 (c : Nat) = .ok valid ∧ g2.MakeMove (c : Nat) now = .ok (g3, res) ∧
        (valid = true ↔ g.Board 0 c = 0) ∧
        (g.Board 0 c = 0 ↔ res.success = true) ∧ (g.Board 0 c = 0 ↔ res.err = none)) := by
  have hg : g.Board.noGap := playMoves_noGap moves g0 g (by rw [hb]; exact noGap_empty) hrun
  refine ⟨hg, ⟨_, IsBoardFull_spec g, ?_⟩, ?_, ?_⟩
  · rw [decide_eq_true_eq]
    constructor
    · intro htop r c hz
      exact htop c (noGap_top g.Board hg c r hz)
    · intro hall c
      exact hall 0 c
  · intro c
    rcases findRow_spec g.Board c with ⟨e, hfull⟩ | ⟨row, e, hz, _⟩
    · exact ⟨-1, e, by simp [hfull 0]⟩
    · have hne : ((row : Nat) : Int) ≠ -1 := by omega
      exact ⟨_, e, by simp [noGap_top g.Board hg c row hz, hne]⟩
  · intro g2 c now hboard hs
    have hvalid : Bot.isValidMove g2 (c : Nat) = .ok (decide (g.Board 0 c = 0)) := by
      rw [Bot.isValidMove_spec, hboard]
      congr 1
      by_cases hz : g.Board 0 c = 0
      · simp [hz, topEmpty_of_fin g.Board c hz]
      · have : ¬ topEmpty g.Board ((c : Nat) : Int) := by
          intro ht
          obtain ⟨c1, hc1, hz1⟩ := topEmpty_fin g.Board _ ht
          have : c = c1 := Fin.ext (by exact_mod_cast hc1)
          rw [← this] at hz1
          exact hz hz1
        simp [hz, this]
    rcases MakeMove_cases g2 c now hs with ⟨hfull, e⟩ | ⟨row, win, hz, _, _, e⟩
    · rw [hboard] at hfull
      refine ⟨_, _, _, hvalid, e, by simp, ?_, ?_⟩
      · simp [hfull 0]
      · simp [hfull 0]
    · rw [hboard] at hz
      have htop := noGap_top g.Board hg c row hz
      refine ⟨_, _, _, hvalid, e, by simp, ?_, ?_⟩
      · simp [htop]
      · simp [htop]

/-- C23, instance: the board after the moves 3, 3, 0 of a fresh session. -/
theorem C23_no_gap_below_disc_witness :
    demoFresh.Board = Grid.empty ∧
    ∃ g : Game, demoFresh.playMoves [(3, 1), (3, 2), (0, 3)] = .ok g ∧
      (∀ (r r1 : Fin 6) (c : Fin 7), g.Board r c ≠ 0 → r < r1 → g.Board r1 c ≠ 0) ∧
      (∃ full : Bool, g.IsBoardFull = .ok full ∧
        (full = true ↔ ∀ (r : Fin 6) (c : Fin 7), g.Board r c ≠ 0)) ∧
      (∀ c : Fin 7, ∃ row : Int, findRow g.Board ((c : Nat) : Int) 6 5 = .ok row ∧
        (g.Board 0 c = 0 ↔ row ≠ -1)) ∧
      (∀ (g2 : Game) (c : Fin 7) (now : Nat), g2.Board = g.Board → g2.Status = "playing" →
        ∃ (valid : Bool) (g3 : Game) (res : MoveResult),
          Bot.isValidMove g2 (c : Nat) = .ok valid ∧ g2.MakeMove (c : Nat) now = .ok (g3, res) ∧
          (valid = true ↔ g.Board 0 c = 0) ∧
          (g.Board 0 c = 0 ↔ res.success = true) ∧ (g.Board 0 c = 0 ↔ res.err = none)) := by
  refine ⟨by decide, ?_⟩
  have hok : (demoFresh.playMoves [(3, 1), (3, 2), (0, 3)]).isOk = true := by decide
  cases hrun : demoFresh.playMoves [(3, 1), (3, 2), (0, 3)] with
  | error e =>
    rw [hrun] at hok
    cases hok
  | ok g => exact ⟨g, rfl, C23_no_gap_below_disc demoFresh g _ (by decide) hrun⟩

/-! ## The automated opponent takes a win, else blocks one -/

/-- A `forUpTo` loop whose body gives the state back: it stops at the first
index whose body returns early, with that value, and runs to the end when no
body does. `R i o` is what is known of the answer `o` of the body at index `i`. -/
theorem forUpTo_first {σ α : Type} (R : Int → Option α → Prop) (lo hi : Int)
    (body : Int → σ → Run (σ × Option α)) (s : σ)
    (hbody : ∀ i : Int, lo ≤ i → i < hi → ∃ o, body i s = .ok (s, o) ∧ R i o) :
    ∀ (fuel : Nat) (i : Int), lo ≤ i → hi - i ≤ fuel →
      ∃ o, forUpTo hi body fuel i s = .ok (s, o) ∧
        ((∃ (j : Int) (a : α), o = some a ∧ i ≤ j ∧ j < hi ∧ R j (some a) ∧
            ∀ k : Int, i ≤ k → k < j → R k none) ∨
         (o = none ∧ ∀ k : Int, i ≤ k → k < hi → R k none)) := by
  intro fuel
  induction fuel with
  | zero =>
    intro i hlo hf
    have hn : ¬ i < hi := by simp at hf; omega
    exact ⟨none, by simp [forUpTo, hn], Or.inr ⟨rfl, fun k h1 h2 => by omega⟩⟩
  | succ f ih =>
    intro i hlo hf
    rw [forUpTo]
    by_cases hi1 : i < hi
    · obtain ⟨o, ho, hR⟩ := hbody i hlo hi1
      simp only [hi1, if_true, ho, ok_bind]
      cases o with
      | some a =>
        exact ⟨some a, rfl, Or.inl ⟨i, a, rfl, le_refl i, hi1, hR, fun k h1 h2 => by omega⟩⟩
      | none =>
        simp only []
        obtain ⟨o1, ho1, hcase⟩ := ih (i + 1) (by omega) (by push_cast at hf; omega)
        refine ⟨o1, ho1, ?_⟩
        have hstep : ∀ k : Int, i ≤ k → (i + 1 ≤ k → R k none) → R k none := by
          intro k h1 h2
          by_cases hk : k = i
          · rw [hk]
            exact hR
          · exact h2 (by omega)
        rcases hcase with ⟨j, a, e, h1, h2, h3, h4⟩ | ⟨e, h4⟩
        · exact Or.inl ⟨j, a, e, by omega, h2, h3, fun k k1 k2 => hstep k k1 (fun k3 => h4 k k3 k2)⟩
        · exact Or.inr ⟨e, fun k k1 k2 => hstep k k1 (fun k3 => h4 k k3 k2)⟩
    · exact ⟨none, by simp [hi1], Or.inr ⟨rfl, fun k h1 h2 => by omega⟩⟩

/-- Resetting the cell of a trial disc gives the grid back. -/
theorem Grid.put_reset (b : Grid) (r : Fin 6) (c : Fin 7) (v : Int) (hz : b r c = 0) :
    (b.put r c v).put r c 0 = b := by
  funext i j
  rw [Grid.put_apply]
  split
  · rename_i h
    rw [h.1, h.2, hz]
  · rename_i h
    exact Grid.put_other b r i c j v h

/-- A trial of the non-zero marker `m` in a column of the grid gives the game
back and reports the column exactly when dropping `m` there gives `m` a four
in a row. -/
theorem Bot.trialWin_spec (m : Int) (hm : m ≠ 0) (c : Fin 7) (g : Game) :
    ∃ o, Bot.trialWin m ((c : Nat) : Int) g = .ok (g, o) ∧
      ((o = some ((c : Nat) : Int) ∧ dropWins g.Board m c) ∨
       (o = none ∧ ¬ dropWins g.Board m c)) := by
  have hc := c.isLt
  unfold Bot.trialWin
  rw [Bot.isValidMove_spec]
  simp only [ok_bind, decide_eq_true_eq]
  by_cases hv : topEmpty g.Board ((c : Nat) : Int)
  · have htop : g.Board 0 c = 0 := by
      obtain ⟨c1, hc1, hz1⟩ := topEmpty_fin g.Board _ hv
      have : c = c1 := Fin.ext (by exact_mod_cast hc1)
      rw [this]
      exact hz1
    simp only [hv, if_true, Bot.getNextAvailableRow]
    rcases findRow_spec g.Board c with ⟨_, hfull⟩ | ⟨row, e, hz, hlow⟩
    · exact absurd htop (hfull 0)
    · have hr := row.isLt
      have hne : ¬ (((row : Nat) : Int) = -1) := by omega
      have hin : inGrid ((row : Nat) : Int) ((c : Nat) : Int) := by
        simp only [inGrid]; omega
      obtain ⟨win, hwin⟩ :=
        CheckWin_total { g with Board := g.Board.put row c m } _ _ hin
      have hback : ({ g with Board := g.Board } : Game) = g := rfl
      simp only [e, ok_bind, ne_eq, hne, not_false_eq_true, if_true, Grid.set_fin, hwin,
        Grid.put_reset g.Board row c m hz, hback]
      have hcell : (g.Board.put row c m).get ((row : Nat) : Int) ((c : Nat) : Int) = .ok m := by
        rw [Grid.get_fin, Grid.put_same]
      cases win
      · refine ⟨none, by simp, Or.inr ⟨rfl, ?_⟩⟩
        rintro ⟨_, r, ⟨hz1, hlow1⟩, wr, wc, d, hd, hl, hw⟩
        have hrow : r = row := by
          rcases lt_trichotomy r row with hlt | heq | hgt
          · exact absurd hz (hlow1 row hlt)
          · exact heq
          · exact absurd hz1 (hlow r hgt)
        subst hrow
        have := CheckWin_complete { g with Board := g.Board.put r c m } _ _ m wr wc d
          hcell hm hd hl hw
        rw [hwin] at this
        injection this with this
        cases this
      · refine ⟨some ((c : Nat) : Int), by simp, Or.inl ⟨rfl, htop, row, ⟨hz, hlow⟩, ?_⟩⟩
        obtain ⟨p, hp, _, wr, wc, d, hd, hl, hw⟩ :=
          CheckWin_sound { g with Board := g.Board.put row c m } _ _ hwin
        have hpm : p = m := by
          have hp1 : (g.Board.put row c m).get ((row : Nat) : Int) ((c : Nat) : Int) = .ok p := hp
          rw [hcell] at hp1
          injection hp1 with hp1
          exact hp1.symm
        subst hpm
        exact ⟨wr, wc, d, hd, hl, hw⟩
  · have hno : ¬ dropWins g.Board m c := by
      rintro ⟨htop, _⟩
      exact hv (topEmpty_of_fin g.Board c htop)
    simp only [hv, if_false]
    exact ⟨none, rfl, Or.inr ⟨rfl, hno⟩⟩

/-- The loop `for col := 0; col < 7; col++` over trials of the non-zero marker
`m` gives the game back and returns the lowest-numbered column in which a
dropped `m` gives a four in a row, or runs to its end when there is none. -/
theorem Bot.winLoop_spec (m : Int) (hm : m ≠ 0) (g : Game) :
    ∃ o, forUpTo 7 (Bot.trialWin m) 7 0 g = .ok (g, o) ∧
      ((∃ col : Int, o = some col ∧ lowestDropWin g.Board m col) ∨
       (o = none ∧ ∀ c : Fin 7, ¬ dropWins g.Board m c)) := by
  obtain ⟨o, ho, hcase⟩ := forUpTo_first
    (fun (i : Int) (o : Option Int) =>
      (o = some i ∧ ∃ c : Fin 7, i = ((c : Nat) : Int) ∧ dropWins g.Board m c) ∨
      (o = none ∧ ∀ c : Fin 7, i = ((c : Nat) : Int) → ¬ dropWins g.Board m c))
    0 7 (Bot.trialWin m) g
    (by
      intro i h0 h7
      obtain ⟨c, rfl⟩ := column_fin i (by omega)
      obtain ⟨o, ho, hcase⟩ := Bot.trialWin_spec m hm c g
      refine ⟨o, ho, ?_⟩
      rcases hcase with ⟨e, hd⟩ | ⟨e, hd⟩
      · exact Or.inl ⟨e, c, rfl, hd⟩
      · refine Or.inr ⟨e, fun c1 hc1 => ?_⟩
        have : c = c1 := Fin.ext (by exact_mod_cast hc1)
        rw [← this]
        exact hd)
    7 0 (le_refl 0) (by norm_num)
  refine ⟨o, ho, ?_⟩
  rcases hcase with ⟨j, a, e, _, _, hR, hbelow⟩ | ⟨e, hall⟩
  · rcases hR with ⟨ea, c, hjc, hd⟩ | ⟨ea, _⟩
    · injection ea with ea
      refine Or.inl ⟨a, e, c, by rw [ea]; exact hjc, hd, ?_⟩
      intro c1 hd1
      by_contra hlt
      have hlt1 : c1 < c := not_le.mp hlt
      have hk : ((c1 : Nat) : Int) < j := by
        rw [hjc]
        exact_mod_cast hlt1
      rcases hbelow ((c1 : Nat) : Int) (by omega) hk with ⟨ek, _⟩ | ⟨_, hnone⟩
      · cases ek
      · exact hnone c1 rfl hd1
    · cases ea
  · refine Or.inr ⟨e, fun c hd => ?_⟩
    have hc := c.isLt
    rcases hall ((c : Nat) : Int) (by omega) (by omega) with ⟨ek, _⟩ | ⟨_, hnone⟩
    · cases ek
    · exact hnone c rfl hd

/-- C22: for every board and every outcome of the random choices,
`CalculateMove` returns and leaves the game as it was; if dropping marker 2
(the bot) in some column with an empty top cell gives marker 2 a four in a
row, it returns the lowest-numbered such column; otherwise, if dropping marker
1 (the human) in some column with an empty top cell gives marker 1 a four in a
row, it returns the lowest-numbered such column. -/
theorem C22_CalculateMove_wins_else_blocks (g : Game) (seed : Nat) :
    ∃ col : Int, Bot.CalculateMove g seed = .ok (g, col) ∧
      ((∃ c : Fin 7, dropWins g.Board 2 c) → lowestDropWin g.Board 2 col) ∧
      ((∀ c : Fin 7, ¬ dropWins g.Board 2 c) → (∃ c : Fin 7, dropWins g.Board 1 c) →
        lowestDropWin g.Board 1 col) := by
  obtain ⟨w, hw, hwcase⟩ := Bot.winLoop_spec 2 (by norm_num) g
  rcases hwcase with ⟨col, e, hlow⟩ | ⟨e, hnone⟩
  · subst e
    refine ⟨col, ?_, fun _ => hlow, ?_⟩
    · unfold Bot.CalculateMove
      simp only [hw, ok_bind, pure_eq_ok]
    · intro hno
      obtain ⟨c, _, hd, _⟩ := hlow
      exact absurd hd (hno c)
  · subst e
    obtain ⟨k, hk, hkcase⟩ := Bot.winLoop_spec 1 (by norm_num) g
    rcases hkcase with ⟨col, e, hlow⟩ | ⟨e, hnone1⟩
    · subst e
      refine ⟨col, ?_, ?_, fun _ _ => hlow⟩
      · unfold Bot.CalculateMove
        simp only [hw, ok_bind, pure_eq_ok, hk]
      · rintro ⟨c, hd⟩
        exact absurd hd (hnone c)
    · obtain ⟨col, hcol, _⟩ := Bot.CalculateMove_spec g seed
      refine ⟨col, hcol, ?_, ?_⟩
      · rintro ⟨c, hd⟩
        exact absurd hd (hnone c)
      · rintro _ ⟨c, hd⟩
        exact absurd hd (hnone1 c)

/-- On a board that holds no window filled with `m`, a dropped `m` gives a
four in a row exactly when a filled window contains the new disc itself. -/
theorem dropWins_iff_through_disc (b : Grid) (m : Int) (c : Fin 7)
    (hno : bruteForceWin b m = false) :
    dropWins b m c ↔
      b 0 c = 0 ∧ ∃ r : Fin 6, (b r c = 0 ∧ ∀ r1 : Fin 6, r < r1 → b r1 c ≠ 0) ∧
        ∃ (wr wc : Int) (d : Int × Int), d ∈ windowDirs ∧
          (∃ j : Nat, j < 4 ∧ ((r : Nat) : Int) = wr + j * d.1 ∧
            ((c : Nat) : Int) = wc + j * d.2) ∧
          windowFilled (b.put r c m) m wr wc d.1 d.2 := by
  constructor
  · rintro ⟨htop, r, hland, wr, wc, d, hd, _, hw⟩
    refine ⟨htop, r, hland, wr, wc, d, hd, ?_, hw⟩
    rcases windowFilled_put b r c m m wr wc d.1 d.2 hw with hj | hold
    · exact hj
    · have := (bruteForceWin_iff b m).mpr ⟨wr, wc, d, hd, hold⟩
      rw [hno] at this
      cases this
  · rintro ⟨htop, r, hland, wr, wc, d, hd, ⟨j, _, hr, hc⟩, hw⟩
    exact ⟨htop, r, hland, wr, wc, d, hd, ⟨-(j : Int), by rw [hr]; ring, by rw [hc]; ring⟩, hw⟩

theorem demoThreat_bot_wins : dropWins demoThreat.Board 2 0 :=
  ⟨by decide, 5, ⟨by decide, by decide⟩, 5, 0, (0, 1), by simp [windowDirs],
    ⟨0, by decide, by decide⟩, by decide⟩

theorem demoBlock_human_wins : dropWins demoBlock.Board 1 3 :=
  ⟨by decide, 5, ⟨by decide, by decide⟩, 5, 0, (0, 1), by simp [windowDirs],
    ⟨-3, by decide, by decide⟩, by decide⟩

theorem demoBlock_no_bot_win : ∀ c : Fin 7, ¬ dropWins demoBlock.Board 2 c := by
  obtain ⟨o, ho, hcase⟩ := Bot.winLoop_spec 2 (by norm_num) demoBlock
  have hev : (forUpTo 7 (Bot.trialWin 2) 7 0 demoBlock).map Prod.snd = .ok none := by decide
  rw [ho] at hev
  rcases hcase with ⟨col, e, _⟩ | ⟨_, hno⟩
  · subst e
    cases hev
  · exact hno

/-- On the two demonstration boards the opponent returns column 0 (its own
win) and column 3 (the block). -/
theorem CalculateMove_demo :
    (Bot.CalculateMove demoThreat 0).map Prod.snd = .ok 0 ∧
    (Bot.CalculateMove demoBlock 0).map Prod.snd = .ok 3 := by decide

/-- C22, instances: on `demoThreat` marker 2 wins in column 0, which is
returned; on `demoBlock` marker 2 wins nowhere and marker 1 wins in column 3,
which is returned. -/
theorem C22_CalculateMove_wins_else_blocks_witness :
    ((∃ c : Fin 7, dropWins demoThreat.Board 2 c) ∧
      ∃ col : Int, Bot.CalculateMove demoThreat 0 = .ok (demoThreat, col) ∧
        lowestDropWin demoThreat.Board 2 col) ∧
    ((∀ c : Fin 7, ¬ dropWins demoBlock.Board 2 c) ∧ (∃ c : Fin 7, dropWins demoBlock.Board 1 c) ∧
      ∃ col : Int, Bot.CalculateMove demoBlock 0 = .ok (demoBlock, col) ∧
        lowestDropWin demoBlock.Board 1 col) := by
  obtain ⟨col, h, hwin, _⟩ := C22_CalculateMove_wins_else_blocks demoThreat 0
  obtain ⟨col1, h1, _, hblock⟩ := C22_CalculateMove_wins_else_blocks demoBlock 0
  exact ⟨⟨⟨0, demoThreat_bot_wins⟩, col, h, hwin ⟨0, demoThreat_bot_wins⟩⟩,
    demoBlock_no_bot_win, ⟨3, demoBlock_human_wins⟩, col1, h1,
    hblock demoBlock_no_bot_win ⟨3, demoBlock_human_wins⟩⟩

/-! ## Sessions of the hub stay playable and inside their bounds -/

theorem NewGame_live (id : String) (player1 : Player) (now : Nat) :
    (NewGame id player1 now).Live :=
  ⟨Or.inl rfl, fun _ => rfl, fun h => absurd h status_waiting_ne_playing⟩

/-- `MakeMove` keeps a session live: after a disc that neither wins nor fills
the top row, a top cell is still empty. -/
theorem MakeMove_live (g g1 : Game) (column : Int) (now : Nat) (res : MoveResult)
    (hl : g.Live) (he : g.MakeMove column now = .ok (g1, res)) : g1.Live := by
  by_cases hs : g.Status = "playing"
  · by_cases hc : column < 0 ∨ column ≥ 7
    · rw [MakeMove_invalid g column now hs hc] at he
      injection he with he
      injection he with e1 _
      rw [← e1]
      exact hl
    · obtain ⟨c, rfl⟩ := column_fin column hc
      rcases MakeMove_cases g c now hs with ⟨_, e⟩ | ⟨row, win, _, _, _, e⟩
      · rw [e] at he
        injection he with he
        injection he with e1 _
        rw [← e1]
        exact hl
      · rw [e] at he
        injection he with he
        injection he with e1 _
        rw [← e1]
        obtain ⟨hp, _, _⟩ := hl
        cases win
        · by_cases hfull : ∀ k : Fin 7, (g.placed row c now).Board 0 k ≠ 0
          · rw [decide_eq_true hfull]
            refine ⟨hp, fun h => ?_, fun h => ?_⟩
            · exact absurd h.symm status_waiting_ne_finished
            · exact absurd h.symm status_playing_ne_finished
          · rw [decide_eq_false hfull]
            refine ⟨?_, fun h => ?_, fun _ => ?_⟩
            · show wrap64 (1 - g.CurrentPlayer) = 0 ∨ wrap64 (1 - g.CurrentPlayer) = 1
              rw [wrap64_other_player g.CurrentPlayer hp]
              rcases hp with h0 | h1 <;> omega
            · have h1 : g.Status = "waiting" := h
              rw [hs] at h1
              exact absurd h1.symm status_waiting_ne_playing
            · push_neg at hfull
              exact hfull
        · refine ⟨hp, fun h => ?_, fun h => ?_⟩
          · exact absurd h.symm status_waiting_ne_finished
          · exact absurd h.symm status_playing_ne_finished
  · rw [MakeMove_not_playing g column now hs] at he
    injection he with he
    injection he with e1 _
    rw [← e1]
    exact hl

/-- Each hub operation keeps a session live. -/
theorem sessionStep_live (g g1 : Game) (hl : g.Live) (hstep : g.sessionStep g1) : g1.Live := by
  rcases hstep with rfl | ⟨hw, hadd⟩ | ⟨_, column, now, res, he⟩
  · exact hl
  · have hb : g.Board = Grid.empty := hl.2.1 hw
    rcases hadd with ⟨p, seed, rfl⟩ | ⟨seed, rfl⟩
    · exact ⟨Intn_two seed, fun h => hb, fun _ => ⟨0, by show g.Board 0 0 = 0; rw [hb]; rfl⟩⟩
    · exact ⟨Intn_two seed, fun h => hb, fun _ => ⟨0, by show g.Board 0 0 = 0; rw [hb]; rfl⟩⟩
  · exact MakeMove_live g g1 column now res hl he

/-- A property of sessions that every hub operation keeps holds along a run
of hub operations; the session stays in the hub. -/
theorem run_session_invariant (P : Game → Prop)
    (hP : ∀ g g1 : Game, P g → g.sessionStep g1 → P g1) (id : String) (ops : List HubOp) :
    ∀ (h h2 : Hub) (g : Game), Hub.run h ops = .ok h2 → h.Games id = some g → P g →
      ∃ g2, h2.Games id = some g2 ∧ P g2 := by
  induction ops with
  | nil =>
    intro h h2 g hrun hg hp
    simp only [Hub.run] at hrun
    injection hrun with hrun
    subst hrun
    exact ⟨g, hg, hp⟩
  | cons op rest ih =>
    intro h h2 g hrun hg hp
    simp only [Hub.run, bind_eq_ok] at hrun
    obtain ⟨h1, hstep, hrest⟩ := hrun
    obtain ⟨g1, hg1, hss⟩ := Hub.step_session h h1 op hstep id g hg
    exact ih h1 h2 g1 hrest hg1 (hP g g1 hp hss)

/-- In a live playing session the opponent finds a column with an empty top
cell, and `MakeMove` on that column places a disc and leaves the session live. -/
theorem live_bot_move (g : Game) (hl : g.Live) (hs : g.Status = "playing") (seed now : Nat) :
    ∃ (c : Fin 7) (g1 : Game) (row : Fin 6),
      Bot.CalculateMove g seed = .ok (g, ((c : Nat) : Int)) ∧ g.Board 0 c = 0 ∧
      g.MakeMove ((c : Nat) : Int) now = .ok (g1, ⟨true, ((row : Nat) : Int), none⟩) ∧
      g1.Live := by
  obtain ⟨col, hcol, hcase⟩ := Bot.CalculateMove_spec g seed
  obtain ⟨k, hk⟩ := hl.2.2 hs
  rcases hcase with htop | ⟨_, hfull⟩
  · obtain ⟨c, rfl, hz⟩ := topEmpty_fin g.Board col htop
    rcases MakeMove_cases g c now hs with ⟨hcolfull, _⟩ | ⟨row, win, _, _, _, e⟩
    · exact absurd hz (hcolfull 0)
    · exact ⟨c, _, row, hcol, hz, e, MakeMove_live g _ _ now _ hl e⟩
  · exact absurd hk (hfull k)

/-- The hub's `makeBotMove` on a playing session for which the opponent
returns a column other than -1 that `MakeMove` accepts: the session is stored
after that move when the automated participant is to move, and nothing
happens otherwise, whatever the fuel of the fallback loop. -/
theorem Hub.makeBotMove_advances (h : Hub) (id : String) (g g1 : Game) (col row : Int)
    (p : Player) (seed now fuel : Nat)
    (hg : h.Games id = some g) (hs : g.Status = "playing") (hp : g.GetCurrentPlayer = .ok p)
    (hcm : Bot.CalculateMove g seed = .ok (g, col)) (hcol : col ≠ -1)
    (hmv : g.MakeMove col now = .ok (g1, ⟨true, row, none⟩))
    (hl1 : g1.CurrentPlayer = 0 ∨ g1.CurrentPlayer = 1) :
    (p.IsBot = true →
      ∃ again : Bool, h.makeBotMove id seed now fuel = .ok (h.setGame id g1, again)) ∧
    (p.IsBot = false → h.makeBotMove id seed now fuel = .ok (h, false)) := by
  obtain ⟨again, hagain⟩ := botToMove_ok g1 hl1
  constructor
  · intro hbot
    refine ⟨again, ?_⟩
    simp [Hub.makeBotMove, hg, hs, hp, hbot, hcm, hcol, hmv, hagain]
  · intro hbot
    simp [Hub.makeBotMove, hg, hs, hp, hbot]

/-- C24: in every session state reached from `NewGame` through hub operations
with status "playing", some column has an empty top cell; so for every outcome
of the random choices `CalculateMove` returns a column other than -1 and
leaves the session as it was, `MakeMove` on that column succeeds, and
`makeBotMove`, when the automated participant is to move, stores the session
after that move for every fuel of the fallback loop, fuel 0 included: the
fallback loop is not entered. -/
theorem C24_playing_session_has_open_column (h0 h : Hub) (id gid : String) (player1 : Player)
    (t0 : Nat) (ops : List HubOp)
    (hinit : h0.Games id = some (NewGame gid player1 t0)) (hrun : Hub.run h0 ops = .ok h) :
    ∃ g, h.Games id = some g ∧ (g.Status = "playing" →
      (∃ c : Fin 7, g.Board 0 c = 0) ∧
      ∀ seed now : Nat, ∃ (col : Int) (g1 : Game) (row : Int) (p : Player),
        Bot.CalculateMove g seed = .ok (g, col) ∧ col ≠ -1 ∧ topEmpty g.Board col ∧
        g.MakeMove col now = .ok (g1, ⟨true, row, none⟩) ∧
        g.GetCurrentPlayer = .ok p ∧
        ∀ fuel : Nat,
          (p.IsBot = true →
            ∃ again : Bool, h.makeBotMove id seed now fuel = .ok (h.setGame id g1, again)) ∧
          (p.IsBot = false → h.makeBotMove id seed now fuel = .ok (h, false))) := by
  obtain ⟨g, hg, hl⟩ := run_session_invariant Game.Live sessionStep_live id ops h0 h _ hrun hinit
    (NewGame_live gid player1 t0)
  refine ⟨g, hg, fun hs => ⟨hl.2.2 hs, fun seed now => ?_⟩⟩
  obtain ⟨c, g1, row, hcm, hz, hmv, hl1⟩ := live_bot_move g hl hs seed now
  have hc : ((c : Nat) : Int) ≠ -1 := by omega
  have hcur : 0 ≤ g.CurrentPlayer ∧ g.CurrentPlayer < 2 := by
    rcases hl.1 with h0 | h1 <;> omega
  have hp : g.GetCurrentPlayer = .ok (g.Players ⟨g.CurrentPlayer.toNat, by omega⟩) := by
    simp [Game.GetCurrentPlayer, hcur]
  exact ⟨_, g1, _, _, hcm, hc, topEmpty_of_fin g.Board c hz, hmv, hp, fun fuel =>
    Hub.makeBotMove_advances h id g g1 _ _ _ seed now fuel hg hs hp hcm hc hmv hl1.1⟩

theorem GetCurrentPlayer_ok (g : Game) (hp : g.CurrentPlayer = 0 ∨ g.CurrentPlayer = 1) :
    ∃ p, g.GetCurrentPlayer = .ok p := by
  have : 0 ≤ g.CurrentPlayer ∧ g.CurrentPlayer < 2 := by omega
  exact ⟨g.Players ⟨g.CurrentPlayer.toNat, by omega⟩, by simp [Game.GetCurrentPlayer, this]⟩

/-- `Hub.MakeMove` on a live session returns without a fault. -/
theorem hubMakeMove_total (h : Hub) (id playerID : String) (column : Int) (now : Nat)
    (g : Game) (hg : h.Games id = some g) (hl : g.Live) :
    ∃ r, h.MakeMove id playerID column now = .ok r := by
  obtain ⟨p, hp⟩ := GetCurrentPlayer_ok g hl.1
  obtain ⟨g1, res, hmv⟩ := MakeMove_total g column now
  obtain ⟨p1, hp1⟩ := GetCurrentPlayer_ok g1 (MakeMove_live g g1 column now res hl hmv).1
  simp only [Hub.MakeMove, hg, hp, ok_bind, hmv, hp1]
  repeat' split
  all_goals exact ⟨_, rfl⟩

/-- C25: in every session state reached from `NewGame` through hub operations
the turn index is 0 or 1; `GetCurrentPlayer` returns; `MakeMove` returns for
every integer column (its calls of `CheckWin` and `IsBoardFull` included);
`CheckWin` returns at every cell of the grid, both diagonal walks ending on a
cell of the grid; and `Hub.MakeMove` on the session returns for every
participant id and integer column. None of them hits an index out of range. -/
theorem C25_no_index_out_of_range (h0 h : Hub) (id gid : String) (player1 : Player)
    (t0 : Nat) (ops : List HubOp)
    (hinit : h0.Games id = some (NewGame gid player1 t0)) (hrun : Hub.run h0 ops = .ok h) :
    ∃ g, h.Games id = some g ∧
      (g.CurrentPlayer = 0 ∨ g.CurrentPlayer = 1) ∧
      (∃ p, g.GetCurrentPlayer = .ok p) ∧
      (∀ (column : Int) (now : Nat), ∃ g1 res, g.MakeMove column now = .ok (g1, res)) ∧
      (∀ row col : Int, inGrid row col →
        (∃ s1 s2 : Int × Int, walkUpLeft 7 row col = .ok s1 ∧ inGrid s1.1 s1.2 ∧
          walkUpRight 7 row col = .ok s2 ∧ inGrid s2.1 s2.2) ∧
        ∃ v, g.CheckWin row col = .ok v) ∧
      (∀ (playerID : String) (column : Int) (now : Nat),
        ∃ r, h.MakeMove id playerID column now = .ok r) := by
  obtain ⟨g, hg, hl⟩ := run_session_invariant Game.Live sessionStep_live id ops h0 h _ hrun hinit
    (NewGame_live gid player1 t0)
  refine ⟨g, hg, hl.1, GetCurrentPlayer_ok g hl.1, fun column now => MakeMove_total g column now,
    fun row col hin => ⟨?_, CheckWin_total g row col hin⟩,
    fun playerID column now => hubMakeMove_total h id playerID column now g hg hl⟩
  have hin1 := hin
  simp only [inGrid] at hin1
  obtain ⟨m1, _, _, _, _, hw1⟩ := walkUpLeft_spec 7 row col hin1.1.1 hin1.2.1 (by simp; omega)
  obtain ⟨m2, _, _, _, _, hw2⟩ :=
    walkUpRight_spec 7 row col hin1.1.1 (by omega) (by simp; omega)
  refine ⟨_, _, hw1, ?_, hw2, ?_⟩ <;> simp only [inGrid] <;> omega

/-- C24, instance: the join timeout fills the waiting session of alice with
the automated participant, which is to move. -/
theorem C24_playing_session_has_open_column_witness :
    demoWaitingHub.Games "game_1" = some (NewGame "game_1" demoAlice 0) ∧
    ∃ h : Hub, Hub.run demoWaitingHub [.timeout "game_1" 1] = .ok h ∧
      ∃ g, h.Games "game_1" = some g ∧ (g.Status = "playing" →
        (∃ c : Fin 7, g.Board 0 c = 0) ∧
        ∀ seed now : Nat, ∃ (col : Int) (g1 : Game) (row : Int) (p : Player),
          Bot.CalculateMove g seed = .ok (g, col) ∧ col ≠ -1 ∧ topEmpty g.Board col ∧
          g.MakeMove col now = .ok (g1, ⟨true, row, none⟩) ∧
          g.GetCurrentPlayer = .ok p ∧
          ∀ fuel : Nat,
            (p.IsBot = true →
              ∃ again : Bool,
                h.makeBotMove "game_1" seed now fuel = .ok (h.setGame "game_1" g1, again)) ∧
            (p.IsBot = false → h.makeBotMove "game_1" seed now fuel = .ok (h, false))) := by
  refine ⟨rfl, ?_⟩
  have hok : (Hub.run demoWaitingHub [.timeout "game_1" 1]).isOk = true := by decide
  cases hrun : Hub.run demoWaitingHub [.timeout "game_1" 1] with
  | error e =>
    rw [hrun] at hok
    cases hok
  | ok h =>
    exact ⟨h, rfl, C24_playing_session_has_open_column demoWaitingHub h "game_1" "game_1"
      demoAlice 0 _ rfl hrun⟩

/-- C25, instance: bob joins the waiting session of alice, then each of them
plays column 3. -/
theorem C25_no_index_out_of_range_witness :
    demoWaitingHub.Games "game_1" = some (NewGame "game_1" demoAlice 0) ∧
    ∃ h : Hub, Hub.run demoWaitingHub
        [.join "game_1" demoBob 0, .move "game_1" "p1" 3 1, .move "game_1" "p2" 3 2] = .ok h ∧
      ∃ g, h.Games "game_1" = some g ∧
        (g.CurrentPlayer = 0 ∨ g.CurrentPlayer = 1) ∧
        (∃ p, g.GetCurrentPlayer = .ok p) ∧
        (∀ (column : Int) (now : Nat), ∃ g1 res, g.MakeMove column now = .ok (g1, res)) ∧
        (∀ row col : Int, inGrid row col →
          (∃ s1 s2 : Int × Int, walkUpLeft 7 row col = .ok s1 ∧ inGrid s1.1 s1.2 ∧
            walkUpRight 7 row col = .ok s2 ∧ inGrid s2.1 s2.2) ∧
          ∃ v, g.CheckWin row col = .ok v) ∧
        (∀ (playerID : String) (column : Int) (now : Nat),
          ∃ r, h.MakeMove "game_1" playerID column now = .ok r) := by
  refine ⟨rfl, ?_⟩
  have hok : (Hub.run demoWaitingHub
      [.join "game_1" demoBob 0, .move "game_1" "p1" 3 1, .move "game_1" "p2" 3 2]).isOk
      = true := by decide
  cases hrun : Hub.run demoWaitingHub
      [.join "game_1" demoBob 0, .move "game_1" "p1" 3 1, .move "game_1" "p2" 3 2] with
  | error e =>
    rw [hrun] at hok
    cases hok
  | ok h =>
    exact ⟨h, rfl, C25_no_index_out_of_range demoWaitingHub h "game_1" "game_1"
      demoAlice 0 _ rfl hrun⟩

/-! ## The fallback search of `makeBotMove` -/

set_option maxRecDepth 100000 in
/-- `demoBotCentreFull` is reached through the hub: the join timeout adds the
automated participant, which moves first; it and alice play column 3 in turn. -/
theorem demoBotCentreFull_reached :
    (Hub.run demoWaitingHub
        [.timeout "game_1" 1, .bot "game_1" 3 1 0, .move "game_1" "p1" 3 2,
         .bot "game_1" 3 3 0, .move "game_1" "p1" 3 4, .bot "game_1" 3 5 0,
         .move "game_1" "p1" 3 6]).map
      (fun h =>
        match h.Games "game_1" with
        | some g =>
          decide (g.Board = demoBotCentreFull.Board) && decide (g.Status = demoBotCentreFull.Status) &&
          decide (g.CurrentPlayer = demoBotCentreFull.CurrentPlayer) &&
          decide (g.Players = demoBotCentreFull.Players) &&
          decide (g.Winner = demoBotCentreFull.Winner) &&
          decide (g.LastMoveAt = demoBotCentreFull.LastMoveAt) &&
          decide (g.ID = demoBotCentreFull.ID) &&
          decide (g.CreatedAt = demoBotCentreFull.CreatedAt)
        | none => false) = .ok true := by
  decide

/-- A hub operation adds no session. -/
theorem Hub.step_absent (h h1 : Hub) (op : HubOp) (hstep : h.step op = .ok h1)
    (id : String) (hnone : h.Games id = none) : h1.Games id = none := by
  have keep : ∀ (k : String) (x g : Game), h.Games k = some g →
      (h.setGame k x).Games id = none := by
    intro k x g hk
    have hne : id ≠ k := by
      intro e
      rw [e, hk] at hnone
      cases hnone
    rw [Hub.setGame_other h k id x hne]
    exact hnone
  cases op with
  | join gameID player2 seed =>
    simp only [Hub.step, bind_eq_ok] at hstep
    obtain ⟨r, hr, hh⟩ := hstep
    injection hh with hh
    subst hh
    unfold Hub.JoinGame at hr
    split at hr
    · injection hr with hr; subst hr; exact hnone
    · rename_i game hgame
      split at hr
      · injection hr with hr; subst hr; exact hnone
      · simp only [bind_eq_ok] at hr
        obtain ⟨sch, _, hr⟩ := hr
        injection hr with hr
        subst hr
        exact keep _ _ game hgame
  | timeout gameID seed =>
    simp only [Hub.step, bind_eq_ok] at hstep
    obtain ⟨r, hr, hh⟩ := hstep
    injection hh with hh
    subst hh
    unfold Hub.startBotTimeout at hr
    split at hr
    · injection hr with hr; subst hr; exact hnone
    · rename_i game hgame
      split at hr
      · simp only [bind_eq_ok] at hr
        obtain ⟨sch, _, hr⟩ := hr
        injection hr with hr
        subst hr
        exact keep _ _ game hgame
      · injection hr with hr; subst hr; exact hnone
  | move gameID playerID column now =>
    simp only [Hub.step, bind_eq_ok] at hstep
    obtain ⟨r, hr, hh⟩ := hstep
    injection hh with hh
    subst hh
    unfold Hub.MakeMove at hr
    split at hr
    · injection hr with hr; subst hr; exact hnone
    · rename_i game hgame
      simp only [bind_eq_ok] at hr
      obtain ⟨cur, _, hr⟩ := hr
      split at hr
      · injection hr with hr; subst hr; exact hnone
      · simp only [bind_eq_ok] at hr
        obtain ⟨moved, _, hr⟩ := hr
        have hkeep := keep gameID moved.1 game hgame
        split at hr
        · injection hr with hr; subst hr; exact hkeep
        · split at hr
          · split at hr
            · simp only [bind_eq_ok] at hr
              obtain ⟨nxt, _, hr⟩ := hr
              split at hr <;> (injection hr with hr; subst hr; exact hkeep)
            · injection hr with hr; subst hr; exact hkeep
          · injection hr with hr; subst hr; exact hkeep
  | bot gameID seed now fuel =>
    simp only [Hub.step, bind_eq_ok] at hstep
    obtain ⟨r, hr, hh⟩ := hstep
    injection hh with hh
    subst hh
    unfold Hub.makeBotMove at hr
    split at hr
    · injection hr with hr; subst hr; exact hnone
    · rename_i game hgame
      split at hr
      · injection hr with hr; subst hr; exact hnone
      · simp only [bind_eq_ok] at hr
        obtain ⟨cur, _, hr⟩ := hr
        split at hr
        · injection hr with hr; subst hr; exact hnone
        · simp only [bind_eq_ok] at hr
          obtain ⟨chosen, _, hr⟩ := hr
          split at hr
          · simp only [bind_eq_ok] at hr
            obtain ⟨moved, _, hr⟩ := hr
            have hkeep := keep gameID moved.1 game hgame
            split at hr
            · injection hr with hr; subst hr; exact hkeep
            · simp only [bind_eq_ok] at hr
              obtain ⟨again, _, hr⟩ := hr
              injection hr with hr; subst hr; exact hkeep
          · simp only [bind_eq_ok] at hr
            obtain ⟨game2, _, hr⟩ := hr
            injection hr with hr
            subst hr
            exact keep gameID game2 game hgame

theorem settle_CreatedAt (g1 : Game) (win full : Bool) :
    (g1.settle win full).CreatedAt = g1.CreatedAt := by
  unfold Game.settle
  split
  · rfl
  · split <;> rfl

/-- No hub operation changes the creation time of a session. -/
theorem sessionStep_CreatedAt (g g1 : Game) (hstep : g.sessionStep g1) :
    g1.CreatedAt = g.CreatedAt := by
  rcases hstep with rfl | ⟨_, hadd⟩ | ⟨hs, column, now, res, he⟩
  · rfl
  · rcases hadd with ⟨p, seed, rfl⟩ | ⟨seed, rfl⟩ <;> rfl
  · rcases MakeMove_outcome g g1 column now res hs he with ⟨rfl, _⟩ | ⟨row, c, win, full, _, _, rfl⟩
    · rfl
    · rw [settle_CreatedAt]
      rfl

/-- An action other than a `CreateGame` of the id adds no session under it. -/
theorem Hub.act_absent (h h1 : Hub) (a : HubAction) (id : String) (hact : h.act a = .ok h1)
    (hcr : ¬ a.creates id) (hnone : h.Games id = none) : h1.Games id = none := by
  cases a with
  | op o => exact Hub.step_absent h h1 o hact id hnone
  | sweep t keys =>
    simp only [Hub.act] at hact
    injection hact with hact
    subst hact
    rw [cleanupPass_spec, hnone]
    simp
  | create gameID player1 now =>
    simp only [Hub.act] at hact
    injection hact with hact
    subst hact
    have hne : id ≠ gameID := fun e => hcr e.symm
    show (h.setGame gameID _).Games id = none
    rw [Hub.setGame_other h gameID id _ hne]
    exact hnone

/-- An action other than a `CreateGame` of the id leaves a started session
started, with its creation time, unless it is a pass of the sweeper more than
one hour after that time, which may remove it. -/
theorem Hub.act_started (h h1 : Hub) (a : HubAction) (id : String) (g : Game)
    (hact : h.act a = .ok h1) (hcr : ¬ a.creates id) (hg : h.Games id = some g)
    (hs : g.Status = "playing" ∨ g.Status = "finished") :
    (h1.Games id = none ∧ a.sweepsPast g.CreatedAt) ∨
    ∃ g2, h1.Games id = some g2 ∧ (g2.Status = "playing" ∨ g2.Status = "finished") ∧
      g2.CreatedAt = g.CreatedAt := by
  cases a with
  | op o =>
    obtain ⟨g1, hg1, hss⟩ := Hub.step_session h h1 o hact id g hg
    obtain ⟨_, hplay, hother⟩ := sessionStep_status g g1 hss
    refine Or.inr ⟨g1, hg1, ?_, sessionStep_CreatedAt g g1 hss⟩
    rcases hs with hs | hs
    · exact hplay hs
    · have : g1 = g := hother (by rw [hs]; exact fun e => status_waiting_ne_finished e.symm)
        (by rw [hs]; exact fun e => status_playing_ne_finished e.symm)
      rw [this]
      exact Or.inr hs
  | sweep t keys =>
    simp only [Hub.act] at hact
    injection hact with hact
    subst hact
    by_cases hpast : (t : Int) - (g.CreatedAt : Int) > timeHour
    · by_cases hk : id ∈ keys
      · left
        refine ⟨?_, hpast⟩
        rw [cleanupPass_spec, if_pos hk, hg]
        have : ¬ ((t : Int) - (g.CreatedAt : Int) ≤ timeHour) := by omega
        simp [Option.filter, this]
      · right
        refine ⟨g, ?_, hs, rfl⟩
        rw [cleanupPass_spec, if_neg hk]
        exact hg
    · right
      refine ⟨g, ?_, hs, rfl⟩
      rw [cleanupPass_spec, hg]
      have : (t : Int) - (g.CreatedAt : Int) ≤ timeHour := by omega
      split
      · simp [Option.filter, this]
      · rfl
  | create gameID player1 now =>
    simp only [Hub.act] at hact
    injection hact with hact
    subst hact
    have hne : id ≠ gameID := fun e => hcr e.symm
    refine Or.inr ⟨g, ?_, hs, rfl⟩
    show (h.setGame gameID _).Games id = some g
    rw [Hub.setGame_other h gameID id _ hne]
    exact hg

theorem runActions_absent (id : String) (acts : List HubAction) :
    ∀ (h h2 : Hub), Hub.runActions h acts = .ok h2 → (∀ a ∈ acts, ¬ a.creates id) →
      h.Games id = none → h2.Games id = none := by
  induction acts with
  | nil =>
    intro h h2 hrun _ hnone
    simp only [Hub.runActions] at hrun
    injection hrun with hrun
    subst hrun
    exact hnone
  | cons a rest ih =>
    intro h h2 hrun hcr hnone
    simp only [Hub.runActions, bind_eq_ok] at hrun
    obtain ⟨h1, hact, hrest⟩ := hrun
    exact ih h1 h2 hrest (fun b hb => hcr b (List.mem_cons_of_mem a hb))
      (Hub.act_absent h h1 a id hact (hcr a (List.mem_cons_self a rest)) hnone)

/-- Along a run of actions without a `CreateGame` of the id, a started session
stays started, or is gone after a pass of the sweeper more than one hour after
its creation. -/
theorem runActions_started (id : String) (acts : List HubAction) :
    ∀ (h h2 : Hub) (g : Game), Hub.runActions h acts = .ok h2 →
      (∀ a ∈ acts, ¬ a.creates id) → h.Games id = some g →
      (g.Status = "playing" ∨ g.Status = "finished") →
      (h2.Games id = none ∧ ∃ a ∈ acts, a.sweepsPast g.CreatedAt) ∨
      ∃ g2, h2.Games id = some g2 ∧ (g2.Status = "playing" ∨ g2.Status = "finished") := by
  induction acts with
  | nil =>
    intro h h2 g hrun _ hg hs
    simp only [Hub.runActions] at hrun
    injection hrun with hrun
    subst hrun
    exact Or.inr ⟨g, hg, hs⟩
  | cons a rest ih =>
    intro h h2 g hrun hcr hg hs
    simp only [Hub.runActions, bind_eq_ok] at hrun
    obtain ⟨h1, hact, hrest⟩ := hrun
    have hcr1 : ∀ b ∈ rest, ¬ b.creates id := fun b hb => hcr b (List.mem_cons_of_mem a hb)
    rcases Hub.act_started h h1 a id g hact (hcr a (List.mem_cons_self a rest)) hg hs with
      ⟨hnone, hpast⟩ | ⟨g1, hg1, hs1, hc1⟩
    · exact Or.inl ⟨runActions_absent id rest h1 h2 hrest hcr1 hnone,
        a, List.mem_cons_self a rest, hpast⟩
    · rcases ih h1 h2 g1 hrest hcr1 hg1 hs1 with ⟨hnone, b, hb, hpast⟩ | hkeep
      · rw [hc1] at hpast
        exact Or.inl ⟨hnone, b, List.mem_cons_of_mem a hb, hpast⟩
      · exact Or.inr hkeep

/-- C5 (amended): `JoinGame` on an absent id fails with "game not found"; on a
session whose status is "waiting" it succeeds and leaves the session "playing",
with turn index 0 or 1, the joining participant in slot 1, and slot 0, the
board and the other sessions unchanged. After that, whatever runs in between
(hub operations, passes of the sweeper, `CreateGame` of other ids), each
`JoinGame` on the id fails and changes nothing: with "game already started"
exactly when the session is still in the hub, which it is as long as no pass
of the sweeper ran more than one hour after its creation, and with "game not
found" once the sweeper has removed it. -/
theorem C5_JoinGame (h : Hub) (id : String) (player2 : Player) (seed : Nat) :
    (h.Games id = none →
      ∃ r, h.JoinGame id player2 seed = .ok r ∧ r.err = some "game not found" ∧
        r.game = none ∧ r.hub = h) ∧
    (∀ g : Game, h.Games id = some g → g.Status = "waiting" →
      ∃ (r : HubResult) (g1 : Game), h.JoinGame id player2 seed = .ok r ∧
        r.err = none ∧ r.game = some g1 ∧ r.hub.Games id = some g1 ∧
        (∀ k : String, k ≠ id → r.hub.Games k = h.Games k) ∧
        g1.Status = "playing" ∧ (g1.CurrentPlayer = 0 ∨ g1.CurrentPlayer = 1) ∧
        g1.Players 1 = player2 ∧ g1.Players 0 = g.Players 0 ∧ g1.Board = g.Board ∧
        ∀ (acts : List HubAction) (h2 : Hub), (∀ a ∈ acts, ¬ a.creates id) →
          Hub.runActions r.hub acts = .ok h2 →
          ∀ (player3 : Player) (seed3 : Nat),
            ∃ r3, h2.JoinGame id player3 seed3 = .ok r3 ∧ r3.game = none ∧ r3.hub = h2 ∧
              ((∃ g2, h2.Games id = some g2) → r3.err = some "game already started") ∧
              (h2.Games id = none → r3.err = some "game not found") ∧
              ((∀ a ∈ acts, ¬ a.sweepsPast g.CreatedAt) →
                r3.err = some "game already started")) := by
  constructor
  · intro hg
    refine ⟨⟨h, none, some "game not found", false⟩, ?_, rfl, rfl, rfl⟩
    simp [Hub.JoinGame, hg]
  · intro g hg hw
    have hcp : (g.AddPlayer player2 seed).CurrentPlayer = 0 ∨
        (g.AddPlayer player2 seed).CurrentPlayer = 1 := Intn_two seed
    obtain ⟨sch, hsch⟩ := botToMove_ok (g.AddPlayer player2 seed) hcp
    refine ⟨⟨h.setGame id (g.AddPlayer player2 seed), some (g.AddPlayer player2 seed), none, sch⟩,
      g.AddPlayer player2 seed, ?_, rfl, rfl, Hub.setGame_same _ _ _, ?_, rfl, hcp, ?_, ?_, rfl, ?_⟩
    · simp [Hub.JoinGame, hg, hw, hsch]
    · intro k hk
      exact Hub.setGame_other h id k _ hk
    · simp [Game.AddPlayer]
    · simp [Game.AddPlayer]
    · intro acts h2 hcr hrun player3 seed3
      rcases runActions_started id acts _ h2 (g.AddPlayer player2 seed) hrun hcr
          (Hub.setGame_same _ _ _) (Or.inl rfl) with ⟨hnone, a, ha, hpast⟩ | ⟨g2, hg2, hs2⟩
      · refine ⟨⟨h2, none, some "game not found", false⟩, by simp [Hub.JoinGame, hnone],
          rfl, rfl, ?_, fun _ => rfl, ?_⟩
        · rintro ⟨g2, hg2⟩
          rw [hnone] at hg2
          cases hg2
        · intro hno
          exact absurd hpast (hno a ha)
      · have hnw : g2.Status ≠ "waiting" := by
          rcases hs2 with hs2 | hs2 <;> rw [hs2]
          · exact fun e => status_waiting_ne_playing e.symm
          · exact fun e => status_waiting_ne_finished e.symm
        refine ⟨_, JoinGame_started h2 id g2 player3 seed3 hg2 hnw, rfl, rfl, fun _ => rfl, ?_,
          fun _ => rfl⟩
        intro hnone
        rw [hnone] at hg2
        cases hg2

/-- C5, instance: bob joins the waiting session of alice; alice moves, the
sweeper passes half an hour after the creation, another session is created;
a second join then fails with "game already started". -/
theorem C5_JoinGame_witness :
    (demoWaitingHub.Games "game_1" = some (NewGame "game_1" demoAlice 0) ∧
      (NewGame "game_1" demoAlice 0).Status = "waiting") ∧
    ∃ (r : HubResult) (g1 : Game), demoWaitingHub.JoinGame "game_1" demoBob 0 = .ok r ∧
      r.err = none ∧ r.game = some g1 ∧ g1.Status = "playing" ∧
      (g1.CurrentPlayer = 0 ∨ g1.CurrentPlayer = 1) ∧ g1.Players 1 = demoBob ∧
      ∃ h2 : Hub, Hub.runActions r.hub
          [.op (.move "game_1" "p1" 3 1), .sweep 1800000000000 ["game_1"],
           .create "game_2" demoBob 2] = .ok h2 ∧
        ∃ r3, h2.JoinGame "game_1" demoAlice 1 = .ok r3 ∧
          r3.err = some "game already started" ∧ r3.game = none ∧ r3.hub = h2 := by
  obtain ⟨r, g1, hr, herr, hgame, _, _, hs, hcp, hp1, _, _, hagain⟩ :=
    (C5_JoinGame demoWaitingHub "game_1" demoBob 0).2 (NewGame "game_1" demoAlice 0) rfl rfl
  have hhub : r.hub = demoWaitingHub.setGame "game_1" demoFresh := by
    have e : demoWaitingHub.JoinGame "game_1" demoBob 0
        = .ok ⟨demoWaitingHub.setGame "game_1" demoFresh, some demoFresh, none, false⟩ := rfl
    rw [e] at hr
    injection hr with hr
    rw [← hr]
  have hok : (Hub.runActions (demoWaitingHub.setGame "game_1" demoFresh)
      [.op (.move "game_1" "p1" 3 1), .sweep 1800000000000 ["game_1"],
       .create "game_2" demoBob 2]).isOk = true := by decide
  cases hrun : Hub.runActions (demoWaitingHub.setGame "game_1" demoFresh)
      [.op (.move "game_1" "p1" 3 1), .sweep 1800000000000 ["game_1"],
       .create "game_2" demoBob 2] with
  | error e =>
    rw [hrun] at hok
    cases hok
  | ok h2 =>
    rw [← hhub] at hrun
    obtain ⟨r3, hr3, hg3, hh3, _, _, hstarted⟩ := hagain _ h2
      (by
        intro a ha
        simp only [List.mem_cons, List.mem_singleton, List.not_mem_nil, or_false] at ha
        rcases ha with rfl | rfl | rfl
        · exact fun e => e
        · exact fun e => e
        · intro e
          have e1 : ("game_2" : String) = "game_1" := e
          exact absurd e1 (by decide))
      hrun demoAlice 1
    refine ⟨⟨rfl, rfl⟩, r, g1, hr, herr, hgame, hs, hcp, hp1, h2, hrun, r3, hr3, ?_, hg3, hh3⟩
    apply hstarted
    intro a ha
    simp only [List.mem_cons, List.mem_singleton, List.not_mem_nil, or_false] at ha
    rcases ha with rfl | rfl | rfl
    · exact fun e => e
    · show ¬ ((1800000000000 : Nat) : Int) - (((NewGame "game_1" demoAlice 0).CreatedAt : Nat) : Int)
          > timeHour
      decide
    · exact fun e => e

/-- C5 as stated fails: bob joins the waiting session of alice, created at time
0; a pass of the sweeper just over one hour later removes the session, and the
next `JoinGame` on the id fails with "game not found", not with "game already
started". -/
theorem C5_counterexample :
    ∃ r : HubResult, demoWaitingHub.JoinGame "game_1" demoBob 0 = .ok r ∧ r.err = none ∧
      ∃ h2 : Hub, Hub.runActions r.hub [.sweep 3600000000001 ["game_1"]] = .ok h2 ∧
        ∃ r3 : HubResult, h2.JoinGame "game_1" demoAlice 1 = .ok r3 ∧
          r3.err = some "game not found" ∧ r3.err ≠ some "game already started" := by
  have hnone : ((demoWaitingHub.setGame "game_1" demoFresh).cleanupPass 3600000000001
      ["game_1"]).Games "game_1" = none := by
    rw [cleanupPass_spec]
    decide
  exact ⟨⟨demoWaitingHub.setGame "game_1" demoFresh, some demoFresh, none, false⟩, rfl, rfl,
    (demoWaitingHub.setGame "game_1" demoFresh).cleanupPass 3600000000001 ["game_1"], rfl,
    ⟨(demoWaitingHub.setGame "game_1" demoFresh).cleanupPass 3600000000001 ["game_1"], none,
      some "game not found", false⟩, by simp [Hub.JoinGame, hnone], rfl, by decide⟩

end ConnectFour
